import Mathlib

/-!
# Elevator system: a shallow embedding of the controller, the car, the safety
monitor, the internal controls, the framed transport and the floor arithmetic

C strings are modelled as `List Char` (the characters before the terminating
NUL).  A pointer into the ride queue is modelled by the position of the node in
the list of nodes, `NULL` by the absence of such a position.  The threads and
processes that share the memory of a car are modelled from the side of the car
thread: what the others do while it has released the mutex is a list of
interferences.  A loop that may run for ever takes a bound on its number of
passes.
-/

namespace Elevator

/-! ## Constants of `shared.h` -/

/-- `#define MAX_FLOOR_LENGTH 4` -/
def MAX_FLOOR_LENGTH : Nat := 4

/-- `#define MAX_STATUS_LENGTH 8` -/
def MAX_STATUS_LENGTH : Nat := 8

/-- `#define MAX_CAR_NAME_LENGTH 255` -/
def MAX_CAR_NAME_LENGTH : Nat := 255

/-- The two values `UP` (the character U) and `DOWN` (the character D) that the
program ever stores in a `char direction`. -/
inductive Direction where
  | UP
  | DOWN
deriving DecidableEq, Repr

open Direction

/-! ## The libc functions the sources call -/

/-- `strncmp(a, b, n) == 0`: the two strings agree on their first `n`
characters (or entirely, when both are shorter). -/
def strncmp_eq (a b : List Char) (n : Nat) : Bool :=
  decide (a.take n = b.take n)

/-- `strncpy(dst, src, n)` followed by reading `dst` back: at most `n`
characters of `src` are stored.  This is what is read back when `src` has fewer
than `n` characters, or when only `n` bytes of `dst` are read (`strncmp` with
the same `n`).  A buffer filled with `n` characters holds no terminating NUL,
and `atoi`, `strcmp` or `%s` read on into the memory behind it; the statements
about such reads assume strings that fit their buffers. -/
def strncpy (src : List Char) (n : Nat) : List Char :=
  src.take n

/-- `isdigit` in the C locale. -/
def isdigit (c : Char) : Bool :=
  decide (48 ≤ c.toNat ∧ c.toNat ≤ 57)

/-- `isspace` in the C locale: space, and the controls 9 to 13. -/
def isspace (c : Char) : Bool :=
  decide (c.toNat = 32 ∨ (9 ≤ c.toNat ∧ c.toNat ≤ 13))

/-- The digit loop of `atoi`: consume decimal digits, stop at the first other
character. -/
def atoi_digits : Nat → List Char → Nat
  | acc, [] => acc
  | acc, c :: cs => if isdigit c then atoi_digits (acc * 10 + (c.toNat - 48)) cs else acc

/-- `atoi` as the C library of the program computes it,
`(int) strtol(s, NULL, 10)`: skip white space, read an optional sign, then the
digits; the number they denote is cut to the range of `long` (64 bits) and
converted to `int` (32 bits, modulo 2^32).  For a string of at most nine
digits, so for every valid floor label, it is the number the digits denote. -/
def atoi (s : List Char) : Int :=
  let value : Int :=
    match s.dropWhile isspace with
    | [] => 0
    | c :: cs =>
      if c = '-' then - (atoi_digits 0 cs : Int)
      else if c = '+' then (atoi_digits 0 cs : Int)
      else (atoi_digits 0 (c :: cs) : Int)
  let as_long : Int := max (-9223372036854775808) (min value 9223372036854775807)
  (as_long + 2147483648) % 4294967296 - 2147483648

/-- The text `printf` writes for `%d`. -/
def fmt_d (n : Int) : List Char :=
  if n < 0 then '-' :: Nat.toDigits 10 n.natAbs else Nat.toDigits 10 n.toNat

/-- `snprintf(buf, size, ...)` followed by reading `buf` back: the formatted
text cut to `size - 1` characters. -/
def snprintf (size : Nat) (text : List Char) : List Char :=
  text.take (size - 1)

/-! ## Floor arithmetic (`shared.c`) -/

/-- `floor[i]` of a C string: the terminating NUL behind the last character. -/
def char_at (s : List Char) (i : Nat) : Char :=
  s.getD i (Char.ofNat 0)

/-- `is_valid_floor` of `shared.c`. -/
def is_valid_floor (floor : List Char) : Bool :=
  let len := floor.length
  if char_at floor 0 = 'B' then
    if char_at floor 1 = '0' then false
    else if len < 2 ∨ len > 3 then false
    else (floor.drop 1).all isdigit
  else
    if char_at floor 0 = '0' then false
    else if len < 1 ∨ len > 3 then false
    else floor.all isdigit

/-- `are_consecutive_floors(before, after)` of `shared.c`: `before` is at or
below `after`. -/
def are_consecutive_floors (before after : List Char) : Bool :=
  if char_at before 0 = 'B' ∧ char_at after 0 = 'B' then
    decide (atoi (before.drop 1) ≥ atoi (after.drop 1))
  else if char_at before 0 = 'B' then true
  else if char_at after 0 = 'B' then false
  else decide (atoi before ≤ atoi after)

/-- `is_floor_within_bounds` of `shared.c`. -/
def is_floor_within_bounds (floor lowest_floor highest_floor : List Char) : Bool :=
  are_consecutive_floors lowest_floor floor && are_consecutive_floors floor highest_floor

/-- `increment_floor` of `shared.c`; the result is the new content of the
buffer `floor`. -/
def increment_floor (floor : List Char) : List Char :=
  if char_at floor 0 = 'B' then
    let floor_num := atoi (floor.drop 1)
    if floor_num = 1 then ['1']
    else snprintf 4 ('B' :: fmt_d (floor_num - 1))
  else
    let floor_num := atoi floor
    if floor_num = 999 then ['9', '9', '9']
    else snprintf 4 (fmt_d (floor_num + 1))

/-- `decrement_floor` of `shared.c`. -/
def decrement_floor (floor : List Char) : List Char :=
  if char_at floor 0 = 'B' then
    let floor_num := atoi (floor.drop 1)
    if floor_num = 99 then ['B', '9', '9']
    else snprintf 4 ('B' :: fmt_d (floor_num + 1))
  else
    let floor_num := atoi floor
    if floor_num = 1 then ['B', '1']
    else snprintf 4 (fmt_d (floor_num - 1))

/-- `set_next_floor` of `shared.c`. -/
def set_next_floor (floor : List Char) (direction : Direction) : List Char :=
  if direction = UP then increment_floor floor else decrement_floor floor

/-! ## The ride queue and the car record (`car_vector.h`, `controller.c`) -/

/-- `QueueNode` of `car_vector.h`; the `next` pointer is the order of the list
the nodes are kept in. -/
structure QueueNode where
  floor : List Char
  direction : Direction
deriving DecidableEq, Repr

/-- `Car` of `car_vector.h` (without its mutex). -/
structure Car where
  car_name : List Char
  lowest_floor : List Char
  highest_floor : List Char
  status : List Char
  current_floor : List Char
  destination_floor : List Char
  clientfd : Int
  queue : List QueueNode
deriving DecidableEq, Repr

/-- `queue_size` of `controller.c`. -/
def queue_size (head : List QueueNode) : Nat :=
  head.length

/-- `queue_add(after, floor, direction)` of `controller.c`, `after` being the
node at position `after` of `q`: nothing is added when the node behind it
already holds `floor` and `direction`, otherwise a new node is linked in right
behind it. -/
def queue_add (q : List QueueNode) (after : Nat) (floor : List Char)
    (direction : Direction) : List QueueNode :=
  match q.get? (after + 1) with
  | some next =>
    if strncmp_eq next.floor floor MAX_FLOOR_LENGTH && decide (next.direction = direction) then q
    else q.take (after + 1) ++ ⟨strncpy floor MAX_FLOOR_LENGTH, direction⟩ :: q.drop (after + 1)
  | none => q.take (after + 1) ++ ⟨strncpy floor MAX_FLOOR_LENGTH, direction⟩ :: q.drop (after + 1)

/-- `queue_push_front` of `controller.c`. -/
def queue_push_front (head : List QueueNode) (floor : List Char)
    (direction : Direction) : List QueueNode :=
  ⟨strncpy floor MAX_FLOOR_LENGTH, direction⟩ :: head

/-- `queue_pop` of `controller.c`. -/
def queue_pop (head : List QueueNode) : List QueueNode :=
  match head with
  | [] => []
  | _ :: rest => rest

/-- `queue_pop_single` of `controller.c`. -/
def queue_pop_single (head : List QueueNode) (floor : List Char) : List QueueNode :=
  match head with
  | [] => []
  | first :: _ =>
    if strncmp_eq first.floor floor MAX_FLOOR_LENGTH then queue_pop head else head

/-- `queue_pop_double` of `controller.c`. -/
def queue_pop_double (head : List QueueNode) (floor : List Char) : List QueueNode :=
  queue_pop_single (queue_pop_single head floor) floor

/-- `add_virtual_node` of `controller.c`: the returned number and the car with
its new queue. -/
def add_virtual_node (car : Car) (direction : Direction) : Nat × Car :=
  if strncmp_eq car.status "Between".toList MAX_STATUS_LENGTH then
    let direction :=
      if are_consecutive_floors car.current_floor car.destination_floor then UP else DOWN
    let next_floor := set_next_floor (strncpy car.current_floor MAX_FLOOR_LENGTH) direction
    if strncmp_eq next_floor car.destination_floor MAX_FLOOR_LENGTH then (0, car)
    else (1, { car with queue := queue_push_front car.queue next_floor direction })
  else
    let direction :=
      match car.queue with
      | [] => direction
      | first :: _ =>
        if strncmp_eq car.current_floor first.floor MAX_FLOOR_LENGTH then first.direction
        else if are_consecutive_floors car.current_floor first.floor then UP else DOWN
    (1, { car with queue := queue_push_front car.queue car.current_floor direction })

/-- `is_valid_order` of `controller.c`. -/
def is_valid_order (source_floor destination_floor : List Char) (direction : Direction) : Bool :=
  if strncmp_eq source_floor destination_floor MAX_FLOOR_LENGTH then true
  else if direction = UP ∧ are_consecutive_floors source_floor destination_floor = true then true
  else if direction = DOWN ∧ are_consecutive_floors destination_floor source_floor = true then true
  else false

/-- The `while (current != NULL)` loop of `schedule_floors`.  `prev` is the
node at position `pi`, `current` the first node of the list in the third
argument (`NULL` when that list is empty), `suitable_pos` a position or `NULL`.
The result is the position of `prev` and `suitable_pos` when the loop is
left. -/
def seek_position (source_floor destination_floor : List Char) (direction : Direction) :
    Nat → QueueNode → List QueueNode → Option Nat → Nat × Option Nat
  | pi, _, [], suitable_pos => (pi, suitable_pos)
  | pi, prev, current :: rest, suitable_pos =>
    let suitable_pos := if prev.direction ≠ current.direction then none else suitable_pos
    if prev.direction = current.direction ∧ prev.direction ≠ direction then
      seek_position source_floor destination_floor direction (pi + 1) current rest suitable_pos
    else
      let suitable_pos :=
        if (decide (prev.direction ≠ direction) || is_valid_order prev.floor source_floor direction)
            && (decide (current.direction ≠ direction)
                || is_valid_order source_floor current.floor direction)
        then some pi else suitable_pos
      if suitable_pos.isSome
          && (decide (prev.direction ≠ direction)
              || is_valid_order prev.floor destination_floor direction)
          && (decide (current.direction ≠ direction)
              || is_valid_order destination_floor current.floor direction)
      then (pi, suitable_pos)
      else
        seek_position source_floor destination_floor direction (pi + 1) current rest suitable_pos

/-- The two `queue_add` calls that end `schedule_floors`, on the queue `q`
(virtual node included), `prev` and `suitable_pos` being positions in `q`.  A
node linked in behind `suitable_pos` moves the node `prev` points to one
position back when that node lies behind it. -/
def insert_floors (q : List QueueNode) (prev : Nat) (suitable_pos : Option Nat)
    (source_floor destination_floor : List Char) (direction : Direction) : List QueueNode :=
  match suitable_pos with
  | none =>
    let q1 := queue_add q prev source_floor direction
    queue_add q1 (prev + 1) destination_floor direction
  | some sp =>
    let q1 := queue_add q sp source_floor direction
    let prev1 := if sp = prev then prev + 1 else prev + (q1.length - q.length)
    queue_add q1 prev1 destination_floor direction

/-- The first pair `(prev, current)` the loop of `schedule_floors` looks at, on
the queue `first :: rest` (virtual node included): the position of `prev`, the
node `prev`, and the nodes from `current` on.  In the special case of a car
that is `Closing` the pair is moved one node on; `none` stands for reading
`current->next` through a `NULL` pointer. -/
def seek_start (status : List Char) (first : QueueNode) (rest : List QueueNode)
    (source_floor : List Char) (direction : Direction) :
    Option (Nat × QueueNode × List QueueNode) :=
  if strncmp_eq first.floor source_floor MAX_FLOOR_LENGTH
      && decide (first.direction = direction)
      && strncmp_eq status "Closing".toList MAX_STATUS_LENGTH then
    match rest with
    | [] => none
    | current :: rest1 => some (1, current, rest1)
  else some (0, first, rest)

/-- The direction `schedule_floors` gives a call. -/
def call_direction (source_floor destination_floor : List Char) : Direction :=
  if are_consecutive_floors source_floor destination_floor then UP else DOWN

/-- `schedule_floors` of `controller.c`.  `none` stands for the dereference of
a `NULL` pointer (`car->queue` or `current`). -/
def schedule_floors (car : Car) (source_floor destination_floor : List Char) : Option Car :=
  let direction := call_direction source_floor destination_floor
  let virtual_added := (add_virtual_node car direction).1
  let car := (add_virtual_node car direction).2
  match car.queue with
  | [] => none
  | first :: rest =>
    match seek_start car.status first rest source_floor direction with
    | none => none
    | some (pi, prev, tail) =>
      let found := seek_position source_floor destination_floor direction pi prev tail none
      let q := insert_floors car.queue found.1 found.2 source_floor destination_floor direction
      some { car with queue := if virtual_added ≠ 0 then queue_pop q else q }

/-! ## Car selection, calls and status reports (`controller.c`) -/

/-- `SIZE_MAX` on the 64-bit targets the program is built for. -/
def SIZE_MAX : Nat := 2 ^ 64 - 1

/-- The test of `choose_car` that a car can go to both floors of a call. -/
def can_serve (car : Car) (source_floor destination_floor : List Char) : Bool :=
  is_floor_within_bounds source_floor car.lowest_floor car.highest_floor
    && is_floor_within_bounds destination_floor car.lowest_floor car.highest_floor

/-- The `for` loop of `choose_car` over the cars from position `i` on; `car`
is the position of the car chosen so far (`NULL` as `none`). -/
def choose_car_loop (source_floor destination_floor : List Char) :
    List Car → Nat → Option Nat → Nat → Option Nat
  | [], _, car, _ => car
  | current_car :: rest, i, car, min_entries =>
    if !is_floor_within_bounds source_floor current_car.lowest_floor current_car.highest_floor
        || !is_floor_within_bounds destination_floor current_car.lowest_floor
            current_car.highest_floor then
      choose_car_loop source_floor destination_floor rest (i + 1) car min_entries
    else
      let entries := queue_size current_car.queue
      if entries < min_entries then
        choose_car_loop source_floor destination_floor rest (i + 1) (some i) entries
      else
        choose_car_loop source_floor destination_floor rest (i + 1) car min_entries

/-- `choose_car` of `controller.c` on the registry `cars`: the position of the
chosen car in the registry, `none` for `NULL`. -/
def choose_car (cars : List Car) (source_floor destination_floor : List Char) : Option Nat :=
  choose_car_loop source_floor destination_floor cars 0 none SIZE_MAX

/-- One call of `send_message(fd, msg)`: the frame `msg` goes out on `fd`. -/
structure Sent where
  fd : Int
  msg : List Char
deriving DecidableEq, Repr

/-- `handle_call` of `controller.c` on the registry `cars`: the registry
afterwards and the frames sent, in order.  `none` stands for the dereference
of a `NULL` pointer. -/
def handle_call (cars : List Car) (clientfd : Int) (source_floor destination_floor : List Char) :
    Option (List Car × List Sent) :=
  let sent0 : List Sent :=
    if cars.length = 0 then [⟨clientfd, "UNAVAILABLE".toList⟩] else []
  match choose_car cars source_floor destination_floor with
  | none => some (cars, sent0 ++ [⟨clientfd, "UNAVAILABLE".toList⟩])
  | some i =>
    match cars.get? i with
    | none => none
    | some chosen =>
      match schedule_floors chosen source_floor destination_floor with
      | none => none
      | some car =>
        match car.queue with
        | [] => none
        | first :: _ =>
          let sent1 : List Sent :=
            if !strncmp_eq car.destination_floor first.floor MAX_FLOOR_LENGTH
                || strncmp_eq car.current_floor first.floor MAX_FLOOR_LENGTH then
              [⟨car.clientfd, snprintf 10 ("FLOOR ".toList ++ first.floor)⟩]
            else []
          some (cars.set i car,
            sent0 ++ sent1 ++
              [⟨clientfd, snprintf (MAX_CAR_NAME_LENGTH + 5) ("CAR ".toList ++ car.car_name)⟩])

/-- `update_car_state` of `controller.c`: the car afterwards and the frames
sent. -/
def update_car_state (car : Car) (status current_floor destination_floor : List Char) :
    Car × List Sent :=
  let car := { car with
    status := strncpy status MAX_STATUS_LENGTH
    current_floor := strncpy current_floor MAX_FLOOR_LENGTH
    destination_floor := strncpy destination_floor MAX_FLOOR_LENGTH }
  if !strncmp_eq status "Opening".toList MAX_STATUS_LENGTH
      || !strncmp_eq current_floor destination_floor MAX_FLOOR_LENGTH then
    (car, [])
  else
    let queue := queue_pop_double car.queue current_floor
    match queue with
    | [] => ({ car with queue := queue }, [])
    | first :: _ =>
      ({ car with queue := queue }, [⟨car.clientfd, snprintf 10 ("FLOOR ".toList ++ first.floor)⟩])

/-- The reading end of a connection. -/
structure InStream where
  pending : List Char
  script : List (Option Nat)
deriving DecidableEq, Repr

/-- The writing end of a connection. -/
structure OutStream where
  written : List Char
  script : List (Option Nat)
deriving DecidableEq, Repr

/-- How many bytes one system call transfers when `count` are asked for and the
script says `limit`. -/
def transfer_size (limit : Option (Option Nat)) (count : Nat) : Nat :=
  match limit with
  | some (some k) => min count (max 1 k)
  | _ => count

/-- `read(fd, ptr, count)`: the return value, the bytes stored and the stream
afterwards.  At the end of the data of a peer that has closed it returns 0. -/
def read (fd : InStream) (count : Nat) : Int × List Char × InStream :=
  match fd.script.head? with
  | some none => (-1, [], { fd with script := fd.script.tail })
  | limit =>
    let n := min (transfer_size limit count) fd.pending.length
    (n, fd.pending.take n, { pending := fd.pending.drop n, script := fd.script.tail })

/-- `write(fd, ptr, count)` of the bytes `data`: the return value and the
stream afterwards. -/
def write (fd : OutStream) (data : List Char) (count : Nat) : Int × OutStream :=
  match fd.script.head? with
  | some none => (-1, { fd with script := fd.script.tail })
  | limit =>
    let n := transfer_size limit count
    (n, { written := fd.written ++ data.take n, script := fd.script.tail })

/-- `recv_looped` of `shared.c`: the return value, the bytes stored in `buf` and
the stream afterwards.  `fuel` bounds the number of times the loop condition is
evaluated; `none` says the loop is still running when it is used up. -/
def recv_looped : Nat → InStream → Nat → List Char → Option (Int × List Char × InStream)
  | 0, _, _, _ => none
  | fuel + 1, fd, remain, buf =>
    if remain > 0 then
      let received := (read fd remain).1
      if received = -1 then some (-1, buf, (read fd remain).2.2)
      else
        recv_looped fuel (read fd remain).2.2 (remain - received.toNat)
          (buf ++ (read fd remain).2.1)
    else some (0, buf, fd)

/-- `ntohl` of the four bytes read from the stream: their big-endian value. -/
def ntohl (nlen : List Char) : Nat :=
  (char_at nlen 0).toNat * 2 ^ 24 + (char_at nlen 1).toNat * 2 ^ 16
    + (char_at nlen 2).toNat * 2 ^ 8 + (char_at nlen 3).toNat

/-- The four bytes of `htonl(n)` in memory order, for `n` below `2 ^ 32`. -/
def htonl (n : Nat) : List Char :=
  [Char.ofNat (n / 2 ^ 24 % 256), Char.ofNat (n / 2 ^ 16 % 256), Char.ofNat (n / 2 ^ 8 % 256),
    Char.ofNat (n % 256)]

/-- What `receive_msg` returns: the buffer with the payload, `NULL`, or nothing
defined because `buf[len]` lies outside the allocated block. -/
inductive Received where
  | message (buf : List Char)
  | null
  | out_of_bounds
deriving DecidableEq, Repr

/-- `receive_msg` of `shared.c`.  The size passed to `malloc`, `len + 1`, is
computed in `uint32_t`.  `none` says a loop is still running when the fuel is
used up. -/
def receive_msg (fuel : Nat) (fd : InStream) : Option (Received × InStream) :=
  match recv_looped fuel fd 4 [] with
  | none => none
  | some (r, nlen, fd1) =>
    if r = -1 then some (Received.null, fd1)
    else
      let len := ntohl nlen
      let size := (len + 1) % 2 ^ 32
      if size ≤ len then some (Received.out_of_bounds, fd1)
      else
        match recv_looped fuel fd1 len [] with
        | none => none
        | some (r1, buf, fd2) =>
          if r1 = -1 then some (Received.null, fd2) else some (Received.message buf, fd2)

/-- `send_looped` of `shared.c`, `msg` being the bytes not yet written. -/
def send_looped : Nat → OutStream → List Char → Nat → Option (Int × OutStream)
  | 0, _, _, _ => none
  | fuel + 1, fd, msg, remain =>
    if remain > 0 then
      let sent := (write fd msg remain).1
      if sent = -1 then some (-1, (write fd msg remain).2)
      else send_looped fuel (write fd msg remain).2 (msg.drop sent.toNat) (remain - sent.toNat)
    else some (0, fd)

/-- `send_message` of `shared.c`; `strlen(msg)` is the length of the list, and
`htonl` takes it as a `uint32_t`. -/
def send_message (fuel : Nat) (fd : OutStream) (msg : List Char) : Option (Int × OutStream) :=
  let len := htonl (msg.length % 2 ^ 32)
  match send_looped fuel fd len 4 with
  | none => none
  | some (r, fd1) =>
    if r = -1 then some (-1, fd1)
    else
      match send_looped fuel fd1 msg msg.length with
      | none => none
      | some (r1, fd2) => if r1 = -1 then some (-1, fd2) else some (0, fd2)

/-! ## Names for the floor labels -/

/-- The ten decimal digits. -/
def digit_chars : List Char := ['0', '1', '2', '3', '4', '5', '6', '7', '8', '9']

/-- The label of the above-ground floor `n`: its decimal numeral. -/
def above_ground (n : Nat) : List Char := Nat.toDigits 10 n

/-- The label of the basement floor `n`: the letter B and the decimal numeral. -/
def basement (n : Nat) : List Char := 'B' :: Nat.toDigits 10 n

/-! ## The cars of the scenarios -/

/-- The car of the directional-reordering scenario: range 1..10, standing at
floor 1 with closed doors and an empty ride queue. -/
def scenario_car : Car :=
  { car_name := ['A'], lowest_floor := ['1'], highest_floor := ['1', '0'],
    status := "Closed".toList, current_floor := ['1'], destination_floor := ['1'],
    clientfd := 4, queue := [] }

/-- The ride queue after `CALL 1 5`, `CALL 3 7` and `CALL 8 2` have been
scheduled one after the other on `scenario_car`, the car record staying as it
is in between. -/
def scenario_queue : Option (List QueueNode) :=
  (((schedule_floors scenario_car ['1'] ['5']).bind
      fun car => schedule_floors car ['3'] ['7']).bind
      fun car => schedule_floors car ['8'] ['2']).map Car.queue

/-- A car whose doors are closing at floor 5 (`current = destination = 5`) with
the ride queue `queue`. -/
def closing_car (queue : List QueueNode) : Car :=
  { car_name := ['A'], lowest_floor := ['1'], highest_floor := ['1', '0'],
    status := "Closing".toList, current_floor := ['5'], destination_floor := ['5'],
    clientfd := 4, queue := queue }

/-! ## Predicates and inputs of the statements -/

/-- The state of the loop of `choose_car` after the cars `seen`: no car chosen
and none of them can serve the call, or the car at position `k` chosen, which
can serve the call, has `min_entries` entries, and is the first among the cars
of `seen` with the fewest entries that can serve the call. -/
def ChosenAmong (source_floor destination_floor : List Char) (seen : List Car)
    (car : Option Nat) (min_entries : Nat) : Prop :=
  match car with
  | none => min_entries = SIZE_MAX ∧ ∀ c ∈ seen, can_serve c source_floor destination_floor = false
  | some k =>
    ∃ c, seen.get? k = some c ∧ can_serve c source_floor destination_floor = true
      ∧ min_entries = queue_size c.queue
      ∧ ∀ j o, seen.get? j = some o → can_serve o source_floor destination_floor = true →
          queue_size c.queue ≤ queue_size o.queue
            ∧ (queue_size o.queue = queue_size c.queue → k ≤ j)

/-- A registry of three cars: A (1..10, one stop queued), B (1..10, idle) and C
(5..10, idle). -/
def scenario_registry : List Car :=
  [{ car_name := ['A'], lowest_floor := ['1'], highest_floor := ['1', '0'],
     status := "Closed".toList, current_floor := ['1'], destination_floor := ['1'],
     clientfd := 4, queue := [⟨['4'], UP⟩] },
   { car_name := ['B'], lowest_floor := ['1'], highest_floor := ['1', '0'],
     status := "Closed".toList, current_floor := ['1'], destination_floor := ['1'],
     clientfd := 5, queue := [] },
   { car_name := ['C'], lowest_floor := ['5'], highest_floor := ['1', '0'],
     status := "Closed".toList, current_floor := ['5'], destination_floor := ['5'],
     clientfd := 6, queue := [] }]

/-- No system call of the script fails. -/
def error_free (script : List (Option Nat)) : Prop :=
  ∀ e ∈ script, e ≠ none

instance error_free_decidable (script : List (Option Nat)) : Decidable (error_free script) :=
  inferInstanceAs (Decidable (∀ e ∈ script, e ≠ none))

/-- Floor `a` is at or before floor `b` in the travel order of direction `d`:
at or below it going up, at or above it going down. -/
def in_order (d : Direction) (a b : List Char) : Bool :=
  if d = UP then are_consecutive_floors a b else are_consecutive_floors b a

/-- Two neighbouring queue entries are in order: of different direction, or
the first at or before the second in the order of their direction. -/
def step_ok (x y : QueueNode) : Bool :=
  decide (x.direction ≠ y.direction) || in_order x.direction x.floor y.floor

/-- The check that every maximal run of neighbouring entries of one direction is
monotone in the floor order of that direction: each entry is in order with the
next one. -/
def block_monotone_check : List QueueNode → Bool
  | [] => true
  | [_] => true
  | x :: y :: rest => step_ok x y && block_monotone_check (y :: rest)

/-- Every maximal run of neighbouring entries of one direction is monotone in
the floor order of that direction. -/
def block_monotone (q : List QueueNode) : Prop :=
  block_monotone_check q = true

instance block_monotone_decidable (q : List QueueNode) : Decidable (block_monotone q) :=
  inferInstanceAs (Decidable (block_monotone_check q = true))

/-- Blockwise monotonicity as a chain of neighbouring entries in order. -/
def BlockChain (q : List QueueNode) : Prop :=
  List.Chain' (fun x y => step_ok x y = true) q

/-- The list `q` with the node `n` put in at position `j`. -/
def insert_at (j : Nat) (n : QueueNode) (q : List QueueNode) : List QueueNode :=
  q.take j ++ n :: q.drop j

/-- The node `n` is in order behind the node at position `s` of `q` and before
the node behind that one, which exists. -/
def FitsAt (q : List QueueNode) (n : QueueNode) (s : Nat) : Prop :=
  ∃ x y, q.get? s = some x ∧ q.get? (s + 1) = some y ∧ step_ok x n = true ∧ step_ok n y = true

/-- The node `n` is in order behind the node at position `p` of `q` and before
the node behind that one, if there is any. -/
def FitsBehind (q : List QueueNode) (n : QueueNode) (p : Nat) : Prop :=
  (∀ x, q.get? p = some x → step_ok x n = true) ∧ (∀ y, q.get? (p + 1) = some y → step_ok n y = true)

/-- `car_shared_mem` of `shared.h` (without its mutex and condition variable);
a `uint8_t` field holds a number below 256. -/
structure car_shared_mem where
  current_floor : List Char
  destination_floor : List Char
  status : List Char
  open_button : Nat
  close_button : Nat
  door_obstruction : Nat
  overload : Nat
  emergency_stop : Nat
  individual_service_mode : Nat
  emergency_mode : Nat
deriving DecidableEq, Repr

/-- `is_digit` of `safety.c`. -/
def is_digit (c : Char) : Bool :=
  decide (('0').toNat ≤ c.toNat ∧ c.toNat ≤ ('9').toNat)

/-- `validate_status` of `safety.c`. -/
def validate_status (status : List Char) : Bool :=
  strncmp_eq status "Open".toList MAX_STATUS_LENGTH
    || strncmp_eq status "Opening".toList MAX_STATUS_LENGTH
    || strncmp_eq status "Closed".toList MAX_STATUS_LENGTH
    || strncmp_eq status "Closing".toList MAX_STATUS_LENGTH
    || strncmp_eq status "Between".toList MAX_STATUS_LENGTH

/-- `validate_floor` of `safety.c`. -/
def validate_floor (floor : List Char) : Bool :=
  let len := floor.length
  if len = 0 then false
  else if char_at floor 0 = 'B' then
    if len < 2 ∨ len > 3 ∨ char_at floor 1 = '0' then false
    else (floor.drop 1).all is_digit
  else
    if len < 1 ∨ len > 3 ∨ char_at floor 0 = '0' then false
    else floor.all is_digit

/-- `validate_bools` of `safety.c`. -/
def validate_bools (shm : car_shared_mem) : Bool :=
  decide (shm.open_button ≤ 1) && decide (shm.close_button ≤ 1)
    && decide (shm.door_obstruction ≤ 1) && decide (shm.overload ≤ 1)
    && decide (shm.emergency_stop ≤ 1) && decide (shm.individual_service_mode ≤ 1)
    && decide (shm.emergency_mode ≤ 1)

/-- `validate_door_obstruction` of `safety.c`. -/
def validate_door_obstruction (shm : car_shared_mem) : Bool :=
  decide (shm.door_obstruction = 0)
    || strncmp_eq shm.status "Opening".toList MAX_STATUS_LENGTH
    || strncmp_eq shm.status "Closing".toList MAX_STATUS_LENGTH

/-- The state of one call of `check_safety`: the shared memory, the local
`change_occurred`, and the messages written to standard output so far. -/
structure SafetyCheck where
  shm : car_shared_mem
  change_occurred : Nat
  output : List (List Char)
deriving DecidableEq, Repr

/-- The first statement of `check_safety`: check for door obstruction. -/
def check_door_obstruction (c : SafetyCheck) : SafetyCheck :=
  if c.shm.door_obstruction = 1
      ∧ strncmp_eq c.shm.status "Closing".toList MAX_STATUS_LENGTH = true then
    { c with
      shm := { c.shm with status := strncpy "Opening".toList MAX_STATUS_LENGTH }
      change_occurred := 1 }
  else c

/-- The second statement of `check_safety`: check for emergency stop. -/
def check_emergency_stop (c : SafetyCheck) : SafetyCheck :=
  if c.shm.emergency_stop = 1 ∧ c.shm.emergency_mode = 0 then
    { shm := { c.shm with emergency_mode := 1 }
      change_occurred := 1
      output := c.output ++ ["The emergency stop button has been pressed!\n".toList] }
  else c

/-- The third statement of `check_safety`: check for overload. -/
def check_overload (c : SafetyCheck) : SafetyCheck :=
  if c.shm.overload = 1 ∧ c.shm.emergency_mode = 0 then
    { shm := { c.shm with emergency_mode := 1 }
      change_occurred := 1
      output := c.output ++ ["The overload sensor has been tripped!\n".toList] }
  else c

/-- The fourth statement of `check_safety`: validate data consistency. -/
def check_data_consistency (c : SafetyCheck) : SafetyCheck :=
  if c.shm.emergency_mode ≠ 1
      ∧ (validate_floor c.shm.current_floor = false
        ∨ validate_floor c.shm.destination_floor = false
        ∨ validate_status c.shm.status = false
        ∨ validate_bools c.shm = false
        ∨ validate_door_obstruction c.shm = false) then
    { shm := { c.shm with emergency_mode := 1 }
      change_occurred := 1
      output := c.output ++ ["Data consistency error!\n".toList] }
  else c

/-- `check_safety` of `safety.c`: its four statements in order, from
`change_occurred = 0` and no output. -/
def check_safety (shm : car_shared_mem) : SafetyCheck :=
  check_data_consistency
    (check_overload (check_emergency_stop (check_door_obstruction ⟨shm, 0, []⟩)))

/-- The structural invariants of the shared state, in the words of the data
model: both floors are valid floor labels, the status is one of the five
status strings, every flag is 0 or 1, and the door is obstructed only while the
status is `Opening` or `Closing`. -/
def structural_invariants (shm : car_shared_mem) : Prop :=
  is_valid_floor shm.current_floor = true
  ∧ is_valid_floor shm.destination_floor = true
  ∧ (shm.status = "Opening".toList ∨ shm.status = "Open".toList
      ∨ shm.status = "Closing".toList ∨ shm.status = "Closed".toList
      ∨ shm.status = "Between".toList)
  ∧ (shm.open_button ≤ 1 ∧ shm.close_button ≤ 1 ∧ shm.door_obstruction ≤ 1
      ∧ shm.overload ≤ 1 ∧ shm.emergency_stop ≤ 1 ∧ shm.individual_service_mode ≤ 1
      ∧ shm.emergency_mode ≤ 1)
  ∧ (shm.door_obstruction = 1 →
      shm.status = "Opening".toList ∨ shm.status = "Closing".toList)

/-- The shared state when `check_safety` reaches its data consistency
statement: after the obstruction, emergency stop and overload statements. -/
def after_escalation (shm : car_shared_mem) : SafetyCheck :=
  check_overload (check_emergency_stop (check_door_obstruction ⟨shm, 0, []⟩))

/-! ## The car thread (`car.c`) -/

/-- What the other threads and processes do while the car thread has released
the mutex of the shared memory (inside `pthread_cond_timedwait`, or between
`pthread_mutex_unlock` and `pthread_mutex_lock` around `usleep`): `write` is
the effect of their writes on the shared memory, and `timed_out` tells whether
a `pthread_cond_timedwait` that ends here returns `ETIMEDOUT`. -/
structure Interference where
  write : car_shared_mem → car_shared_mem
  timed_out : Bool

/-- `car_data` of `car.c`; `shm` is the shared memory the pointer refers to. -/
structure car_data where
  name : List Char
  lowest_floor : List Char
  highest_floor : List Char
  delay : Nat
  sockfd : Int
  should_connect : Nat
  shm : car_shared_mem
deriving DecidableEq, Repr

/-- The state of the thread that runs `manage_car`: its `car_info`, the two
locals of `manage_car`, the interferences still to come (one is consumed each
time the thread releases the mutex; with none left nothing is written and a
timed wait times out), the shared memory as it was at each
`pthread_cond_broadcast` of this thread, oldest first, and the number of calls
of `controller_init`. -/
structure CarThread where
  car_info : car_data
  last_individual_service_mode : Nat
  last_emergency_mode : Nat
  env : List Interference
  broadcasts : List car_shared_mem
  controller_inits : Nat

/-- The result of running a function of `car.c` with a bound on the number of
loop iterations: it has returned in state `st`, or it is still running in
state `st` when the bound is reached. -/
inductive Outcome where
  | returned (st : CarThread)
  | running (st : CarThread)

/-- The state a run has reached. -/
def Outcome.state : Outcome → CarThread
  | .returned st => st
  | .running st => st

/-- Sequencing: the statements `f` that follow a call are run when the call has
returned. -/
def Outcome.and_then (o : Outcome) (f : CarThread → Outcome) : Outcome :=
  match o with
  | .returned st => f st
  | .running st => .running st

/-- Assignment to the shared memory of the car. -/
def set_shm (st : CarThread) (shm : car_shared_mem) : CarThread :=
  { st with car_info := { st.car_info with shm := shm } }

/-- Assignment to `car_info->should_connect`. -/
def set_should_connect (st : CarThread) (v : Nat) : CarThread :=
  { st with car_info := { st.car_info with should_connect := v } }

/-- `strcpy(car_info->shm->status, s)`. -/
def strcpy_status (s : List Char) (st : CarThread) : CarThread :=
  set_shm st { st.car_info.shm with status := s }

/-- `pthread_cond_broadcast(&car_info->shm->cond)`: the waiting threads see
the shared memory as it is now. -/
def pthread_cond_broadcast (st : CarThread) : CarThread :=
  { st with broadcasts := st.broadcasts ++ [st.car_info.shm] }

/-- The mutex is released and taken again (`pthread_cond_timedwait`, or
`pthread_mutex_unlock`, `usleep`, `pthread_mutex_lock`): the next interference
takes place.  The result tells whether a timed wait returns `ETIMEDOUT`. -/
def release_mutex (st : CarThread) : CarThread × Bool :=
  match st.env with
  | [] => (st, true)
  | i :: rest => ({ set_shm st (i.write st.car_info.shm) with env := rest }, i.timed_out)

/-- The loop `while (pthread_cond_timedwait(...) != ETIMEDOUT) { if (button == 1)
{ ...; return; } }` of `open_doors` and `close_doors`, up to the call inside:
the shared memory and the interferences left when the loop is left, and
whether it is left because the button is pressed. -/
def wait_delay_loop (button : car_shared_mem → Nat) :
    List Interference → car_shared_mem → car_shared_mem × List Interference × Bool
  | [], shm => (shm, [], false)
  | i :: rest, shm =>
    if i.timed_out then (i.write shm, rest, false)
    else if button (i.write shm) = 1 then (i.write shm, rest, true)
    else wait_delay_loop button rest (i.write shm)

/-- The loop of `wait_delay_loop` on the state of the thread. -/
def wait_delay (button : car_shared_mem → Nat) (st : CarThread) : CarThread × Bool :=
  let r := wait_delay_loop button st.env st.car_info.shm
  ({ set_shm st r.1 with env := r.2.1 }, r.2.2)

mutual
/-- `open_doors` of `car.c`; one unit of fuel for each evaluation of the loop
condition. -/
def open_doors : Nat → CarThread → Outcome
  | 0, st => .running st
  | fuel + 1, st =>
    if st.car_info.shm.status ≠ "Open".toList then
      let w := if st.car_info.shm.status = "Closed".toList
            ∨ st.car_info.shm.status = "Closing".toList then
          wait_delay (fun shm => shm.close_button)
            (pthread_cond_broadcast (strcpy_status "Opening".toList st))
        else (st, false)
      if w.2 then close_doors fuel w.1
      else
        open_doors fuel
          (if w.1.car_info.shm.status = "Opening".toList then
            pthread_cond_broadcast (strcpy_status "Open".toList w.1)
          else w.1)
    else
      let w := if st.car_info.shm.individual_service_mode = 0
            ∧ st.car_info.shm.emergency_mode = 0 then
          wait_delay (fun shm => shm.close_button) st
        else (st, false)
      if w.2 then close_doors fuel w.1
      else if w.1.car_info.shm.individual_service_mode = 0
          ∧ w.1.car_info.shm.emergency_mode = 0
          ∧ w.1.car_info.shm.status = "Open".toList then
        close_doors fuel w.1
      else .returned w.1
/-- `close_doors` of `car.c`; one unit of fuel for each evaluation of the loop
condition. -/
def close_doors : Nat → CarThread → Outcome
  | 0, st => .running st
  | fuel + 1, st =>
    if st.car_info.shm.status ≠ "Closed".toList then
      let w := if st.car_info.shm.status = "Open".toList
            ∨ st.car_info.shm.status = "Opening".toList then
          wait_delay (fun shm => shm.open_button)
            (pthread_cond_broadcast (strcpy_status "Closing".toList st))
        else (st, false)
      if w.2 then open_doors fuel w.1
      else
        close_doors fuel
          (if w.1.car_info.shm.status = "Closing".toList then
            pthread_cond_broadcast (strcpy_status "Closed".toList w.1)
          else w.1)
    else .returned st
end

/-- The loop of `move_car`: one unit of fuel for each floor passed. -/
def move_car_loop (direction : Direction) : Nat → CarThread → Outcome
  | 0, st =>
    if st.car_info.shm.current_floor ≠ st.car_info.shm.destination_floor then .running st
    else .returned st
  | fuel + 1, st =>
    if st.car_info.shm.current_floor ≠ st.car_info.shm.destination_floor then
      let st1 := (release_mutex (pthread_cond_broadcast (strcpy_status "Between".toList st))).1
      move_car_loop direction fuel
        (set_shm st1 { st1.car_info.shm with
          current_floor := set_next_floor st1.car_info.shm.current_floor direction })
    else .returned st

/-- `move_car` of `car.c`. -/
def move_car (fuel : Nat) (st : CarThread) : Outcome :=
  if is_floor_within_bounds st.car_info.shm.destination_floor st.car_info.lowest_floor
      st.car_info.highest_floor = false then
    .returned (set_shm st { st.car_info.shm with
      destination_floor := st.car_info.shm.current_floor })
  else
    (move_car_loop
      (if are_consecutive_floors st.car_info.shm.current_floor
          st.car_info.shm.destination_floor then UP else DOWN) fuel st).and_then fun st1 =>
    .returned (pthread_cond_broadcast (strcpy_status "Closed".toList
      (set_shm st1 { st1.car_info.shm with
        open_button := 0
        close_button := 0 })))

/-- `controller_init` of `car.c`: a thread running `controller_connect` is
started. -/
def controller_init (st : CarThread) : CarThread :=
  { st with controller_inits := st.controller_inits + 1 }

/-- The statements of the loop body of `manage_car` that assign
`should_connect` (lines 409 to 426 of `car.c`).  The last of them is the
assignment at the head of the branch `individual_service_mode == 1`; the call
of `move_car` that follows it in that branch is in `motion_rules`. -/
def connection_rules (st : CarThread) : CarThread :=
  let st1 := if st.car_info.shm.individual_service_mode = 0
        ∧ st.last_individual_service_mode = 1 then
      controller_init (set_should_connect st 1)
    else st
  let st2 := if st1.car_info.shm.emergency_mode = 0 ∧ st1.last_emergency_mode = 1 then
      controller_init (set_should_connect st1 1)
    else st1
  let st3 := if st2.car_info.shm.emergency_mode = 1 then set_should_connect st2 0 else st2
  if st3.car_info.shm.individual_service_mode = 1 ∧ st3.last_individual_service_mode = 0 then
    set_should_connect st3 0
  else st3

/-- The statements of the loop body of `manage_car` that start the motion: the
call of `move_car` in the branch `individual_service_mode == 1`, and the branch
for a car in neither mode. -/
def motion_rules (fuel : Nat) (st : CarThread) : Outcome :=
  (if st.car_info.shm.individual_service_mode = 1
      ∧ st.car_info.shm.current_floor ≠ st.car_info.shm.destination_floor then
    move_car fuel st
  else .returned st).and_then fun st1 =>
  if st1.car_info.shm.individual_service_mode = 0 ∧ st1.car_info.shm.emergency_mode = 0
      ∧ st1.car_info.shm.current_floor ≠ st1.car_info.shm.destination_floor
      ∧ st1.car_info.shm.status = "Closed".toList then
    (move_car fuel st1).and_then (open_doors fuel)
  else .returned st1

/-- The statements of the loop body of `manage_car` that serve the door
buttons, behind the timed wait. -/
def button_rules (fuel : Nat) (st : CarThread) : Outcome :=
  (if st.car_info.shm.open_button = 1 then
    open_doors fuel (set_shm st { st.car_info.shm with open_button := 0 })
  else .returned st).and_then fun st1 =>
  if st1.car_info.shm.close_button = 1 then
    close_doors fuel (set_shm st1 { st1.car_info.shm with close_button := 0 })
  else .returned st1

/-- One iteration of the loop of `manage_car` in `car.c`. -/
def manage_car_iteration (fuel : Nat) (st : CarThread) : Outcome :=
  (button_rules fuel (release_mutex st).1).and_then fun st1 =>
  (motion_rules fuel (connection_rules st1)).and_then fun st2 =>
  .returned { st2 with
    last_individual_service_mode := st2.car_info.shm.individual_service_mode
    last_emergency_mode := st2.car_info.shm.emergency_mode }

/-- A car of range 1..9 that stands at `current` with closed doors and no
button pressed, in a quiet environment. -/
def idle_thread (current destination : List Char) (ism em : Nat) : CarThread :=
  { car_info := ⟨"A".toList, ['1'], ['9'], 10, 3, 1,
      ⟨current, destination, "Closed".toList, 0, 0, 0, 0, 0, ism, em⟩⟩
    last_individual_service_mode := 0
    last_emergency_mode := 0
    env := []
    broadcasts := []
    controller_inits := 0 }

/-- The interference that sets the two mode flags and lets the timed wait of
`manage_car` time out. -/
def flags_written (flags : Nat × Nat) : Interference :=
  { write := fun shm => { shm with
      individual_service_mode := flags.1
      emergency_mode := flags.2 }
    timed_out := true }

/-- Every interference to come keeps the property `P` of the shared memory. -/
def EnvKeeps (P : car_shared_mem → Prop) (env : List Interference) : Prop :=
  ∀ i ∈ env, ∀ s, P s → P (i.write s)

/-- The shared memory has the property `P`, the interferences to come keep it,
and the shared memory had the property `Q` at every broadcast so far. -/
def ThreadInvariant (P Q : car_shared_mem → Prop) (st : CarThread) : Prop :=
  P st.car_info.shm ∧ EnvKeeps P st.env ∧ ∀ b ∈ st.broadcasts, Q b

/-- `EXIT_SUCCESS` of `stdlib.h`. -/
def EXIT_SUCCESS : Nat := 0

/-- `EXIT_FAILURE` of `stdlib.h`. -/
def EXIT_FAILURE : Nat := 1

/-- What a run of the `internal` tool leaves behind: the shared memory, the
lines printed, the exit status, and whether `pthread_cond_broadcast` was
called. -/
structure InternalRun where
  shm : car_shared_mem
  output : List (List Char)
  exit_status : Nat
  broadcast : Bool
deriving DecidableEq, Repr

/-- The statements of `main` of `internal.c` behind the opening of the shared
memory `shm` (lines 56 to 146), `operation` being `argv[2]`. -/
def internal_operation (operation : List Char) (shm : car_shared_mem) : InternalRun :=
  if operation = "open".toList then
    ⟨{ shm with open_button := 1 }, [], EXIT_SUCCESS, true⟩
  else if operation = "close".toList then
    ⟨{ shm with close_button := 1 }, [], EXIT_SUCCESS, true⟩
  else if operation = "stop".toList then
    ⟨{ shm with emergency_stop := 1 }, [], EXIT_SUCCESS, true⟩
  else if operation = "service_on".toList then
    ⟨{ shm with
        individual_service_mode := 1
        emergency_mode := 0 }, [], EXIT_SUCCESS, true⟩
  else if operation = "service_off".toList then
    ⟨{ shm with individual_service_mode := 0 }, [], EXIT_SUCCESS, true⟩
  else if operation = "up".toList then
    if shm.individual_service_mode = 0 then
      ⟨shm, ["Operation only allowed in service mode.\n".toList], EXIT_FAILURE, false⟩
    else if shm.status = "Between".toList then
      ⟨shm, ["Operation not allowed while elevator is moving.\n".toList], EXIT_FAILURE, false⟩
    else if shm.status ≠ "Closed".toList then
      ⟨shm, ["Operation not allowed while doors are open.\n".toList], EXIT_FAILURE, false⟩
    else
      ⟨{ shm with destination_floor := increment_floor shm.current_floor }, [],
        EXIT_SUCCESS, true⟩
  else if operation = "down".toList then
    if shm.individual_service_mode = 0 then
      ⟨shm, ["Operation only allowed in service mode.\n".toList], EXIT_FAILURE, false⟩
    else if shm.status = "Between".toList then
      ⟨shm, ["Operation not allowed while elevator is moving.\n".toList], EXIT_FAILURE, false⟩
    else if shm.status ≠ "Closed".toList then
      ⟨shm, ["Operation not allowed while doors are open.\n".toList], EXIT_FAILURE, false⟩
    else
      ⟨{ shm with destination_floor := decrement_floor shm.current_floor }, [],
        EXIT_SUCCESS, true⟩
  else
    ⟨shm, ["Invalid operation.\n".toList], EXIT_FAILURE, false⟩

/-! ## Tokens and the first frame of a connection (`shared.c`, `controller.c`) -/

/-- The C string in a buffer: the bytes before the first NUL. -/
def c_string (buf : List Char) : List Char :=
  buf.takeWhile fun c => decide (c ≠ Char.ofNat 0)

/-- The tokens that `strtok(msg, " ")` and then `strtok(NULL, " ")`, called
until it returns `NULL`, give: the maximal runs of characters other than the
space.  `token` holds the characters of the token being read. -/
def strtok_tokens : List Char → List Char → List (List Char)
  | [], token => if token = [] then [] else [token]
  | c :: rest, token =>
    if c = ' ' then
      if token = [] then strtok_tokens rest [] else token :: strtok_tokens rest []
    else strtok_tokens rest (token ++ [c])

/-- `tokenize_message` of `shared.c`: the array `tokens` afterwards, `none`
being `NULL`. -/
def tokenize_message (msg : List Char) (max_tokens : Nat) : List (Option (List Char)) :=
  ((strtok_tokens msg []).take max_tokens).map some
    ++ List.replicate (max_tokens - ((strtok_tokens msg []).take max_tokens).length) none

/-- `tokens[i]` of the array `tokenize_message` has filled. -/
def token_at (tokens : List (Option (List Char))) (i : Nat) : Option (List Char) :=
  (tokens.get? i).join

/-- What `handle_client` does with the first frame of a connection: it closes
the connection without a handler (nothing was received), it calls `handle_call`
or `manage_car` with these arguments (`none` being `NULL`), or it replies with
the frames `sent`. -/
inductive Handled where
  | closed
  | call (source_floor destination_floor : Option (List Char))
  | car (car_name lowest_floor highest_floor : Option (List Char))
  | reply (sent : List Sent)
deriving DecidableEq, Repr

/-- `handle_client` of `controller.c` up to the call of the handler, `msg` being
what `receive_msg` has returned.  `none` stands for undefined behaviour: the
result of `receive_msg` is not defined, or `strncmp` reads through the `NULL`
pointer `tokens[0]`. -/
def handle_client (clientfd : Int) (msg : Received) : Option Handled :=
  match msg with
  | Received.null => some Handled.closed
  | Received.out_of_bounds => none
  | Received.message buf =>
    let tokens := tokenize_message (c_string buf) 4
    match token_at tokens 0 with
    | none => none
    | some first =>
      if strncmp_eq first "CALL".toList 4 then
        some (Handled.call (token_at tokens 1) (token_at tokens 2))
      else if strncmp_eq first "CAR".toList 3 then
        some (Handled.car (token_at tokens 1) (token_at tokens 2) (token_at tokens 3))
      else some (Handled.reply [⟨clientfd, "INVALID".toList⟩])

/-! ## The registry of cars (`car_vector.c`) and the loop of a car's connection -/

/-- A `Car *`: the address `malloc` has returned, and the record at that
address. -/
structure CarRef where
  address : Nat
  car : Car
deriving DecidableEq, Repr

/-- `car_vector_t` of `car_vector.h` (without its mutex): the slots of `data`
from the first one on; the slots at and behind `size` hold what was left in
them.  The capacity and the reallocation of `data` are left out. -/
structure car_vector_t where
  size : Nat
  data : List CarRef
deriving DecidableEq, Repr

/-- `cv_size` of `car_vector.c`. -/
def cv_size (vec : car_vector_t) : Nat :=
  vec.size

/-- `cv_get_at` of `car_vector.c`; `none` is `NULL`. -/
def cv_get_at (vec : car_vector_t) (index : Nat) : Option CarRef :=
  if index < vec.size then vec.data.get? index else none

/-- The records of the registered cars in the order of the vector: what the
loop of `choose_car` reads through `cv_size` and `cv_get_at`. -/
def cv_cars (vec : car_vector_t) : List Car :=
  (vec.data.take vec.size).map CarRef.car

/-- The loop `data[i] = data[i + 1]` of `cv_remove_at`, `n` iterations from
index `i` on. -/
def cv_shift : Nat → Nat → List CarRef → List CarRef
  | 0, _, data => data
  | n + 1, i, data =>
    match data.get? (i + 1) with
    | some next => cv_shift n (i + 1) (data.set i next)
    | none => data

/-- `cv_remove_at` of `car_vector.c`. -/
def cv_remove_at (vec : car_vector_t) (pos : Nat) : car_vector_t :=
  if pos ≥ vec.size then vec
  else { size := vec.size - 1, data := cv_shift (vec.size - 1 - pos) pos vec.data }

/-- The loop of `cv_remove`, `n` iterations from index `i` on. -/
def cv_remove_loop (item : Nat) : Nat → Nat → car_vector_t → car_vector_t
  | 0, _, vec => vec
  | n + 1, i, vec =>
    match vec.data.get? i with
    | some slot =>
      if slot.address = item then cv_remove_at vec i else cv_remove_loop item n (i + 1) vec
    | none => vec

/-- `cv_remove` of `car_vector.c`, `item` being the address of a car record. -/
def cv_remove (vec : car_vector_t) (item : Nat) : car_vector_t :=
  cv_remove_loop item vec.size 0 vec

/-- The assignment through the pointer `car` of what `f` makes of the record it
points to. -/
def cv_update (vec : car_vector_t) (car : Nat) (f : Car → Car) : car_vector_t :=
  { vec with data := vec.data.map fun slot =>
      if slot.address = car then { slot with car := f slot.car } else slot }

/-- The record the pointer `car` points to. -/
def cv_deref (vec : car_vector_t) (car : Nat) : Option Car :=
  ((vec.data.take vec.size).find? fun slot => decide (slot.address = car)).map CarRef.car

/-- One pass of the loop of `manage_car` in `controller.c` for the car record at
the address `car`, `msg` being what `receive_msg` has returned: the registry
afterwards, the frames sent, and whether `manage_car` has returned.  `none`
stands for undefined behaviour (a `NULL` token is read, or the result of
`receive_msg` is not defined). -/
def manage_car_pass (vec : car_vector_t) (car : Nat) (msg : Received) :
    Option (car_vector_t × List Sent × Bool) :=
  match msg with
  | Received.out_of_bounds => none
  | Received.null => some (cv_remove vec car, [], true)
  | Received.message buf =>
    if c_string buf = "INDIVIDUAL SERVICE".toList ∨ c_string buf = "EMERGENCY".toList then
      some (cv_remove vec car, [], true)
    else
      let tokens := tokenize_message (c_string buf) 4
      match token_at tokens 0 with
      | none => none
      | some first =>
        if strncmp_eq first "STATUS".toList MAX_STATUS_LENGTH then
          match token_at tokens 1, token_at tokens 2, token_at tokens 3, cv_deref vec car with
          | some status, some current_floor, some destination_floor, some record =>
            some (cv_update vec car fun c =>
                (update_car_state c status current_floor destination_floor).1,
              (update_car_state record status current_floor destination_floor).2, false)
          | _, _, _, _ => none
        else some (vec, [], false)

/-! ## The position of a floor in the building -/

/-- The position of a floor label in the order of the floors: 1, 2, 3, ... for
the floors above ground, and 0, -1, -2, ... for B1, B2, B3, ... -/
def floor_number (floor : List Char) : Int :=
  if char_at floor 0 = 'B' then 1 - atoi (floor.drop 1) else atoi floor

/-- The floor label at a position: the inverse of `floor_number`. -/
def floor_label (n : Int) : List Char :=
  if 1 ≤ n then above_ground n.toNat else basement (1 - n).toNat

/-- No interference to come writes to the shared memory. -/
def no_other_writer (env : List Interference) : Prop :=
  ∀ i ∈ env, ∀ s, i.write s = s

/-- No interference to come writes to the shared memory, and every timed wait
runs into its timeout. -/
def every_wait_expires (env : List Interference) : Prop :=
  ∀ i ∈ env, i.timed_out = true ∧ ∀ s, i.write s = s

/-- The shared memory with the car at `floor` and the status `status`. -/
def shm_at (shm : car_shared_mem) (floor status : List Char) : car_shared_mem :=
  { shm with
    current_floor := floor
    status := status }

/-! ## The inputs of the statements about calls

The strings of the model are what the program reads where a C string fits its
buffer with the terminating NUL.  A valid floor label has at most three
characters, so it fits the four bytes of a floor; the statements about calls
are about valid floor labels, whose position in the building is
`floor_number`. -/

/-- The direction of travel from floor `a` to floor `b` by the positions of the
two floors in the building: up when `a` is at or below `b`, down when `a` is
above `b`. -/
def travel_direction (a b : List Char) : Direction :=
  if floor_number a ≤ floor_number b then UP else DOWN

/-- The range of the car contains the floor, by position: the floor is at or
above the lowest floor of the car and at or below its highest floor. -/
def range_contains (car : Car) (floor : List Char) : Bool :=
  decide (floor_number car.lowest_floor ≤ floor_number floor
    ∧ floor_number floor ≤ floor_number car.highest_floor)

/-- The strings of the car record that `schedule_floors` reads fit their
buffers: the status, the current floor, the floors of the ride queue, and the
destination floor of a car that is `Between` floors (`schedule_floors` does not
read the destination floor of any other car, and a newly registered car has
none yet). -/
def record_fits (car : Car) : Bool :=
  decide (car.status.length < MAX_STATUS_LENGTH)
    && decide (car.current_floor.length < MAX_FLOOR_LENGTH)
    && (!decide (car.status = "Between".toList)
        || decide (car.destination_floor.length < MAX_FLOOR_LENGTH))
    && car.queue.all fun n => decide (n.floor.length < MAX_FLOOR_LENGTH)

/-- The first `n` iterations of the loop of `manage_car`, one after the other
(`keep_running` stays set). -/
def manage_car_iterations (fuel : Nat) : Nat → CarThread → Outcome
  | 0, st => .returned st
  | n + 1, st => (manage_car_iteration fuel st).and_then (manage_car_iterations fuel n)

theorem isdigit_mem (c : Char) (h : isdigit c = true) : c ∈ digit_chars := by
  unfold isdigit at h
  simp only [decide_eq_true_eq] at h
  obtain ⟨h1, h2⟩ := h
  have hc : c = Char.ofNat c.toNat := (Char.ofNat_toNat c).symm
  rw [hc]
  generalize c.toNat = n at h1 h2
  interval_cases n <;> decide

theorem digits_table :
    (∀ a ∈ digit_chars, ∀ b ∈ digit_chars, ∀ c ∈ digit_chars, a ≠ '0' →
      [a, b, c] = above_ground (atoi_digits 0 [a, b, c]) ∧ 1 ≤ atoi_digits 0 [a, b, c]
        ∧ atoi_digits 0 [a, b, c] ≤ 999)
    ∧ (∀ a ∈ digit_chars, ∀ b ∈ digit_chars, a ≠ '0' →
      [a, b] = above_ground (atoi_digits 0 [a, b]) ∧ 1 ≤ atoi_digits 0 [a, b]
        ∧ atoi_digits 0 [a, b] ≤ 99)
    ∧ (∀ a ∈ digit_chars, a ≠ '0' →
      [a] = above_ground (atoi_digits 0 [a]) ∧ 1 ≤ atoi_digits 0 [a]
        ∧ atoi_digits 0 [a] ≤ 99) := by
  decide!

theorem valid_floor_cases (f : List Char) (h : is_valid_floor f = true) :
    (∃ n, 1 ≤ n ∧ n ≤ 999 ∧ f = above_ground n) ∨ (∃ n, 1 ≤ n ∧ n ≤ 99 ∧ f = basement n) := by
  obtain ⟨t3, t2, t1⟩ := digits_table
  rcases f with _ | ⟨a, _ | ⟨b, _ | ⟨c, _ | ⟨d, t⟩⟩⟩⟩
  · simp [is_valid_floor, char_at] at h
  · by_cases hB : a = 'B'
    · subst hB; simp [is_valid_floor, char_at] at h
    · simp [is_valid_floor, char_at, hB] at h
      obtain ⟨r1, r2, r3⟩ := t1 a (isdigit_mem a h.2) h.1
      exact Or.inl ⟨_, r2, by omega, r1⟩
  · by_cases hB : a = 'B'
    · subst hB; simp [is_valid_floor, char_at] at h
      obtain ⟨r1, r2, r3⟩ := t1 b (isdigit_mem b h.2) h.1
      exact Or.inr ⟨_, r2, r3, by unfold basement; unfold above_ground at r1; rw [← r1]⟩
    · simp [is_valid_floor, char_at, hB] at h
      obtain ⟨r1, r2, r3⟩ := t2 a (isdigit_mem a h.2.1) b (isdigit_mem b h.2.2) h.1
      exact Or.inl ⟨_, r2, by omega, r1⟩
  · by_cases hB : a = 'B'
    · subst hB; simp [is_valid_floor, char_at] at h
      obtain ⟨r1, r2, r3⟩ := t2 b (isdigit_mem b h.2.1) c (isdigit_mem c h.2.2) h.1
      exact Or.inr ⟨_, r2, r3, by unfold basement; unfold above_ground at r1; rw [← r1]⟩
    · simp [is_valid_floor, char_at, hB] at h
      obtain ⟨r1, r2, r3⟩ :=
        t3 a (isdigit_mem a h.2.1) b (isdigit_mem b h.2.2.1) c (isdigit_mem c h.2.2.2) h.1
      exact Or.inl ⟨_, r2, r3, r1⟩
  · by_cases hB : a = 'B'
    · subst hB; simp [is_valid_floor, char_at] at h
    · simp [is_valid_floor, char_at, hB] at h

theorem digits_facts : ∀ n < 1000, 1 ≤ n →
    atoi (above_ground n) = n ∧ char_at (above_ground n) 0 ≠ 'B'
      ∧ is_valid_floor (above_ground n) = true
      ∧ (n < 100 → is_valid_floor (basement n) = true) := by
  decide!

theorem step_table : ∀ n < 1000, 1 ≤ n →
    increment_floor (above_ground n) = above_ground (if n = 999 then 999 else n + 1)
      ∧ decrement_floor (above_ground n) = (if n = 1 then basement 1 else above_ground (n - 1))
      ∧ (n < 100 →
          increment_floor (basement n) = (if n = 1 then above_ground 1 else basement (n - 1))
            ∧ decrement_floor (basement n) = basement (if n = 99 then 99 else n + 1)) := by
  decide!

theorem acf_refl (a : List Char) : are_consecutive_floors a a = true := by
  unfold are_consecutive_floors
  by_cases h : char_at a 0 = 'B' <;> simp [h]

theorem acf_total (a b : List Char) :
    are_consecutive_floors a b = true ∨ are_consecutive_floors b a = true := by
  unfold are_consecutive_floors
  by_cases h : char_at a 0 = 'B' <;> by_cases h1 : char_at b 0 = 'B' <;> simp [h, h1] <;> omega

theorem acf_trans (a b c : List Char) (h1 : are_consecutive_floors a b = true)
    (h2 : are_consecutive_floors b c = true) : are_consecutive_floors a c = true := by
  unfold are_consecutive_floors at *
  by_cases ha : char_at a 0 = 'B' <;> by_cases hb : char_at b 0 = 'B' <;>
    by_cases hc : char_at c 0 = 'B' <;> simp [ha, hb, hc] at h1 h2 ⊢ <;> omega

theorem acf_above (m n : Nat) (hm1 : 1 ≤ m) (hm : m ≤ 999) (hn1 : 1 ≤ n) (hn : n ≤ 999) :
    are_consecutive_floors (above_ground m) (above_ground n) = true ↔ m ≤ n := by
  obtain ⟨a1, a2, -, -⟩ := digits_facts m (by omega) hm1
  obtain ⟨b1, b2, -, -⟩ := digits_facts n (by omega) hn1
  unfold are_consecutive_floors
  simp [a1, a2, b1, b2]

theorem acf_basement (m n : Nat) (hm1 : 1 ≤ m) (hm : m ≤ 99) (hn1 : 1 ≤ n) (hn : n ≤ 99) :
    are_consecutive_floors (basement m) (basement n) = true ↔ n ≤ m := by
  obtain ⟨a1, -, -, -⟩ := digits_facts m (by omega) hm1
  obtain ⟨b1, -, -, -⟩ := digits_facts n (by omega) hn1
  unfold above_ground at a1 b1
  unfold are_consecutive_floors
  simp [basement, char_at, a1, b1]

theorem acf_basement_above (m n : Nat) (hn1 : 1 ≤ n) (hn : n ≤ 999) :
    are_consecutive_floors (basement m) (above_ground n) = true
      ∧ are_consecutive_floors (above_ground n) (basement m) = false := by
  obtain ⟨-, b2, -, -⟩ := digits_facts n (by omega) hn1
  have hB : char_at (basement m) 0 = 'B' := by simp [basement, char_at]
  unfold are_consecutive_floors
  constructor <;> simp [hB, b2]

theorem above_ground_inj (m n : Nat) (hm1 : 1 ≤ m) (hm : m ≤ 999) (hn1 : 1 ≤ n) (hn : n ≤ 999)
    (h : above_ground m = above_ground n) : m = n := by
  obtain ⟨a1, -, -, -⟩ := digits_facts m (by omega) hm1
  obtain ⟨b1, -, -, -⟩ := digits_facts n (by omega) hn1
  rw [h] at a1
  have : (m : Int) = n := by rw [← a1, ← b1]
  exact_mod_cast this

theorem valid_floor_iff (f : List Char) :
    is_valid_floor f = true ↔
      (∃ n, 1 ≤ n ∧ n ≤ 999 ∧ f = above_ground n) ∨ (∃ n, 1 ≤ n ∧ n ≤ 99 ∧ f = basement n) := by
  constructor
  · exact valid_floor_cases f
  · rintro (⟨n, h1, h2, rfl⟩ | ⟨n, h1, h2, rfl⟩)
    · exact (digits_facts n (by omega) h1).2.2.1
    · exact (digits_facts n (by omega) h1).2.2.2 (by omega)

theorem basement_inj (m n : Nat) (hm1 : 1 ≤ m) (hm : m ≤ 999) (hn1 : 1 ≤ n) (hn : n ≤ 999)
    (h : basement m = basement n) : m = n := by
  unfold basement at h
  exact above_ground_inj m n hm1 hm hn1 hn (List.cons.inj h).2

theorem acf_antisymm (a b : List Char) (ha : is_valid_floor a = true)
    (hb : is_valid_floor b = true) (h1 : are_consecutive_floors a b = true)
    (h2 : are_consecutive_floors b a = true) : a = b := by
  rcases valid_floor_cases a ha with ⟨m, m1, m2, rfl⟩ | ⟨m, m1, m2, rfl⟩ <;>
    rcases valid_floor_cases b hb with ⟨n, n1, n2, rfl⟩ | ⟨n, n1, n2, rfl⟩
  · rw [acf_above m n m1 m2 n1 n2] at h1
    rw [acf_above n m n1 n2 m1 m2] at h2
    rw [show m = n by omega]
  · rw [(acf_basement_above n m m1 m2).2] at h1
    exact absurd h1 (by decide)
  · rw [(acf_basement_above m n n1 n2).2] at h2
    exact absurd h2 (by decide)
  · rw [acf_basement m n m1 m2 n1 n2] at h1
    rw [acf_basement n m n1 n2 m1 m2] at h2
    rw [show m = n by omega]

/-- C9: on valid floor labels `are_consecutive_floors` is a total order
(reflexive, antisymmetric, transitive, total); the valid labels are the
basement labels B1..B99 and the above-ground labels 1..999; every basement
floor is strictly below every above-ground floor, Bm is strictly below Bn
exactly when m > n, above-ground floors are in numeric order, and B99 is the
least and 999 the greatest valid floor. -/
theorem are_consecutive_floors_total_order :
    (∀ a, is_valid_floor a = true → are_consecutive_floors a a = true)
    ∧ (∀ a b, is_valid_floor a = true → is_valid_floor b = true →
        are_consecutive_floors a b = true → are_consecutive_floors b a = true → a = b)
    ∧ (∀ a b c, is_valid_floor a = true → is_valid_floor b = true → is_valid_floor c = true →
        are_consecutive_floors a b = true → are_consecutive_floors b c = true →
        are_consecutive_floors a c = true)
    ∧ (∀ a b, is_valid_floor a = true → is_valid_floor b = true →
        are_consecutive_floors a b = true ∨ are_consecutive_floors b a = true)
    ∧ (∀ f, is_valid_floor f = true ↔
        (∃ n, 1 ≤ n ∧ n ≤ 999 ∧ f = above_ground n) ∨ (∃ n, 1 ≤ n ∧ n ≤ 99 ∧ f = basement n))
    ∧ (∀ m n, 1 ≤ m → m ≤ 99 → 1 ≤ n → n ≤ 999 →
        are_consecutive_floors (basement m) (above_ground n) = true
          ∧ are_consecutive_floors (above_ground n) (basement m) = false)
    ∧ (∀ m n, 1 ≤ m → m ≤ 99 → 1 ≤ n → n ≤ 99 →
        ((are_consecutive_floors (basement m) (basement n) = true
            ∧ are_consecutive_floors (basement n) (basement m) = false) ↔ m > n))
    ∧ (∀ m n, 1 ≤ m → m ≤ 999 → 1 ≤ n → n ≤ 999 →
        (are_consecutive_floors (above_ground m) (above_ground n) = true ↔ m ≤ n))
    ∧ (∀ f, is_valid_floor f = true →
        are_consecutive_floors ['B', '9', '9'] f = true
          ∧ are_consecutive_floors f ['9', '9', '9'] = true) := by
  refine ⟨fun a _ => acf_refl a, acf_antisymm, fun a b c _ _ _ => acf_trans a b c,
    fun a b _ _ => acf_total a b, valid_floor_iff, ?_, ?_, acf_above, ?_⟩
  · intro m n _ _ n1 n2
    exact acf_basement_above m n n1 n2
  · intro m n m1 m2 n1 n2
    have h1 := acf_basement m n m1 m2 n1 n2
    have h2 := acf_basement n m n1 n2 m1 m2
    constructor
    · rintro ⟨a, b⟩
      rw [h1] at a
      have : ¬ (m ≤ n) := by
        intro hmn
        rw [h2.mpr hmn] at b
        exact absurd b (by decide)
      omega
    · intro hmn
      refine ⟨h1.mpr (by omega), ?_⟩
      cases hb : are_consecutive_floors (basement n) (basement m)
      · rfl
      · have := h2.mp hb
        omega
  · intro f hf
    have e1 : (['B', '9', '9'] : List Char) = basement 99 := by decide
    have e2 : (['9', '9', '9'] : List Char) = above_ground 999 := by decide
    rw [e1, e2]
    rcases valid_floor_cases f hf with ⟨n, n1, n2, rfl⟩ | ⟨n, n1, n2, rfl⟩
    · exact ⟨(acf_basement_above 99 n n1 n2).1, (acf_above n 999 n1 n2 (by omega) (by omega)).mpr n2⟩
    · exact ⟨(acf_basement 99 n (by omega) (by omega) n1 n2).mpr n2,
        (acf_basement_above n 999 (by omega) (by omega)).1⟩

/-- C9, at concrete floors: B2 is below B1, B1 is below 1, and 2 is below 10. -/
theorem are_consecutive_floors_total_order_witness :
    (are_consecutive_floors (basement 2) (basement 1) = true
        ∧ are_consecutive_floors (basement 1) (basement 2) = false)
    ∧ (are_consecutive_floors (basement 1) (above_ground 1) = true
        ∧ are_consecutive_floors (above_ground 1) (basement 1) = false)
    ∧ are_consecutive_floors (above_ground 2) (above_ground 10) = true :=
  ⟨(are_consecutive_floors_total_order.2.2.2.2.2.2.1 2 1 (by decide) (by decide) (by decide)
      (by decide)).mpr (by decide),
    are_consecutive_floors_total_order.2.2.2.2.2.1 1 1 (by decide) (by decide) (by decide)
      (by decide),
    (are_consecutive_floors_total_order.2.2.2.2.2.2.2.1 2 10 (by decide) (by decide) (by decide)
      (by decide)).mpr (by decide)⟩

/-- C10: stepping up and then down (down and then up) gives the floor back,
except at the top floor 999 (the bottom floor B99), where the step is clamped;
across the ground boundary B1 steps up to 1 and 1 steps down to B1. -/
theorem increment_decrement_round_trip :
    (∀ f, is_valid_floor f = true → f ≠ ['9', '9', '9'] →
        decrement_floor (increment_floor f) = f)
    ∧ (∀ f, is_valid_floor f = true → f ≠ ['B', '9', '9'] →
        increment_floor (decrement_floor f) = f)
    ∧ increment_floor ['9', '9', '9'] = ['9', '9', '9']
    ∧ decrement_floor ['B', '9', '9'] = ['B', '9', '9']
    ∧ increment_floor ['B', '1'] = ['1']
    ∧ decrement_floor ['1'] = ['B', '1'] := by
  refine ⟨?_, ?_, by decide, by decide, by decide, by decide⟩
  · intro f hf hne
    rcases valid_floor_cases f hf with ⟨n, n1, n2, rfl⟩ | ⟨n, n1, n2, rfl⟩
    · have hn : n ≠ 999 := by
        rintro rfl
        exact hne (by decide)
      rw [(step_table n (by omega) n1).1, if_neg hn,
        (step_table (n + 1) (by omega) (by omega)).2.1, if_neg (by omega)]
      simp
    · rw [((step_table n (by omega) n1).2.2 (by omega)).1]
      by_cases h1 : n = 1
      · subst h1
        decide
      · rw [if_neg h1, ((step_table (n - 1) (by omega) (by omega)).2.2 (by omega)).2,
          if_neg (by omega)]
        congr 1
        omega
  · intro f hf hne
    rcases valid_floor_cases f hf with ⟨n, n1, n2, rfl⟩ | ⟨n, n1, n2, rfl⟩
    · rw [(step_table n (by omega) n1).2.1]
      by_cases h1 : n = 1
      · subst h1
        decide
      · rw [if_neg h1, (step_table (n - 1) (by omega) (by omega)).1, if_neg (by omega)]
        congr 1
        omega
    · have hn : n ≠ 99 := by
        rintro rfl
        exact hne (by decide)
      rw [((step_table n (by omega) n1).2.2 (by omega)).2, if_neg hn,
        ((step_table (n + 1) (by omega) (by omega)).2.2 (by omega)).1, if_neg (by omega)]
      simp

/-- C10, at the floors 7 and B3. -/
theorem increment_decrement_round_trip_witness :
    decrement_floor (increment_floor ['7']) = ['7']
      ∧ increment_floor (decrement_floor ['B', '3']) = ['B', '3'] :=
  ⟨increment_decrement_round_trip.1 ['7'] (by decide) (by decide),
    increment_decrement_round_trip.2.1 ['B', '3'] (by decide) (by decide)⟩

/-! ## The scheduler on the scenarios of the specification -/

/-- C2, as amended: on the car of range 1..10 standing at floor 1 with an empty
queue, `CALL 1 5`, `CALL 3 7`, `CALL 8 2` leave the ride queue
(1,U),(3,U),(5,U),(7,U),(8,D),(2,D): both stops of `CALL 8 2` carry the
direction D of the call. -/
theorem scenario_queue_eq :
    scenario_queue
      = some [⟨['1'], UP⟩, ⟨['3'], UP⟩, ⟨['5'], UP⟩, ⟨['7'], UP⟩, ⟨['8'], DOWN⟩,
          ⟨['2'], DOWN⟩] := by
  decide

/-- C2, as stated, fails: the queue is not (1,U),(3,U),(5,U),(7,U),(8,U),(2,D). -/
theorem scenario_queue_ne_claimed :
    scenario_queue
      ≠ some [⟨['1'], UP⟩, ⟨['3'], UP⟩, ⟨['5'], UP⟩, ⟨['7'], UP⟩, ⟨['8'], UP⟩,
          ⟨['2'], DOWN⟩] := by
  decide

/-- C3, the code at the failing inputs: with the doors closing at floor 5 and
the queue (5,U),(7,U), `CALL 5 6` puts (5,U) and (6,U) directly behind the head,
inside the block of the head and before its entry (7,U); at the queue (5,U) of
the claim, `CALL 5 7` puts a second (5,U) directly behind the head. -/
theorem schedule_floors_closing_inserts_behind_head :
    (schedule_floors (closing_car [⟨['5'], UP⟩, ⟨['7'], UP⟩]) ['5'] ['6']).map Car.queue
        = some [⟨['5'], UP⟩, ⟨['5'], UP⟩, ⟨['6'], UP⟩, ⟨['7'], UP⟩]
      ∧ (schedule_floors (closing_car [⟨['5'], UP⟩]) ['5'] ['7']).map Car.queue
        = some [⟨['5'], UP⟩, ⟨['5'], UP⟩, ⟨['7'], UP⟩] := by
  decide

/-- C5, the code at the failing input: with no car registered `handle_call`
sends the frame `UNAVAILABLE` to the call pad twice. -/
theorem handle_call_empty_registry_sends_twice (clientfd : Int)
    (source_floor destination_floor : List Char) :
    handle_call [] clientfd source_floor destination_floor
      = some ([], [⟨clientfd, "UNAVAILABLE".toList⟩, ⟨clientfd, "UNAVAILABLE".toList⟩]) := by
  rfl

theorem strncmp_eq_iff (a b : List Char) (n : Nat) (ha : a.length ≤ n) (hb : b.length ≤ n) :
    strncmp_eq a b n = true ↔ a = b := by
  unfold strncmp_eq
  rw [List.take_of_length_le ha, List.take_of_length_le hb]
  simp

theorem strncpy_eq (a : List Char) (n : Nat) (ha : a.length ≤ n) : strncpy a n = a :=
  List.take_of_length_le ha

theorem queue_pop_single_eq (q : List QueueNode) (floor : List Char)
    (hf : floor.length < MAX_FLOOR_LENGTH) (hq : ∀ n ∈ q, n.floor.length < MAX_FLOOR_LENGTH) :
    queue_pop_single q floor
      = match q with
        | [] => []
        | first :: rest => if first.floor = floor then rest else first :: rest := by
  cases q with
  | nil => rfl
  | cons first rest =>
    have h1 := hq first (List.mem_cons_self _ _)
    have := strncmp_eq_iff first.floor floor MAX_FLOOR_LENGTH (by omega) (by omega)
    simp only [queue_pop_single, this, queue_pop]

theorem queue_pop_double_eq (q : List QueueNode) (floor : List Char)
    (hf : floor.length < MAX_FLOOR_LENGTH) (hq : ∀ n ∈ q, n.floor.length < MAX_FLOOR_LENGTH) :
    queue_pop_double q floor
      = q.drop (min 2 (q.takeWhile fun n => decide (n.floor = floor)).length) := by
  unfold queue_pop_double
  rcases q with _ | ⟨a, _ | ⟨b, rest⟩⟩
  · rfl
  · rw [queue_pop_single_eq _ floor hf hq]
    by_cases ha : a.floor = floor
    · simp [ha, queue_pop_single]
    · simp only [ha, if_false]
      rw [queue_pop_single_eq _ floor hf hq]
      simp [ha]
  · have hq1 : ∀ n ∈ b :: rest, n.floor.length < MAX_FLOOR_LENGTH :=
      fun n hn => hq n (List.mem_cons_of_mem _ hn)
    rw [queue_pop_single_eq _ floor hf hq]
    by_cases ha : a.floor = floor
    · simp only [ha, if_true]
      rw [queue_pop_single_eq _ floor hf hq1]
      by_cases hb : b.floor = floor
      · simp [ha, hb, List.takeWhile_cons]
      · simp [ha, hb, List.takeWhile_cons]
    · simp only [ha, if_false]
      rw [queue_pop_single_eq _ floor hf hq]
      simp [ha, List.takeWhile_cons]

theorem floor_message_fits (floor : List Char) (hf : floor.length < MAX_FLOOR_LENGTH) :
    snprintf 10 ("FLOOR ".toList ++ floor) = "FLOOR ".toList ++ floor := by
  unfold snprintf
  apply List.take_of_length_le
  have : "FLOOR ".toList.length = 6 := by decide
  rw [List.length_append, this]
  unfold MAX_FLOOR_LENGTH at hf
  omega

/-- C6: `update_car_state` stores the three reported fields in the car record
and leaves the other fields; it changes the ride queue only when the status is
`Opening` and the current floor is the destination floor, and then drops the
leading entries whose floor is the current floor, at most two of them (none
when the first entry has another floor, one when the second entry has another
floor), and sends `FLOOR` with the floor of the first remaining entry exactly
when an entry remains.  The strings are C strings that fit their buffers. -/
theorem update_car_state_spec (car : Car) (status current_floor destination_floor : List Char)
    (hs : status.length < MAX_STATUS_LENGTH) (hc : current_floor.length < MAX_FLOOR_LENGTH)
    (hd : destination_floor.length < MAX_FLOOR_LENGTH)
    (hq : ∀ n ∈ car.queue, n.floor.length < MAX_FLOOR_LENGTH) :
    (update_car_state car status current_floor destination_floor).1.status = status
    ∧ (update_car_state car status current_floor destination_floor).1.current_floor
        = current_floor
    ∧ (update_car_state car status current_floor destination_floor).1.destination_floor
        = destination_floor
    ∧ (update_car_state car status current_floor destination_floor).1.car_name = car.car_name
    ∧ (update_car_state car status current_floor destination_floor).1.lowest_floor
        = car.lowest_floor
    ∧ (update_car_state car status current_floor destination_floor).1.highest_floor
        = car.highest_floor
    ∧ (update_car_state car status current_floor destination_floor).1.clientfd = car.clientfd
    ∧ (¬ (status = "Opening".toList ∧ current_floor = destination_floor) →
        (update_car_state car status current_floor destination_floor).1.queue = car.queue
          ∧ (update_car_state car status current_floor destination_floor).2 = [])
    ∧ ((status = "Opening".toList ∧ current_floor = destination_floor) →
        (update_car_state car status current_floor destination_floor).1.queue
            = car.queue.drop
                (min 2 (car.queue.takeWhile fun n => decide (n.floor = current_floor)).length)
          ∧ (∀ a rest, car.queue = a :: rest → a.floor ≠ current_floor →
              (update_car_state car status current_floor destination_floor).1.queue = car.queue)
          ∧ (∀ a b rest, car.queue = a :: b :: rest → a.floor = current_floor →
              b.floor ≠ current_floor →
              (update_car_state car status current_floor destination_floor).1.queue = b :: rest)
          ∧ (update_car_state car status current_floor destination_floor).2
              = match (update_car_state car status current_floor destination_floor).1.queue with
                | [] => []
                | first :: _ => [⟨car.clientfd, "FLOOR ".toList ++ first.floor⟩]) := by
  have e1 := strncmp_eq_iff status "Opening".toList MAX_STATUS_LENGTH (by omega) (by decide)
  have e2 := strncmp_eq_iff current_floor destination_floor MAX_FLOOR_LENGTH (by omega)
    (by omega)
  have c1 : strncpy status MAX_STATUS_LENGTH = status := strncpy_eq _ _ (by omega)
  have c2 : strncpy current_floor MAX_FLOOR_LENGTH = current_floor := strncpy_eq _ _ (by omega)
  have c3 : strncpy destination_floor MAX_FLOOR_LENGTH = destination_floor :=
    strncpy_eq _ _ (by omega)
  have hpop := queue_pop_double_eq car.queue current_floor hc hq
  by_cases hcond : status = "Opening".toList ∧ current_floor = destination_floor
  · have b1 := e1.mpr hcond.1
    have b2 := e2.mpr hcond.2
    have hu : update_car_state car status current_floor destination_floor
        = ({ car with
              status := status
              current_floor := current_floor
              destination_floor := destination_floor
              queue := queue_pop_double car.queue current_floor },
            match queue_pop_double car.queue current_floor with
            | [] => []
            | first :: _ => [⟨car.clientfd, "FLOOR ".toList ++ first.floor⟩]) := by
      simp only [update_car_state, b1, b2, c1, c2, c3, Bool.not_true, Bool.or_self,
        Bool.false_eq_true, if_false]
      cases hq2 : queue_pop_double car.queue current_floor with
      | nil => rfl
      | cons first rest =>
        have hm : first ∈ car.queue := by
          have : first ∈ queue_pop_double car.queue current_floor := by
            rw [hq2]; exact List.mem_cons_self _ _
          rw [hpop] at this
          exact List.mem_of_mem_drop this
        simp only [floor_message_fits first.floor (hq first hm)]
    rw [hu]
    refine ⟨rfl, rfl, rfl, rfl, rfl, rfl, rfl, fun h => absurd hcond h, fun _ => ⟨hpop, ?_, ?_, rfl⟩⟩
    · intro a rest hq1 ha
      show queue_pop_double car.queue current_floor = car.queue
      rw [hpop, hq1]
      simp [List.takeWhile_cons, ha]
    · intro a b rest hq1 ha hb
      show queue_pop_double car.queue current_floor = b :: rest
      rw [hpop, hq1]
      simp [List.takeWhile_cons, ha, hb]
  · have hb : (!strncmp_eq status "Opening".toList MAX_STATUS_LENGTH
        || !strncmp_eq current_floor destination_floor MAX_FLOOR_LENGTH) = true := by
      by_cases h1 : status = "Opening".toList
      · have h2 : ¬ current_floor = destination_floor := fun h => hcond ⟨h1, h⟩
        have : strncmp_eq current_floor destination_floor MAX_FLOOR_LENGTH = false := by
          cases hx : strncmp_eq current_floor destination_floor MAX_FLOOR_LENGTH
          · rfl
          · exact absurd (e2.mp hx) h2
        rw [this, e1.mpr h1]
        rfl
      · have : strncmp_eq status "Opening".toList MAX_STATUS_LENGTH = false := by
          cases hx : strncmp_eq status "Opening".toList MAX_STATUS_LENGTH
          · rfl
          · exact absurd (e1.mp hx) h1
        rw [this]
        rfl
    have hu : update_car_state car status current_floor destination_floor
        = ({ car with
              status := status
              current_floor := current_floor
              destination_floor := destination_floor }, []) := by
      simp only [update_car_state, hb, c1, c2, c3, if_true]
    rw [hu]
    exact ⟨rfl, rfl, rfl, rfl, rfl, rfl, rfl, fun _ => ⟨rfl, rfl⟩, fun h => absurd h hcond⟩

/-- C6, at a concrete report: `STATUS Opening 5 5` on the queue (5,U),(5,D),(2,D)
drops the two entries of floor 5 and sends `FLOOR 2`. -/
theorem update_car_state_spec_witness :
    (update_car_state (closing_car [⟨['5'], UP⟩, ⟨['5'], DOWN⟩, ⟨['2'], DOWN⟩]) "Opening".toList
        ['5'] ['5']).1.queue = [⟨['2'], DOWN⟩]
    ∧ (update_car_state (closing_car [⟨['5'], UP⟩, ⟨['5'], DOWN⟩, ⟨['2'], DOWN⟩]) "Opening".toList
        ['5'] ['5']).2 = [⟨4, "FLOOR 2".toList⟩] := by
  have h := update_car_state_spec (closing_car [⟨['5'], UP⟩, ⟨['5'], DOWN⟩, ⟨['2'], DOWN⟩])
    "Opening".toList ['5'] ['5'] (by decide) (by decide) (by decide) (by decide)
  have h9 := h.2.2.2.2.2.2.2.2 ⟨rfl, rfl⟩
  refine ⟨h9.1.trans (by decide), h9.2.2.2.trans (by decide)⟩

/-! ## Car selection -/

theorem get_append_singleton (seen : List Car) (x : Car) (j : Nat) (o : Car)
    (h : (seen ++ [x]).get? j = some o) :
    (j < seen.length ∧ seen.get? j = some o) ∨ (j = seen.length ∧ o = x) := by
  rw [List.get?_eq_getElem?] at h
  by_cases hj : j < seen.length
  · rw [List.getElem?_append_left hj] at h
    exact Or.inl ⟨hj, by rw [List.get?_eq_getElem?]; exact h⟩
  · rw [List.getElem?_append_right (by omega)] at h
    have h0 : j - seen.length = 0 := by
      by_contra hne
      obtain ⟨m, hm⟩ : ∃ m, j - seen.length = m + 1 := ⟨j - seen.length - 1, by omega⟩
      rw [hm] at h
      simp at h
    rw [h0] at h
    simp at h
    exact Or.inr ⟨by omega, h.symm⟩

theorem get_lt_length (seen : List Car) (k : Nat) (c : Car) (h : seen.get? k = some c) :
    k < seen.length := by
  rw [List.get?_eq_getElem?] at h
  by_contra hk
  rw [List.getElem?_eq_none (by omega)] at h
  exact absurd h (by simp)

theorem get_append_of_get (seen : List Car) (x : Car) (k : Nat) (c : Car)
    (h : seen.get? k = some c) : (seen ++ [x]).get? k = some c := by
  have hk := get_lt_length seen k c h
  rw [List.get?_eq_getElem?] at h ⊢
  rw [List.getElem?_append_left hk]
  exact h

theorem choose_car_loop_spec (source_floor destination_floor : List Char) :
    ∀ (rest seen : List Car) (car : Option Nat) (min_entries : Nat),
      (∀ c ∈ seen ++ rest, queue_size c.queue < SIZE_MAX) →
      ChosenAmong source_floor destination_floor seen car min_entries →
      ∃ m, ChosenAmong source_floor destination_floor (seen ++ rest)
        (choose_car_loop source_floor destination_floor rest seen.length car min_entries) m := by
  intro rest
  induction rest with
  | nil =>
    intro seen car min_entries _ h
    exact ⟨min_entries, by simpa [choose_car_loop] using h⟩
  | cons x rest ih =>
    intro seen car min_entries hsize h
    have hx : queue_size x.queue < SIZE_MAX := hsize x (by simp)
    have hsize1 : ∀ c ∈ (seen ++ [x]) ++ rest, queue_size c.queue < SIZE_MAX := by
      intro c hc
      exact hsize c (by simpa using hc)
    have hlen : (seen ++ [x]).length = seen.length + 1 := by simp
    have happ : seen ++ x :: rest = (seen ++ [x]) ++ rest := by simp
    rw [happ]
    unfold choose_car_loop
    by_cases hserve : can_serve x source_floor destination_floor = true
    · have hcond : (!is_floor_within_bounds source_floor x.lowest_floor x.highest_floor
          || !is_floor_within_bounds destination_floor x.lowest_floor x.highest_floor) = false := by
        unfold can_serve at hserve
        rw [Bool.and_eq_true] at hserve
        rw [hserve.1, hserve.2]
        rfl
      rw [hcond]
      simp only [Bool.false_eq_true, if_false]
      by_cases hlt : queue_size x.queue < min_entries
      · rw [if_pos hlt, ← hlen]
        apply ih (seen ++ [x]) _ _ hsize1
        refine ⟨x, ?_, hserve, rfl, ?_⟩
        · rw [List.get?_eq_getElem?]
          simp
        · intro j o hj ho
          rcases get_append_singleton seen x j o hj with ⟨hjl, hj1⟩ | ⟨hjl, rfl⟩
          · cases car with
            | none =>
              have := h.2 o (List.get?_mem hj1)
              rw [this] at ho
              exact absurd ho (by simp)
            | some k =>
              obtain ⟨c, _, _, hmin, hall⟩ := h
              have := (hall j o hj1 ho).1
              omega
          · exact ⟨le_refl _, fun _ => by omega⟩
      · rw [if_neg hlt, ← hlen]
        apply ih (seen ++ [x]) _ _ hsize1
        cases car with
        | none =>
          have := h.1
          omega
        | some k =>
          obtain ⟨c, hk, hc, hmin, hall⟩ := h
          refine ⟨c, get_append_of_get seen x k c hk, hc, hmin, ?_⟩
          intro j o hj ho
          rcases get_append_singleton seen x j o hj with ⟨hjl, hj1⟩ | ⟨hjl, rfl⟩
          · exact hall j o hj1 ho
          · have := get_lt_length seen k c hk
            exact ⟨by omega, fun _ => by omega⟩
    · have hserve1 : can_serve x source_floor destination_floor = false := by
        cases hb : can_serve x source_floor destination_floor
        · rfl
        · exact absurd hb hserve
      have hcond : (!is_floor_within_bounds source_floor x.lowest_floor x.highest_floor
          || !is_floor_within_bounds destination_floor x.lowest_floor x.highest_floor) = true := by
        unfold can_serve at hserve1
        rw [Bool.and_eq_false_iff] at hserve1
        rcases hserve1 with h1 | h1 <;> rw [h1] <;> simp
      rw [hcond]
      simp only [if_true]
      rw [← hlen]
      apply ih (seen ++ [x]) _ _ hsize1
      cases car with
      | none =>
        refine ⟨h.1, ?_⟩
        intro c hc
        rcases List.mem_append.mp hc with hc1 | hc1
        · exact h.2 c hc1
        · rw [List.mem_singleton.mp hc1]
          exact hserve1
      | some k =>
        obtain ⟨c, hk, hc, hmin, hall⟩ := h
        refine ⟨c, get_append_of_get seen x k c hk, hc, hmin, ?_⟩
        intro j o hj ho
        rcases get_append_singleton seen x j o hj with ⟨hjl, hj1⟩ | ⟨hjl, rfl⟩
        · exact hall j o hj1 ho
        · rw [hserve1] at ho
          exact absurd ho (by simp)

/-! ## Framed transport -/

theorem error_free_tail (script : List (Option Nat)) (h : error_free script) :
    error_free script.tail :=
  fun e he => h e (List.mem_of_mem_tail he)

theorem transfer_size_bounds (limit : Option (Option Nat)) (count : Nat) (hc : 1 ≤ count) :
    1 ≤ transfer_size limit count ∧ transfer_size limit count ≤ count := by
  unfold transfer_size
  split
  · omega
  · omega

theorem read_ok (fd : InStream) (count : Nat) (h : error_free fd.script) :
    read fd count
      = (((min (transfer_size fd.script.head? count) fd.pending.length : Nat) : Int),
          fd.pending.take (min (transfer_size fd.script.head? count) fd.pending.length),
          { pending := fd.pending.drop (min (transfer_size fd.script.head? count) fd.pending.length),
            script := fd.script.tail }) := by
  unfold read
  split
  · rename_i heq
    have := List.mem_of_mem_head? heq
    exact absurd rfl (h none this)
  · rfl

theorem write_ok (fd : OutStream) (data : List Char) (count : Nat) (h : error_free fd.script) :
    write fd data count
      = (((transfer_size fd.script.head? count : Nat) : Int),
          { written := fd.written ++ data.take (transfer_size fd.script.head? count),
            script := fd.script.tail }) := by
  unfold write
  split
  · rename_i heq
    have := List.mem_of_mem_head? heq
    exact absurd rfl (h none this)
  · rfl

theorem recv_looped_complete : ∀ (fuel : Nat) (fd : InStream) (remain : Nat) (buf : List Char),
    error_free fd.script → remain ≤ fd.pending.length → remain < fuel →
    ∃ script, error_free script ∧ recv_looped fuel fd remain buf
      = some (0, buf ++ fd.pending.take remain, ⟨fd.pending.drop remain, script⟩) := by
  intro fuel
  induction fuel with
  | zero => intro fd remain buf _ _ h; omega
  | succ fuel ih =>
    intro fd remain buf hs hlen hfuel
    unfold recv_looped
    by_cases hr : remain > 0
    · rw [if_pos hr, read_ok fd remain hs]
      obtain ⟨t1, t2⟩ := transfer_size_bounds fd.script.head? remain hr
      generalize transfer_size fd.script.head? remain = ts at t1 t2
      have hmin : min ts fd.pending.length = ts := by omega
      simp only [hmin]
      have hne : ¬ ((ts : Int) = -1) := by omega
      rw [if_neg hne]
      obtain ⟨script, hs1, heq⟩ := ih ⟨fd.pending.drop ts, fd.script.tail⟩ (remain - ts)
        (buf ++ fd.pending.take ts) (error_free_tail _ hs) (by simp; omega) (by omega)
      refine ⟨script, hs1, ?_⟩
      rw [Int.toNat_ofNat, heq]
      simp only [List.drop_drop, List.append_assoc]
      have e1 : List.take ts fd.pending ++ List.take (remain - ts) (List.drop ts fd.pending)
          = List.take remain fd.pending := by
        rw [← List.take_add]
        congr 1
        omega
      have e2 : ts + (remain - ts) = remain := by omega
      have e3 : remain - ts + ts = remain := by omega
      simp only [e1, e2, e3]
    · have h0 : remain = 0 := by omega
      subst h0
      rw [if_neg hr]
      exact ⟨fd.script, hs, by simp⟩

theorem recv_looped_end_of_stream : ∀ (fuel : Nat) (fd : InStream) (remain : Nat)
    (buf : List Char), error_free fd.script → fd.pending.length < remain →
    recv_looped fuel fd remain buf = none := by
  intro fuel
  induction fuel with
  | zero => intro fd remain buf _ _; rfl
  | succ fuel ih =>
    intro fd remain buf hs hlen
    unfold recv_looped
    have hr : remain > 0 := by omega
    rw [if_pos hr, read_ok fd remain hs]
    simp only
    have hne : ¬ (((min (transfer_size fd.script.head? remain) fd.pending.length : Nat) : Int)
        = -1) := by omega
    rw [if_neg hne]
    apply ih
    · exact error_free_tail _ hs
    · simp only [List.length_drop, Int.toNat_ofNat]
      omega

theorem recv_looped_more_fuel : ∀ (fuel : Nat) (fd : InStream) (remain : Nat) (buf : List Char)
    (r : Int × List Char × InStream) (k : Nat),
    recv_looped fuel fd remain buf = some r → recv_looped (fuel + k) fd remain buf = some r := by
  intro fuel
  induction fuel with
  | zero => intro fd remain buf r k h; simp [recv_looped] at h
  | succ fuel ih =>
    intro fd remain buf r k h
    rw [show fuel + 1 + k = (fuel + k) + 1 by omega]
    unfold recv_looped at h ⊢
    by_cases hr : remain > 0
    · rw [if_pos hr] at h ⊢
      by_cases hm : (read fd remain).1 = -1
      · rw [if_pos hm] at h ⊢
        exact h
      · rw [if_neg hm] at h ⊢
        exact ih _ _ _ _ _ h
    · rw [if_neg hr] at h ⊢
      exact h

theorem send_looped_complete : ∀ (fuel : Nat) (fd : OutStream) (msg : List Char) (remain : Nat),
    error_free fd.script → remain ≤ msg.length → remain < fuel →
    ∃ script, error_free script ∧ send_looped fuel fd msg remain
      = some (0, ⟨fd.written ++ msg.take remain, script⟩) := by
  intro fuel
  induction fuel with
  | zero => intro fd msg remain _ _ h; omega
  | succ fuel ih =>
    intro fd msg remain hs hlen hfuel
    unfold send_looped
    by_cases hr : remain > 0
    · rw [if_pos hr, write_ok fd msg remain hs]
      obtain ⟨t1, t2⟩ := transfer_size_bounds fd.script.head? remain hr
      generalize transfer_size fd.script.head? remain = ts at t1 t2
      simp only
      have hne : ¬ ((ts : Int) = -1) := by omega
      rw [if_neg hne]
      obtain ⟨script, hs1, heq⟩ := ih ⟨fd.written ++ msg.take ts, fd.script.tail⟩
        (msg.drop ts) (remain - ts) (error_free_tail _ hs) (by simp; omega) (by omega)
      refine ⟨script, hs1, ?_⟩
      rw [Int.toNat_ofNat, heq]
      simp only [List.append_assoc]
      have e1 : List.take ts msg ++ List.take (remain - ts) (List.drop ts msg)
          = List.take remain msg := by
        rw [← List.take_add]
        congr 1
        omega
      rw [e1]
    · have h0 : remain = 0 := by omega
      subst h0
      rw [if_neg hr]
      exact ⟨fd.script, hs, by simp⟩

theorem byte_toNat : ∀ b < 256, (Char.ofNat b).toNat = b := by
  decide!

theorem ntohl_htonl (n : Nat) (h : n < 2 ^ 32) : ntohl (htonl n) = n := by
  unfold ntohl htonl
  simp only [char_at, List.getD_cons_zero, List.getD_cons_succ]
  rw [byte_toNat _ (Nat.mod_lt _ (by norm_num)), byte_toNat _ (Nat.mod_lt _ (by norm_num)),
    byte_toNat _ (Nat.mod_lt _ (by norm_num)), byte_toNat _ (Nat.mod_lt _ (by norm_num))]
  omega

theorem htonl_length (n : Nat) : (htonl n).length = 4 := rfl

theorem send_message_written (fuel : Nat) (written : List Char) (script : List (Option Nat))
    (msg : List Char) (hs : error_free script) (hlen : msg.length < 2 ^ 32)
    (hfuel : msg.length + 4 < fuel) :
    ∃ script1, error_free script1 ∧ send_message fuel ⟨written, script⟩ msg
      = some (0, ⟨written ++ (htonl msg.length ++ msg), script1⟩) := by
  unfold send_message
  rw [Nat.mod_eq_of_lt hlen]
  dsimp only
  obtain ⟨s1, hs1, e1⟩ := send_looped_complete fuel ⟨written, script⟩ (htonl msg.length) 4 hs
    (by rw [htonl_length]) (by omega)
  rw [e1]
  simp only
  rw [if_neg (by decide)]
  obtain ⟨s2, hs2, e2⟩ := send_looped_complete fuel
    ⟨written ++ List.take 4 (htonl msg.length), s1⟩ msg msg.length hs1 (le_refl _) (by omega)
  rw [e2]
  simp only
  rw [if_neg (by decide)]
  refine ⟨s2, hs2, ?_⟩
  rw [List.take_of_length_le (by rw [htonl_length]), List.take_of_length_le (le_refl _),
    List.append_assoc]

theorem recv_header (fuel : Nat) (n : Nat) (rest : List Char) (script : List (Option Nat))
    (hs : error_free script) (hfuel : 4 < fuel) :
    ∃ script1, error_free script1 ∧ recv_looped fuel ⟨htonl n ++ rest, script⟩ 4 []
      = some (0, htonl n, ⟨rest, script1⟩) := by
  obtain ⟨s1, hs1, e1⟩ := recv_looped_complete fuel ⟨htonl n ++ rest, script⟩ 4 [] hs
    (by simp [htonl_length]) hfuel
  refine ⟨s1, hs1, ?_⟩
  rw [e1]
  have h4 : (htonl n).length = 4 := htonl_length n
  simp only [List.nil_append]
  rw [List.take_left' h4, List.drop_left' h4]

theorem receive_msg_frame (fuel : Nat) (msg rest : List Char) (script : List (Option Nat))
    (hs : error_free script) (hlen : msg.length < 2 ^ 32 - 1) (hfuel : msg.length + 4 < fuel) :
    ∃ script1, error_free script1 ∧ receive_msg fuel ⟨htonl msg.length ++ (msg ++ rest), script⟩
      = some (Received.message msg, ⟨rest, script1⟩) := by
  unfold receive_msg
  obtain ⟨s1, hs1, e1⟩ := recv_header fuel msg.length (msg ++ rest) script hs (by omega)
  rw [e1]
  simp only
  rw [if_neg (by decide), ntohl_htonl _ (by omega)]
  have hsize : (msg.length + 1) % 2 ^ 32 = msg.length + 1 := Nat.mod_eq_of_lt (by omega)
  rw [hsize, if_neg (by omega)]
  obtain ⟨s2, hs2, e2⟩ := recv_looped_complete fuel ⟨msg ++ rest, s1⟩ msg.length [] hs1
    (by simp) (by omega)
  rw [e2]
  simp only
  rw [if_neg (by decide)]
  refine ⟨s2, hs2, ?_⟩
  simp

/-- The frame round trip below the longest payload: for a payload of at most
`2 ^ 32 - 2` bytes and system calls that do not fail, `send_message` writes the
big-endian length and the payload, and `receive_msg` returns the payload from
exactly these bytes, however the reads and writes are split. -/
theorem frame_round_trip (fuel : Nat) (msg : List Char) (wscript rscript : List (Option Nat))
    (hw : error_free wscript) (hr : error_free rscript) (hlen : msg.length < 2 ^ 32 - 1)
    (hfuel : msg.length + 4 < fuel) :
    ∃ out, send_message fuel ⟨[], wscript⟩ msg = some (0, out)
      ∧ out.written = htonl msg.length ++ msg
      ∧ ∃ rest, receive_msg fuel ⟨out.written, rscript⟩ = some (Received.message msg, rest)
          ∧ rest.pending = [] := by
  obtain ⟨s1, _, e1⟩ := send_message_written fuel [] wscript msg hw (by omega) hfuel
  obtain ⟨s2, _, e2⟩ := receive_msg_frame fuel msg [] rscript hr hlen hfuel
  refine ⟨_, e1, by simp, ⟨[], s2⟩, ?_, rfl⟩
  simpa using e2

/-- The frame round trip at `CALL 1 5`, written one byte and then three bytes at
a time and read two bytes at a time. -/
theorem frame_round_trip_witness :
    ∃ out, send_message 20 ⟨[], [some 1, some 3]⟩ "CALL 1 5".toList = some (0, out)
      ∧ out.written = htonl 8 ++ "CALL 1 5".toList
      ∧ ∃ rest, receive_msg 20 ⟨out.written, [some 2, some 2, some 2]⟩
            = some (Received.message "CALL 1 5".toList, rest)
          ∧ rest.pending = [] :=
  frame_round_trip 20 "CALL 1 5".toList [some 1, some 3] [some 2, some 2, some 2] (by decide)
    (by decide) (by decide) (by decide)

theorem receive_msg_overflow (fuel : Nat) (msg : List Char) (script : List (Option Nat))
    (hs : error_free script) (hlen : msg.length = 2 ^ 32 - 1) (hfuel : 4 < fuel) :
    ∃ rest, receive_msg fuel ⟨htonl msg.length ++ msg, script⟩
      = some (Received.out_of_bounds, rest) := by
  unfold receive_msg
  obtain ⟨s1, hs1, e1⟩ := recv_header fuel msg.length msg script hs hfuel
  rw [e1]
  simp only
  rw [if_neg (by decide), ntohl_htonl _ (by omega)]
  have hsize : (msg.length + 1) % 2 ^ 32 = 0 := by
    rw [hlen]
    norm_num
  rw [hsize, if_pos (by omega)]
  exact ⟨_, rfl⟩

/-- C7, the code at the failing input: `send_message` of a payload of
`2 ^ 32 - 1` bytes writes the length bytes FF FF FF FF and the payload, and
`receive_msg` on exactly these bytes computes the size `len + 1 = 0` for its
buffer and writes `buf[len]` outside of it instead of returning the payload. -/
theorem receive_msg_longest_payload_out_of_bounds :
    ∃ out rest, send_message (2 ^ 33) ⟨[], []⟩ (List.replicate (2 ^ 32 - 1) 'A') = some (0, out)
      ∧ out.written = htonl (2 ^ 32 - 1) ++ List.replicate (2 ^ 32 - 1) 'A'
      ∧ receive_msg (2 ^ 33) ⟨out.written, []⟩ = some (Received.out_of_bounds, rest) := by
  have hl : (List.replicate (2 ^ 32 - 1) 'A').length = 2 ^ 32 - 1 := List.length_replicate _ _
  generalize List.replicate (2 ^ 32 - 1) 'A' = msg at hl
  have hnil : error_free [] := fun e he => absurd he (List.not_mem_nil e)
  obtain ⟨s1, _, e1⟩ := send_message_written (2 ^ 33) [] [] msg hnil (by omega) (by omega)
  obtain ⟨rest, e2⟩ := receive_msg_overflow (2 ^ 33) msg [] hnil hl (by norm_num)
  refine ⟨_, rest, e1, ?_, ?_⟩
  · rw [List.nil_append, hl]
  · rw [List.nil_append]
    exact e2

theorem receive_msg_end_of_stream (fuel : Nat) (msg : List Char) (k : Nat)
    (script : List (Option Nat)) (hs : error_free script) (hlen : msg.length < 2 ^ 32 - 1)
    (hk : k < 4 + msg.length) :
    receive_msg fuel ⟨(htonl msg.length ++ msg).take k, script⟩ = none := by
  unfold receive_msg
  by_cases hk4 : k < 4
  · rw [recv_looped_end_of_stream fuel _ 4 [] hs (by simp [htonl_length]; omega)]
  · have hp : (htonl msg.length ++ msg).take k = htonl msg.length ++ msg.take (k - 4) := by
      rw [List.take_append_eq_append_take, htonl_length,
        List.take_of_length_le (by rw [htonl_length]; omega)]
    rw [hp]
    cases hrecv : recv_looped fuel ⟨htonl msg.length ++ List.take (k - 4) msg, script⟩ 4 [] with
    | none => rfl
    | some r =>
      have h1 := recv_looped_more_fuel fuel _ 4 [] r 5 hrecv
      obtain ⟨s1, hs1, e1⟩ := recv_header (fuel + 5) msg.length (msg.take (k - 4)) script hs
        (by omega)
      rw [e1] at h1
      cases h1
      simp only
      rw [if_neg (by decide), ntohl_htonl _ (by omega)]
      have hsize : (msg.length + 1) % 2 ^ 32 = msg.length + 1 := Nat.mod_eq_of_lt (by omega)
      rw [hsize, if_neg (by omega)]
      rw [recv_looped_end_of_stream fuel _ msg.length [] hs1
        (by simp only [List.length_take]; omega)]

/-- C8, the code at the failing input: when the peer has closed the stream
before any byte, or after the length bytes and half of the payload `CALL 1 5`,
the loop of `recv_looped` is still running after any number of rounds:
`receive_msg` never returns. -/
theorem receive_msg_closed_stream_never_returns (fuel : Nat) :
    receive_msg fuel ⟨[], []⟩ = none
      ∧ receive_msg fuel ⟨htonl 8 ++ "CALL".toList, []⟩ = none := by
  have hnil : error_free [] := fun e he => absurd he (List.not_mem_nil e)
  constructor
  · exact receive_msg_end_of_stream fuel [] 0 [] hnil (by norm_num) (by norm_num)
  · exact receive_msg_end_of_stream fuel "CALL 1 5".toList 8 [] hnil (by norm_num) (by decide)

/-! ## Blockwise monotonicity of the ride queue -/

theorem in_order_refl (d : Direction) (a : List Char) : in_order d a a = true := by
  unfold in_order
  split <;> exact acf_refl a

theorem in_order_total (d : Direction) (a b : List Char) :
    in_order d a b = true ∨ in_order d b a = true := by
  unfold in_order
  split
  · exact acf_total a b
  · exact acf_total b a

theorem in_order_trans (d : Direction) (a b c : List Char) (h1 : in_order d a b = true)
    (h2 : in_order d b c = true) : in_order d a c = true := by
  unfold in_order at *
  by_cases hd : d = UP
  · rw [if_pos hd] at h1 h2 ⊢
    exact acf_trans a b c h1 h2
  · rw [if_neg hd] at h1 h2 ⊢
    exact acf_trans c b a h2 h1

theorem is_valid_order_iff (a b : List Char) (d : Direction) (ha : a.length ≤ MAX_FLOOR_LENGTH)
    (hb : b.length ≤ MAX_FLOOR_LENGTH) :
    is_valid_order a b d = true ↔ in_order d a b = true := by
  have he := strncmp_eq_iff a b MAX_FLOOR_LENGTH ha hb
  unfold is_valid_order in_order
  by_cases heq : a = b
  · subst heq
    simp [he.mpr rfl, acf_refl]
  · have hf : strncmp_eq a b MAX_FLOOR_LENGTH = false := by
      cases hx : strncmp_eq a b MAX_FLOOR_LENGTH
      · rfl
      · exact absurd (he.mp hx) heq
    cases d <;> simp [hf]

theorem step_ok_of_dir (x y : QueueNode) (h : x.direction ≠ y.direction) : step_ok x y = true := by
  unfold step_ok
  simp [h]

theorem step_ok_iff (x y : QueueNode) :
    step_ok x y = true ↔ (x.direction = y.direction → in_order x.direction x.floor y.floor = true) := by
  unfold step_ok
  by_cases h : x.direction = y.direction <;> simp [h]

theorem insert_at_zero (n : QueueNode) (q : List QueueNode) : insert_at 0 n q = n :: q := rfl

theorem insert_at_succ (j : Nat) (n a : QueueNode) (q : List QueueNode) :
    insert_at (j + 1) n (a :: q) = a :: insert_at j n q := rfl

theorem insert_at_length (j : Nat) (n : QueueNode) (q : List QueueNode) :
    (insert_at j n q).length = q.length + 1 := by
  unfold insert_at
  simp only [List.length_append, List.length_cons, List.length_take, List.length_drop]
  omega

theorem chain_insert_at (R : QueueNode → QueueNode → Prop) (n : QueueNode) :
    ∀ (q : List QueueNode) (j : Nat), j ≤ q.length → List.Chain' R q →
      (∀ i x, j = i + 1 → q.get? i = some x → R x n) →
      (∀ y, q.get? j = some y → R n y) →
      List.Chain' R (insert_at j n q) := by
  intro q
  induction q with
  | nil =>
    intro j _ _ _ _
    simp [insert_at]
  | cons a q ih =>
    intro j hj hc h1 h2
    cases j with
    | zero =>
      rw [insert_at_zero]
      exact List.Chain'.cons (h2 a rfl) hc
    | succ j =>
      rw [insert_at_succ]
      have hj1 : j ≤ q.length := by simpa using hj
      have hX : List.Chain' R (insert_at j n q) := by
        apply ih j hj1 (List.Chain'.tail hc)
        · intro i x hi hx
          exact h1 (i + 1) x (by omega) (by simpa using hx)
        · intro y hy
          exact h2 y (by simpa using hy)
      rw [List.chain'_cons']
      refine ⟨?_, hX⟩
      intro y hy
      cases j with
      | zero =>
        rw [insert_at_zero] at hy
        simp at hy
        rw [← hy]
        exact h1 0 a rfl rfl
      | succ j =>
        cases q with
        | nil => simp at hj1
        | cons b q =>
          rw [insert_at_succ] at hy
          simp at hy
          rw [← hy]
          exact (List.chain'_cons.mp hc).1

theorem insert_at_get_lt (j : Nat) (n : QueueNode) (q : List QueueNode) (i : Nat) (hi : i < j)
    (hj : j ≤ q.length) : (insert_at j n q).get? i = q.get? i := by
  unfold insert_at
  rw [List.get?_eq_getElem?, List.get?_eq_getElem?,
    List.getElem?_append_left (by simp; omega), List.getElem?_take_of_lt hi]

theorem insert_at_get_eq (j : Nat) (n : QueueNode) (q : List QueueNode) (hj : j ≤ q.length) :
    (insert_at j n q).get? j = some n := by
  unfold insert_at
  rw [List.get?_eq_getElem?, List.getElem?_append_right (by simp)]
  simp [Nat.min_eq_left hj]

theorem insert_at_get_gt (j : Nat) (n : QueueNode) (q : List QueueNode) (i : Nat) (hi : j ≤ i)
    (hj : j ≤ q.length) : (insert_at j n q).get? (i + 1) = q.get? i := by
  unfold insert_at
  rw [List.get?_eq_getElem?, List.get?_eq_getElem?, List.getElem?_append_right (by simp; omega)]
  simp only [List.length_take, Nat.min_eq_left hj]
  rw [show i + 1 - j = (i - j) + 1 by omega]
  simp only [List.getElem?_cons_succ, List.getElem?_drop]
  congr 1
  omega

theorem insert_at_drop_one (j : Nat) (n : QueueNode) (q : List QueueNode) (hq : q ≠ []) :
    (insert_at (j + 1) n q).drop 1 = insert_at j n (q.drop 1) := by
  cases q with
  | nil => exact absurd rfl hq
  | cons a q =>
    rw [insert_at_succ]
    rfl

theorem queue_add_cases (q : List QueueNode) (a : Nat) (floor : List Char) (d : Direction) :
    (queue_add q a floor d = q
        ∧ ∃ next, q.get? (a + 1) = some next
            ∧ strncmp_eq next.floor floor MAX_FLOOR_LENGTH = true ∧ next.direction = d)
      ∨ queue_add q a floor d = insert_at (a + 1) ⟨strncpy floor MAX_FLOOR_LENGTH, d⟩ q := by
  unfold queue_add insert_at
  cases hq : q.get? (a + 1) with
  | none => exact Or.inr rfl
  | some next =>
    by_cases hc : (strncmp_eq next.floor floor MAX_FLOOR_LENGTH
        && decide (next.direction = d)) = true
    · dsimp only
      rw [if_pos hc]
      rw [Bool.and_eq_true, decide_eq_true_eq] at hc
      exact Or.inl ⟨rfl, next, rfl, hc.1, hc.2⟩
    · dsimp only
      rw [if_neg hc]
      exact Or.inr rfl

theorem get_drop_one (q : List QueueNode) (i : Nat) : (q.drop 1).get? i = q.get? (i + 1) := by
  rw [List.get?_eq_getElem?, List.get?_eq_getElem?, List.getElem?_drop]
  congr 1
  omega

theorem queue_add_chain (k : Nat) (hk : k ≤ 1) (q : List QueueNode) (a : Nat)
    (floor : List Char) (d : Direction) (ha : a < q.length) (hc : BlockChain (q.drop k))
    (h1 : ∀ x, q.get? a = some x → step_ok x ⟨strncpy floor MAX_FLOOR_LENGTH, d⟩ = true)
    (h2 : ∀ y, q.get? (a + 1) = some y → step_ok ⟨strncpy floor MAX_FLOOR_LENGTH, d⟩ y = true) :
    BlockChain ((queue_add q a floor d).drop k) := by
  rcases queue_add_cases q a floor d with ⟨h, _⟩ | h
  · rw [h]
    exact hc
  · rw [h]
    unfold BlockChain at *
    have hk' : k = 0 ∨ k = 1 := by omega
    rcases hk' with rfl | rfl
    · rw [List.drop_zero] at hc ⊢
      apply chain_insert_at _ _ q (a + 1) (by omega) hc
      · intro i x hi hx
        have : i = a := by omega
        subst this
        exact h1 x hx
      · exact h2
    · have hne : q ≠ [] := by
        intro h0
        rw [h0] at ha
        simp at ha
      rw [insert_at_drop_one _ _ _ hne]
      apply chain_insert_at _ _ (q.drop 1) a (by simp; omega) hc
      · intro i x hi hx
        rw [get_drop_one] at hx
        rw [← hi] at hx
        exact h1 x hx
      · intro y hy
        rw [get_drop_one] at hy
        exact h2 y hy

theorem side_prev (x : QueueNode) (f : List Char) (d : Direction)
    (hx : x.floor.length ≤ MAX_FLOOR_LENGTH) (hf : f.length ≤ MAX_FLOOR_LENGTH) :
    (decide (x.direction ≠ d) || is_valid_order x.floor f d) = step_ok x ⟨f, d⟩ := by
  unfold step_ok
  by_cases h : x.direction = d
  · have := is_valid_order_iff x.floor f d hx hf
    rw [h]
    simp only [ne_eq, not_true_eq_false, decide_False, Bool.false_or]
    exact Bool.eq_iff_iff.mpr this
  · simp [h]

theorem side_next (y : QueueNode) (f : List Char) (d : Direction)
    (hy : y.floor.length ≤ MAX_FLOOR_LENGTH) (hf : f.length ≤ MAX_FLOOR_LENGTH) :
    (decide (y.direction ≠ d) || is_valid_order f y.floor d) = step_ok ⟨f, d⟩ y := by
  unfold step_ok
  by_cases h : y.direction = d
  · have := is_valid_order_iff f y.floor d hf hy
    rw [h]
    simp only [ne_eq, not_true_eq_false, decide_False, Bool.false_or]
    exact Bool.eq_iff_iff.mpr this
  · have h' : ¬ d = y.direction := fun e => h e.symm
    simp [h, h']

theorem seek_position_cons (src dst : List Char) (d : Direction) (pi : Nat)
    (prev cur : QueueNode) (rest : List QueueNode) (sp : Option Nat)
    (hp : prev.floor.length ≤ MAX_FLOOR_LENGTH) (hcur : cur.floor.length ≤ MAX_FLOOR_LENGTH)
    (hs : src.length ≤ MAX_FLOOR_LENGTH) (hd : dst.length ≤ MAX_FLOOR_LENGTH) :
    seek_position src dst d pi prev (cur :: rest) sp
      = if prev.direction = cur.direction ∧ prev.direction ≠ d then
          seek_position src dst d (pi + 1) cur rest sp
        else if (Option.isSome
              (if (step_ok prev ⟨src, d⟩ && step_ok ⟨src, d⟩ cur) = true then some pi
                else if prev.direction ≠ cur.direction then none else sp)
            && step_ok prev ⟨dst, d⟩ && step_ok ⟨dst, d⟩ cur) = true then
          (pi, if (step_ok prev ⟨src, d⟩ && step_ok ⟨src, d⟩ cur) = true then some pi
                else if prev.direction ≠ cur.direction then none else sp)
        else
          seek_position src dst d (pi + 1) cur rest
            (if (step_ok prev ⟨src, d⟩ && step_ok ⟨src, d⟩ cur) = true then some pi
              else if prev.direction ≠ cur.direction then none else sp) := by
  rw [seek_position]
  simp only [side_prev prev src d hp hs, side_next cur src d hcur hs, side_prev prev dst d hp hd,
    side_next cur dst d hcur hd]
  by_cases h : prev.direction = cur.direction ∧ prev.direction ≠ d
  · rw [if_pos h, if_pos h]
    have : ¬ prev.direction ≠ cur.direction := fun hne => hne h.1
    rw [if_neg this]
  · rw [if_neg h, if_neg h]

theorem step_ok_extend (x : QueueNode) (s t : List Char) (d : Direction)
    (h : step_ok x ⟨s, d⟩ = true) (hdir : in_order d s t = true) : step_ok x ⟨t, d⟩ = true := by
  rw [step_ok_iff] at h ⊢
  intro hx
  have hx' : x.direction = d := hx
  have := h hx'
  rw [hx'] at this ⊢
  exact in_order_trans d _ _ _ this hdir

theorem step_ok_flip (y : QueueNode) (f : List Char) (d : Direction)
    (h : step_ok ⟨f, d⟩ y = false) : step_ok y ⟨f, d⟩ = true := by
  unfold step_ok at h
  rw [Bool.or_eq_false_iff] at h
  obtain ⟨h1, h2⟩ := h
  have hd : d = y.direction := by simpa using h1
  rw [step_ok_iff]
  intro _
  rw [← hd]
  rcases in_order_total d f y.floor with h3 | h3
  · simp only at h2
    rw [h3] at h2
    exact absurd h2 (by decide)
  · exact h3

theorem get_append_cons_self (pre : List QueueNode) (x : QueueNode) (tail : List QueueNode) :
    (pre ++ x :: tail).get? pre.length = some x := by
  rw [List.get?_eq_getElem?, List.getElem?_append_right (le_refl _)]
  simp

theorem get_append_cons_next (pre : List QueueNode) (x : QueueNode) (tail : List QueueNode) :
    (pre ++ x :: tail).get? (pre.length + 1) = tail.head? := by
  rw [List.get?_eq_getElem?, List.getElem?_append_right (by omega)]
  cases tail <;> simp

theorem seek_position_spec (src dst : List Char) (d : Direction) (L : List QueueNode)
    (hL : ∀ n ∈ L, n.floor.length ≤ MAX_FLOOR_LENGTH) (hs : src.length ≤ MAX_FLOOR_LENGTH)
    (hd : dst.length ≤ MAX_FLOOR_LENGTH) (hdir : in_order d src dst = true) :
    ∀ (tail pre : List QueueNode) (prev : QueueNode) (sp : Option Nat),
      L = pre ++ prev :: tail →
      (∀ s, sp = some s →
        s < pre.length ∧ FitsAt L ⟨src, d⟩ s ∧ step_ok prev ⟨dst, d⟩ = true) →
      (seek_position src dst d pre.length prev tail sp).1 < L.length
      ∧ ((seek_position src dst d pre.length prev tail sp).2 = none →
          (seek_position src dst d pre.length prev tail sp).1 + 1 = L.length)
      ∧ (∀ s, (seek_position src dst d pre.length prev tail sp).2 = some s →
          s ≤ (seek_position src dst d pre.length prev tail sp).1
            ∧ FitsAt L ⟨src, d⟩ s
            ∧ FitsBehind L ⟨dst, d⟩ (seek_position src dst d pre.length prev tail sp).1) := by
  intro tail
  induction tail with
  | nil =>
    intro pre prev sp hLeq hinv
    have hlen : L.length = pre.length + 1 := by rw [hLeq]; simp
    have hg1 : L.get? pre.length = some prev := by rw [hLeq]; exact get_append_cons_self _ _ _
    have hg2 : L.get? (pre.length + 1) = none := by
      rw [hLeq, get_append_cons_next]; rfl
    rw [seek_position]
    refine ⟨by simp only; omega, fun _ => by simp only; omega, ?_⟩
    intro s hsp
    obtain ⟨h1, h2, h3⟩ := hinv s hsp
    refine ⟨by simp only; omega, h2, ?_, ?_⟩
    · intro x hx
      simp only at hx
      rw [hg1] at hx
      cases hx
      exact h3
    · intro y hy
      simp only at hy
      rw [hg2] at hy
      exact absurd hy (by simp)
  | cons cur rest ih =>
    intro pre prev sp hLeq hinv
    have hprev : prev.floor.length ≤ MAX_FLOOR_LENGTH := hL prev (by rw [hLeq]; simp)
    have hcur : cur.floor.length ≤ MAX_FLOOR_LENGTH := hL cur (by rw [hLeq]; simp)
    have hL2 : L = (pre ++ [prev]) ++ cur :: rest := by rw [hLeq]; simp
    have hlen2 : (pre ++ [prev]).length = pre.length + 1 := by simp
    have hlen : pre.length + 1 < L.length := by rw [hLeq]; simp
    have hg1 : L.get? pre.length = some prev := by rw [hLeq]; exact get_append_cons_self _ _ _
    have hg2 : L.get? (pre.length + 1) = some cur := by
      rw [hLeq, get_append_cons_next]; rfl
    rw [seek_position_cons src dst d pre.length prev cur rest sp hprev hcur hs hd]
    by_cases hskip : prev.direction = cur.direction ∧ prev.direction ≠ d
    · rw [if_pos hskip, ← hlen2]
      apply ih (pre ++ [prev]) cur sp hL2
      intro s hsp
      obtain ⟨h1, h2, _⟩ := hinv s hsp
      refine ⟨by rw [hlen2]; omega, h2, step_ok_of_dir _ _ ?_⟩
      intro hc
      exact hskip.2 (hskip.1.trans hc)
    · rw [if_neg hskip]
      generalize hsp2 : (if (step_ok prev ⟨src, d⟩ && step_ok ⟨src, d⟩ cur) = true
          then some pre.length
          else if prev.direction ≠ cur.direction then none else sp) = sp2
      have hfacts : ∀ s, sp2 = some s →
          s ≤ pre.length ∧ FitsAt L ⟨src, d⟩ s ∧ step_ok prev ⟨dst, d⟩ = true := by
        intro s hs2
        rw [← hsp2] at hs2
        by_cases hc1 : (step_ok prev ⟨src, d⟩ && step_ok ⟨src, d⟩ cur) = true
        · rw [if_pos hc1] at hs2
          cases hs2
          rw [Bool.and_eq_true] at hc1
          exact ⟨le_refl _, ⟨prev, cur, hg1, hg2, hc1.1, hc1.2⟩,
            step_ok_extend prev src dst d hc1.1 hdir⟩
        · rw [if_neg hc1] at hs2
          by_cases hdd : prev.direction ≠ cur.direction
          · rw [if_pos hdd] at hs2
            exact absurd hs2 (by simp)
          · rw [if_neg hdd] at hs2
            obtain ⟨h1, h2, h3⟩ := hinv s hs2
            exact ⟨by omega, h2, h3⟩
      by_cases hbreak : (Option.isSome sp2 && step_ok prev ⟨dst, d⟩
          && step_ok ⟨dst, d⟩ cur) = true
      · rw [if_pos hbreak]
        rw [Bool.and_eq_true, Bool.and_eq_true] at hbreak
        refine ⟨by simp only; omega, ?_, ?_⟩
        · intro hnone
          simp only at hnone
          rw [hnone] at hbreak
          exact absurd hbreak.1.1 (by simp)
        · intro s hs2
          simp only at hs2 ⊢
          obtain ⟨h1, h2, _⟩ := hfacts s hs2
          refine ⟨h1, h2, ?_, ?_⟩
          · intro x hx
            rw [hg1] at hx
            cases hx
            exact hbreak.1.2
          · intro y hy
            rw [hg2] at hy
            cases hy
            exact hbreak.2
      · rw [if_neg hbreak, ← hlen2]
        apply ih (pre ++ [prev]) cur sp2 hL2
        intro s hs2
        obtain ⟨h1, h2, h3⟩ := hfacts s hs2
        refine ⟨by rw [hlen2]; omega, h2, ?_⟩
        apply step_ok_flip
        cases hB : step_ok ⟨dst, d⟩ cur
        · rfl
        · exfalso
          apply hbreak
          rw [hs2, h3, hB]
          rfl

theorem chain_get (R : QueueNode → QueueNode → Prop) :
    ∀ (q : List QueueNode) (i : Nat) (x y : QueueNode), List.Chain' R q →
      q.get? i = some x → q.get? (i + 1) = some y → R x y := by
  intro q
  induction q with
  | nil => intro i x y _ hx _; simp at hx
  | cons a q ih =>
    intro i x y hc hx hy
    cases i with
    | zero =>
      cases q with
      | nil => simp at hy
      | cons b q =>
        simp at hx hy
        rw [← hx, ← hy]
        exact (List.chain'_cons.mp hc).1
    | succ i =>
      exact ih i x y (List.Chain'.tail hc) (by simpa using hx) (by simpa using hy)

theorem chain_drop_get (R : QueueNode → QueueNode → Prop) (k : Nat) (q : List QueueNode)
    (i : Nat) (x y : QueueNode) (hc : List.Chain' R (q.drop k)) (hk : k ≤ i)
    (hx : q.get? i = some x) (hy : q.get? (i + 1) = some y) : R x y := by
  apply chain_get R (q.drop k) (i - k) x y hc
  · rw [List.get?_eq_getElem?, List.getElem?_drop, ← List.get?_eq_getElem?]
    rw [show k + (i - k) = i by omega]
    exact hx
  · rw [List.get?_eq_getElem?, List.getElem?_drop, ← List.get?_eq_getElem?]
    rw [show k + (i - k + 1) = i + 1 by omega]
    exact hy

theorem get_some_lt (q : List QueueNode) (i : Nat) (x : QueueNode) (h : q.get? i = some x) :
    i < q.length := by
  rw [List.get?_eq_getElem?] at h
  by_contra hk
  rw [List.getElem?_eq_none (by omega)] at h
  exact absurd h (by simp)

theorem insert_floors_chain (k : Nat) (hk : k ≤ 1) (L : List QueueNode) (pp s : Nat)
    (src dst : List Char) (d : Direction)
    (hL : ∀ n ∈ L, n.floor.length ≤ MAX_FLOOR_LENGTH) (hs : src.length ≤ MAX_FLOOR_LENGTH)
    (hd : dst.length ≤ MAX_FLOOR_LENGTH) (hdir : in_order d src dst = true)
    (hc : BlockChain (L.drop k)) (hpp : pp < L.length) (hsp : s ≤ pp)
    (hfit : FitsAt L ⟨src, d⟩ s) (hbeh : FitsBehind L ⟨dst, d⟩ pp) :
    BlockChain ((insert_floors L pp (some s) src dst d).drop k) := by
  obtain ⟨x, y, hx, hy, hxs, hsy⟩ := hfit
  have es : strncpy src MAX_FLOOR_LENGTH = src := strncpy_eq _ _ hs
  have ed : strncpy dst MAX_FLOOR_LENGTH = dst := strncpy_eq _ _ hd
  have hslt : s < L.length := get_some_lt L s x hx
  have hs1lt : s + 1 < L.length := get_some_lt L (s + 1) y hy
  have hq1 : BlockChain ((queue_add L s src d).drop k) := by
    apply queue_add_chain k hk L s src d hslt hc
    · intro x' hx'
      rw [hx] at hx'
      cases hx'
      rw [es]
      exact hxs
    · intro y' hy'
      rw [hy] at hy'
      cases hy'
      rw [es]
      exact hsy
  have hsd : step_ok ⟨src, d⟩ ⟨dst, d⟩ = true := by
    rw [step_ok_iff]
    intro _
    exact hdir
  unfold insert_floors
  simp only
  rcases queue_add_cases L s src d with ⟨hq1eq, next, hnext, hcmp, hdirn⟩ | hq1eq
  · rw [hq1eq]
    simp only [Nat.sub_self, Nat.add_zero]
    by_cases hspp : s = pp
    · rw [if_pos hspp, ← hspp]
      rw [hy] at hnext
      cases hnext
      have hyfloor : y.floor = src :=
        (strncmp_eq_iff y.floor src MAX_FLOOR_LENGTH (hL y (List.get?_mem hy)) hs).mp hcmp
      have hyeq : y = ⟨src, d⟩ := by
        cases y
        simp only at hyfloor hdirn
        rw [hyfloor, hdirn]
      apply queue_add_chain k hk L (s + 1) dst d hs1lt hc
      · intro x' hx'
        rw [hy] at hx'
        cases hx'
        rw [ed, hyeq]
        exact hsd
      · intro z hz
        rw [ed]
        have hyz : step_ok y z = true :=
          chain_drop_get _ k L (s + 1) y z hc (by omega) hy hz
        have hdy : step_ok ⟨dst, d⟩ y = true := hbeh.2 y (by rw [← hspp]; exact hy)
        rw [hyeq] at hyz hdy
        rw [step_ok_iff] at hyz hdy ⊢
        intro hz'
        exact in_order_trans d _ _ _ (hdy rfl) (hyz hz')
    · rw [if_neg hspp]
      apply queue_add_chain k hk L pp dst d hpp hc
      · intro x' hx'
        rw [ed]
        exact hbeh.1 x' hx'
      · intro y' hy'
        rw [ed]
        exact hbeh.2 y' hy'
  · rw [hq1eq] at hq1 ⊢
    rw [insert_at_length, es]
    have h1 : L.length + 1 - L.length = 1 := by omega
    rw [h1]
    by_cases hspp : s = pp
    · rw [if_pos hspp, ← hspp]
      apply queue_add_chain k hk _ (s + 1) dst d (by rw [insert_at_length]; omega)
        (by rw [es] at hq1; exact hq1)
      · intro x' hx'
        rw [insert_at_get_eq _ _ _ (by omega)] at hx'
        cases hx'
        rw [ed]
        exact hsd
      · intro y' hy'
        rw [insert_at_get_gt _ _ _ (s + 1) (le_refl _) (by omega)] at hy'
        rw [ed]
        exact hbeh.2 y' (by rw [← hspp]; exact hy')
    · rw [if_neg hspp]
      apply queue_add_chain k hk _ (pp + 1) dst d (by rw [insert_at_length]; omega)
        (by rw [es] at hq1; exact hq1)
      · intro x' hx'
        rw [insert_at_get_gt _ _ _ pp (by omega) (by omega)] at hx'
        rw [ed]
        exact hbeh.1 x' hx'
      · intro y' hy'
        rw [insert_at_get_gt _ _ _ (pp + 1) (by omega) (by omega)] at hy'
        rw [ed]
        exact hbeh.2 y' hy'

theorem insert_floors_append (L : List QueueNode) (pp : Nat) (src dst : List Char)
    (d : Direction) (hpp : pp + 1 = L.length) :
    insert_floors L pp none src dst d
      = L ++ [⟨strncpy src MAX_FLOOR_LENGTH, d⟩, ⟨strncpy dst MAX_FLOOR_LENGTH, d⟩] := by
  unfold insert_floors
  simp only
  have e1 : queue_add L pp src d = L ++ [⟨strncpy src MAX_FLOOR_LENGTH, d⟩] := by
    unfold queue_add
    have hn : L.get? (pp + 1) = none := by
      rw [List.get?_eq_getElem?, List.getElem?_eq_none (by omega)]
    rw [hn]
    simp only
    rw [List.take_of_length_le (by omega), List.drop_of_length_le (by omega)]
  rw [e1]
  unfold queue_add
  have hn : (L ++ [(⟨strncpy src MAX_FLOOR_LENGTH, d⟩ : QueueNode)]).get? (pp + 1 + 1)
      = none := by
    rw [List.get?_eq_getElem?, List.getElem?_eq_none (by simp; omega)]
  rw [hn]
  simp only
  rw [List.take_of_length_le (by simp; omega), List.drop_of_length_le (by simp; omega)]
  simp

theorem queue_add_mem (q : List QueueNode) (a : Nat) (floor : List Char) (d : Direction)
    (n : QueueNode) (hn : n ∈ queue_add q a floor d) :
    n ∈ q ∨ n = ⟨strncpy floor MAX_FLOOR_LENGTH, d⟩ := by
  rcases queue_add_cases q a floor d with ⟨h, _⟩ | h
  · rw [h] at hn
    exact Or.inl hn
  · rw [h] at hn
    unfold insert_at at hn
    rcases List.mem_append.mp hn with h1 | h1
    · exact Or.inl (List.mem_of_mem_take h1)
    · rcases List.mem_cons.mp h1 with h2 | h2
      · exact Or.inr h2
      · exact Or.inl (List.mem_of_mem_drop h2)

theorem insert_floors_mem (q : List QueueNode) (pp : Nat) (sp : Option Nat)
    (src dst : List Char) (d : Direction) (n : QueueNode)
    (hn : n ∈ insert_floors q pp sp src dst d) :
    n ∈ q ∨ n = ⟨strncpy src MAX_FLOOR_LENGTH, d⟩ ∨ n = ⟨strncpy dst MAX_FLOOR_LENGTH, d⟩ := by
  unfold insert_floors at hn
  cases sp with
  | none =>
    simp only at hn
    rcases queue_add_mem _ _ _ _ _ hn with h | h
    · rcases queue_add_mem _ _ _ _ _ h with h1 | h1
      · exact Or.inl h1
      · exact Or.inr (Or.inl h1)
    · exact Or.inr (Or.inr h)
  | some s =>
    simp only at hn
    rcases queue_add_mem _ _ _ _ _ hn with h | h
    · rcases queue_add_mem _ _ _ _ _ h with h1 | h1
      · exact Or.inl h1
      · exact Or.inr (Or.inl h1)
    · exact Or.inr (Or.inr h)

theorem strncpy_length (s : List Char) (n : Nat) : (strncpy s n).length ≤ n :=
  List.length_take_le n s

theorem add_virtual_node_cases (car : Car) (d : Direction) :
    ((add_virtual_node car d).1 = 0 ∧ (add_virtual_node car d).2 = car)
      ∨ ((add_virtual_node car d).1 = 1
          ∧ ∃ V : QueueNode, V.floor.length ≤ MAX_FLOOR_LENGTH
              ∧ (add_virtual_node car d).2 = { car with queue := V :: car.queue }) := by
  unfold add_virtual_node
  by_cases hb : strncmp_eq car.status "Between".toList MAX_STATUS_LENGTH = true
  · rw [if_pos hb]
    dsimp only
    generalize (if are_consecutive_floors car.current_floor car.destination_floor = true
      then UP else DOWN) = dir
    by_cases hn : strncmp_eq (set_next_floor (strncpy car.current_floor MAX_FLOOR_LENGTH) dir)
        car.destination_floor MAX_FLOOR_LENGTH = true
    · rw [if_pos hn]
      exact Or.inl ⟨rfl, rfl⟩
    · rw [if_neg hn]
      exact Or.inr ⟨rfl, ⟨strncpy (set_next_floor (strncpy car.current_floor MAX_FLOOR_LENGTH)
        dir) MAX_FLOOR_LENGTH, dir⟩, strncpy_length _ _, rfl⟩
  · rw [if_neg hb]
    dsimp only
    exact Or.inr ⟨rfl, ⟨strncpy car.current_floor MAX_FLOOR_LENGTH, _⟩, strncpy_length _ _, rfl⟩

theorem queue_pop_eq_drop (q : List QueueNode) : queue_pop q = q.drop 1 := by
  cases q <;> rfl

theorem seek_start_cases (status : List Char) (first : QueueNode) (rest : List QueueNode)
    (src : List Char) (d : Direction) (pi : Nat) (prev : QueueNode) (tail : List QueueNode)
    (h : seek_start status first rest src d = some (pi, prev, tail)) :
    ∃ pre, first :: rest = pre ++ prev :: tail ∧ pre.length = pi := by
  unfold seek_start at h
  split at h
  · cases rest with
    | nil => simp at h
    | cons current rest1 =>
      simp only [Option.some.injEq, Prod.mk.injEq] at h
      obtain ⟨h1, h2, h3⟩ := h
      subst h1 h2 h3
      exact ⟨[first], rfl, rfl⟩
  · simp only [Option.some.injEq, Prod.mk.injEq] at h
    obtain ⟨h1, h2, h3⟩ := h
    subst h1 h2 h3
    exact ⟨[], rfl, rfl⟩

theorem chain_append_pair (R : QueueNode → QueueNode → Prop) (q : List QueueNode)
    (a b : QueueNode) (hc : List.Chain' R q) (hab : R a b)
    (hl : ∀ l, q.getLast? = some l → R l a) : List.Chain' R (q ++ [a, b]) := by
  rw [List.chain'_append]
  refine ⟨hc, List.chain'_pair.mpr hab, ?_⟩
  intro x hx y hy
  simp only [List.head?_cons, Option.mem_def, Option.some.injEq] at hy
  rw [← hy]
  exact hl x hx

theorem schedule_core (k : Nat) (hk : k ≤ 1) (status : List Char) (first : QueueNode)
    (rest : List QueueNode) (src dst : List Char) (d : Direction) (pi : Nat)
    (prev : QueueNode) (tail : List QueueNode)
    (hL : ∀ n ∈ first :: rest, n.floor.length ≤ MAX_FLOOR_LENGTH)
    (hs : src.length ≤ MAX_FLOOR_LENGTH) (hd : dst.length ≤ MAX_FLOOR_LENGTH)
    (hdir : in_order d src dst = true) (hc : BlockChain ((first :: rest).drop k))
    (hstart : seek_start status first rest src d = some (pi, prev, tail)) :
    BlockChain
        ((insert_floors (first :: rest) (seek_position src dst d pi prev tail none).1
          (seek_position src dst d pi prev tail none).2 src dst d).drop k)
      ∨ ((insert_floors (first :: rest) (seek_position src dst d pi prev tail none).1
            (seek_position src dst d pi prev tail none).2 src dst d).drop k
          = (first :: rest).drop k ++ [⟨src, d⟩, ⟨dst, d⟩]
        ∧ ∃ last, ((first :: rest).drop k).getLast? = some last
            ∧ step_ok last ⟨src, d⟩ = false) := by
  obtain ⟨pre, hpre, hlen⟩ := seek_start_cases status first rest src d pi prev tail hstart
  have hspec := seek_position_spec src dst d (first :: rest) hL hs hd hdir tail pre prev none
    hpre (fun s h => absurd h (by simp))
  rw [hlen] at hspec
  obtain ⟨h1, h2, h3⟩ := hspec
  cases hsp : (seek_position src dst d pi prev tail none).2 with
  | some s =>
    obtain ⟨a1, a2, a3⟩ := h3 s hsp
    exact Or.inl (insert_floors_chain k hk _ _ s src dst d hL hs hd hdir hc h1 a1 a2 a3)
  | none =>
    rw [insert_floors_append _ _ src dst d (h2 hsp), strncpy_eq _ _ hs, strncpy_eq _ _ hd]
    have hdrop : ((first :: rest) ++ [(⟨src, d⟩ : QueueNode), ⟨dst, d⟩]).drop k
        = (first :: rest).drop k ++ [⟨src, d⟩, ⟨dst, d⟩] :=
      List.drop_append_of_le_length (by simp; omega)
    rw [hdrop]
    have hsd : step_ok ⟨src, d⟩ ⟨dst, d⟩ = true := by
      rw [step_ok_iff]
      intro _
      exact hdir
    by_cases hbad : ∃ last, ((first :: rest).drop k).getLast? = some last
        ∧ step_ok last ⟨src, d⟩ = false
    · exact Or.inr ⟨rfl, hbad⟩
    · refine Or.inl (chain_append_pair _ _ _ _ hc hsd ?_)
      intro l hl
      cases hb : step_ok l ⟨src, d⟩
      · exact absurd ⟨l, hl, hb⟩ hbad
      · rfl

theorem valid_floor_length (f : List Char) (h : is_valid_floor f = true) : f.length ≤ 3 := by
  by_contra hlen
  have h3 : f.length > 3 := by omega
  unfold is_valid_floor at h
  simp only at h
  split at h
  · split at h
    · exact absurd h (by simp)
    · rw [if_pos (Or.inr h3)] at h
      exact absurd h (by simp)
  · split at h
    · exact absurd h (by simp)
    · rw [if_pos (Or.inr h3)] at h
      exact absurd h (by simp)

theorem is_digit_eq_isdigit : is_digit = isdigit := by
  funext c
  rfl

theorem validate_floor_eq (f : List Char) : validate_floor f = is_valid_floor f := by
  unfold validate_floor is_valid_floor
  rw [is_digit_eq_isdigit]
  rcases f with _ | ⟨a, t⟩
  · simp [char_at]
  · by_cases hB : a = 'B'
    · subst hB
      simp only [char_at, List.length_cons, List.getD_cons_zero]
      rcases t with _ | ⟨b, t⟩
      · simp
      · by_cases h0 : b = '0'
        · subst h0
          simp
        · simp [h0]
    · by_cases h0 : a = '0'
      · subst h0
        simp [char_at]
      · simp [char_at, hB, h0]

/-- C12: `is_valid_floor` of `shared.c` and `validate_floor` of `safety.c` agree
on every string, and they accept exactly the labels B1..B99 (the letter B and
a decimal numeral without leading zero) and 1..999 (a decimal numeral without
leading zero). -/
theorem validate_floor_agrees (f : List Char) :
    validate_floor f = is_valid_floor f
    ∧ (is_valid_floor f = true ↔
        (∃ n, 1 ≤ n ∧ n ≤ 99 ∧ f = basement n) ∨ (∃ n, 1 ≤ n ∧ n ≤ 999 ∧ f = above_ground n))
    ∧ (validate_floor f = true ↔
        (∃ n, 1 ≤ n ∧ n ≤ 99 ∧ f = basement n)
          ∨ (∃ n, 1 ≤ n ∧ n ≤ 999 ∧ f = above_ground n)) := by
  have h := valid_floor_iff f
  refine ⟨validate_floor_eq f, ?_, ?_⟩
  · rw [h]
    exact Or.comm
  · rw [validate_floor_eq, h]
    exact Or.comm

/-- C12, at the labels B7 and 120 and at the string 07. -/
theorem validate_floor_agrees_witness :
    validate_floor ['B', '7'] = true ∧ validate_floor ['1', '2', '0'] = true
      ∧ validate_floor ['0', '7'] = false
      ∧ validate_floor ['0', '7'] = is_valid_floor ['0', '7'] :=
  ⟨by decide, by decide, by decide, (validate_floor_agrees ['0', '7']).1⟩

/-! ## The safety monitor -/

theorem strncmp_eq_literal (s lit : List Char) (n : Nat) (h : lit.length < n) :
    strncmp_eq s lit n = true ↔ s = lit := by
  unfold strncmp_eq
  rw [decide_eq_true_eq, List.take_of_length_le (Nat.le_of_lt h)]
  constructor
  · intro ht
    by_cases hs : s.length ≤ n
    · rw [List.take_of_length_le hs] at ht
      exact ht
    · have hl := congrArg List.length ht
      rw [List.length_take] at hl
      omega
  · intro hs
    rw [hs, List.take_of_length_le (Nat.le_of_lt h)]

theorem status_closing_iff (s : List Char) :
    strncmp_eq s "Closing".toList MAX_STATUS_LENGTH = true ↔ s = "Closing".toList :=
  strncmp_eq_literal s _ _ (by decide)

theorem status_opening_iff (s : List Char) :
    strncmp_eq s "Opening".toList MAX_STATUS_LENGTH = true ↔ s = "Opening".toList :=
  strncmp_eq_literal s _ _ (by decide)

theorem validate_status_iff (s : List Char) :
    validate_status s = true ↔
      (s = "Opening".toList ∨ s = "Open".toList ∨ s = "Closing".toList
        ∨ s = "Closed".toList ∨ s = "Between".toList) := by
  unfold validate_status
  simp only [Bool.or_eq_true]
  rw [strncmp_eq_literal s "Open".toList _ (by decide),
    strncmp_eq_literal s "Opening".toList _ (by decide),
    strncmp_eq_literal s "Closed".toList _ (by decide),
    strncmp_eq_literal s "Closing".toList _ (by decide),
    strncmp_eq_literal s "Between".toList _ (by decide)]
  tauto

theorem validate_bools_iff (shm : car_shared_mem) :
    validate_bools shm = true ↔
      (shm.open_button ≤ 1 ∧ shm.close_button ≤ 1 ∧ shm.door_obstruction ≤ 1
        ∧ shm.overload ≤ 1 ∧ shm.emergency_stop ≤ 1 ∧ shm.individual_service_mode ≤ 1
        ∧ shm.emergency_mode ≤ 1) := by
  unfold validate_bools
  simp only [Bool.and_eq_true, decide_eq_true_eq]
  tauto

theorem validations_iff (shm : car_shared_mem) :
    (validate_floor shm.current_floor = true ∧ validate_floor shm.destination_floor = true
      ∧ validate_status shm.status = true ∧ validate_bools shm = true
      ∧ validate_door_obstruction shm = true) ↔ structural_invariants shm := by
  unfold structural_invariants
  rw [validate_floor_eq, validate_floor_eq, validate_status_iff, validate_bools_iff]
  unfold validate_door_obstruction
  simp only [Bool.or_eq_true, decide_eq_true_eq, status_opening_iff, status_closing_iff]
  constructor
  · rintro ⟨h1, h2, h3, h4, h5⟩
    refine ⟨h1, h2, h3, h4, ?_⟩
    intro hob
    rcases h5 with (h | h) | h
    · omega
    · exact Or.inl h
    · exact Or.inr h
  · rintro ⟨h1, h2, h3, h4, h5⟩
    refine ⟨h1, h2, h3, h4, ?_⟩
    by_cases hob : shm.door_obstruction = 0
    · exact Or.inl (Or.inl hob)
    · have : shm.door_obstruction = 1 := by omega
      rcases h5 this with h | h
      · exact Or.inl (Or.inr h)
      · exact Or.inr h

theorem consistency_condition_iff (shm : car_shared_mem) :
    (validate_floor shm.current_floor = false ∨ validate_floor shm.destination_floor = false
      ∨ validate_status shm.status = false ∨ validate_bools shm = false
      ∨ validate_door_obstruction shm = false) ↔ ¬ structural_invariants shm := by
  rw [← validations_iff]
  cases validate_floor shm.current_floor <;> cases validate_floor shm.destination_floor <;>
    cases validate_status shm.status <;> cases validate_bools shm <;>
    cases validate_door_obstruction shm <;> simp

theorem after_escalation_output (shm : car_shared_mem) :
    ∀ m ∈ (after_escalation shm).output,
      m = "The emergency stop button has been pressed!\n".toList
        ∨ m = "The overload sensor has been tripped!\n".toList := by
  intro m hm
  unfold after_escalation check_overload check_emergency_stop check_door_obstruction at hm
  split_ifs at hm <;> simp at hm <;> tauto

/-- C13: `check_safety` prints `Data consistency error!` and sets
`emergency_mode` to 1 exactly when, after its obstruction, emergency stop and
overload statements, `emergency_mode` is not 1 and one of the structural
invariants fails; so on return `emergency_mode` is 1 or all of these
invariants hold. -/
theorem check_safety_data_consistency (shm : car_shared_mem) :
    ((after_escalation shm).shm.emergency_mode ≠ 1
        ∧ ¬ structural_invariants (after_escalation shm).shm →
      check_safety shm
        = { shm := { (after_escalation shm).shm with emergency_mode := 1 }
            change_occurred := 1
            output := (after_escalation shm).output ++ ["Data consistency error!\n".toList] })
    ∧ (¬ ((after_escalation shm).shm.emergency_mode ≠ 1
          ∧ ¬ structural_invariants (after_escalation shm).shm) →
        check_safety shm = after_escalation shm)
    ∧ ("Data consistency error!\n".toList ∈ (check_safety shm).output ↔
        ((after_escalation shm).shm.emergency_mode ≠ 1
          ∧ ¬ structural_invariants (after_escalation shm).shm))
    ∧ ((check_safety shm).shm.emergency_mode = 1
        ∨ structural_invariants (check_safety shm).shm) := by
  have hnot : "Data consistency error!\n".toList ∉ (after_escalation shm).output := by
    intro hm
    rcases after_escalation_output shm _ hm with h | h <;> exact absurd h (by decide)
  have hfire : (after_escalation shm).shm.emergency_mode ≠ 1
        ∧ ¬ structural_invariants (after_escalation shm).shm →
      check_safety shm
        = { shm := { (after_escalation shm).shm with emergency_mode := 1 }
            change_occurred := 1
            output := (after_escalation shm).output
              ++ ["Data consistency error!\n".toList] } := by
    intro h
    rw [← consistency_condition_iff] at h
    show check_data_consistency (after_escalation shm) = _
    unfold check_data_consistency
    rw [if_pos h]
  have hskip : ¬ ((after_escalation shm).shm.emergency_mode ≠ 1
        ∧ ¬ structural_invariants (after_escalation shm).shm) →
      check_safety shm = after_escalation shm := by
    intro h
    rw [← consistency_condition_iff] at h
    show check_data_consistency (after_escalation shm) = _
    unfold check_data_consistency
    rw [if_neg h]
  refine ⟨hfire, hskip, ?_, ?_⟩
  · constructor
    · intro hm
      by_contra hc
      rw [hskip hc] at hm
      exact hnot hm
    · intro hc
      rw [hfire hc]
      simp
  · by_cases hc : (after_escalation shm).shm.emergency_mode ≠ 1
        ∧ ¬ structural_invariants (after_escalation shm).shm
    · rw [hfire hc]
      exact Or.inl rfl
    · rw [hskip hc]
      by_cases he : (after_escalation shm).shm.emergency_mode = 1
      · exact Or.inl he
      · right
        by_contra hs
        exact hc ⟨he, hs⟩

/-- C13, at a state whose current floor `0` is no valid floor: the message is
printed and `emergency_mode` set. -/
theorem check_safety_data_consistency_witness :
    check_safety ⟨['0'], ['1'], "Closed".toList, 0, 0, 0, 0, 0, 0, 0⟩
      = { shm := ⟨['0'], ['1'], "Closed".toList, 0, 0, 0, 0, 0, 0, 1⟩
          change_occurred := 1
          output := ["Data consistency error!\n".toList] } :=
  (check_safety_data_consistency ⟨['0'], ['1'], "Closed".toList, 0, 0, 0, 0, 0, 0, 0⟩).1
    ⟨by decide, by
      intro h
      exact absurd h.1 (by decide)⟩

theorem door_step_flags (c : SafetyCheck) :
    (check_door_obstruction c).output = c.output
      ∧ (check_door_obstruction c).shm.emergency_stop = c.shm.emergency_stop
      ∧ (check_door_obstruction c).shm.overload = c.shm.overload
      ∧ (check_door_obstruction c).shm.emergency_mode = c.shm.emergency_mode := by
  unfold check_door_obstruction
  split_ifs <;> exact ⟨rfl, rfl, rfl, rfl⟩

theorem consistency_of_emergency (c : SafetyCheck) (h : c.shm.emergency_mode = 1) :
    check_data_consistency c = c := by
  unfold check_data_consistency
  rw [if_neg (fun hc => hc.1 h)]

theorem consistency_output (c : SafetyCheck) :
    (check_data_consistency c).output = c.output
      ∨ (check_data_consistency c).output = c.output ++ ["Data consistency error!\n".toList] := by
  unfold check_data_consistency
  split_ifs
  · exact Or.inr rfl
  · exact Or.inl rfl

theorem escalation_stop (shm : car_shared_mem)
    (h : shm.emergency_stop = 1 ∧ shm.emergency_mode = 0) :
    (check_safety shm).output = ["The emergency stop button has been pressed!\n".toList]
      ∧ (check_safety shm).shm.emergency_mode = 1 := by
  obtain ⟨f1, f2, f3, f4⟩ := door_step_flags ⟨shm, 0, []⟩
  have h2 : check_emergency_stop (check_door_obstruction ⟨shm, 0, []⟩)
      = { shm := { (check_door_obstruction ⟨shm, 0, []⟩).shm with emergency_mode := 1 }
          change_occurred := 1
          output := (check_door_obstruction ⟨shm, 0, []⟩).output
            ++ ["The emergency stop button has been pressed!\n".toList] } := by
    unfold check_emergency_stop
    rw [if_pos ⟨f2.trans h.1, f4.trans h.2⟩]
  have h3 : check_overload (check_emergency_stop (check_door_obstruction ⟨shm, 0, []⟩))
      = check_emergency_stop (check_door_obstruction ⟨shm, 0, []⟩) := by
    rw [h2]
    unfold check_overload
    rw [if_neg (fun hc => absurd hc.2 (by simp))]
  unfold check_safety
  rw [h3, consistency_of_emergency _ (by rw [h2]), h2, f1]
  exact ⟨rfl, rfl⟩

theorem escalation_overload (shm : car_shared_mem)
    (h : ¬ (shm.emergency_stop = 1 ∧ shm.emergency_mode = 0)
      ∧ shm.overload = 1 ∧ shm.emergency_mode = 0) :
    (check_safety shm).output = ["The overload sensor has been tripped!\n".toList]
      ∧ (check_safety shm).shm.emergency_mode = 1 := by
  obtain ⟨f1, f2, f3, f4⟩ := door_step_flags ⟨shm, 0, []⟩
  have h2 : check_emergency_stop (check_door_obstruction ⟨shm, 0, []⟩)
      = check_door_obstruction ⟨shm, 0, []⟩ := by
    unfold check_emergency_stop
    rw [if_neg (fun hc => h.1 ⟨f2.symm.trans hc.1, f4.symm.trans hc.2⟩)]
  have h3 : check_overload (check_emergency_stop (check_door_obstruction ⟨shm, 0, []⟩))
      = { shm := { (check_door_obstruction ⟨shm, 0, []⟩).shm with emergency_mode := 1 }
          change_occurred := 1
          output := (check_door_obstruction ⟨shm, 0, []⟩).output
            ++ ["The overload sensor has been tripped!\n".toList] } := by
    rw [h2]
    unfold check_overload
    rw [if_pos ⟨f3.trans h.2.1, f4.trans h.2.2⟩]
  unfold check_safety
  rw [consistency_of_emergency _ (by rw [h3]), h3, f1]
  exact ⟨rfl, rfl⟩

theorem escalation_none (shm : car_shared_mem)
    (h : ¬ (shm.emergency_stop = 1 ∧ shm.emergency_mode = 0)
      ∧ ¬ (shm.overload = 1 ∧ shm.emergency_mode = 0)) :
    (check_safety shm).output = []
      ∨ (check_safety shm).output = ["Data consistency error!\n".toList] := by
  obtain ⟨f1, f2, f3, f4⟩ := door_step_flags ⟨shm, 0, []⟩
  have h2 : check_emergency_stop (check_door_obstruction ⟨shm, 0, []⟩)
      = check_door_obstruction ⟨shm, 0, []⟩ := by
    unfold check_emergency_stop
    rw [if_neg (fun hc => h.1 ⟨f2.symm.trans hc.1, f4.symm.trans hc.2⟩)]
  have h3 : check_overload (check_emergency_stop (check_door_obstruction ⟨shm, 0, []⟩))
      = check_door_obstruction ⟨shm, 0, []⟩ := by
    rw [h2]
    unfold check_overload
    rw [if_neg (fun hc => h.2 ⟨f3.symm.trans hc.1, f4.symm.trans hc.2⟩)]
  unfold check_safety
  rw [h3]
  rcases consistency_output (check_door_obstruction ⟨shm, 0, []⟩) with hc | hc
  · left
    rw [hc, f1]
  · right
    rw [hc, f1]
    rfl

/-- C14: `check_safety` applies its escalation statements in order: with
`emergency_stop = 1` and `emergency_mode = 0` it prints the emergency stop
message and sets `emergency_mode` to 1; otherwise, with `overload = 1` and
`emergency_mode = 0`, it prints the overload message and sets `emergency_mode`
to 1; otherwise it prints neither; it never prints both. -/
theorem check_safety_escalation (shm : car_shared_mem) :
    (shm.emergency_stop = 1 ∧ shm.emergency_mode = 0 →
      (check_safety shm).output = ["The emergency stop button has been pressed!\n".toList]
        ∧ (check_safety shm).shm.emergency_mode = 1)
    ∧ (¬ (shm.emergency_stop = 1 ∧ shm.emergency_mode = 0)
        ∧ shm.overload = 1 ∧ shm.emergency_mode = 0 →
      (check_safety shm).output = ["The overload sensor has been tripped!\n".toList]
        ∧ (check_safety shm).shm.emergency_mode = 1)
    ∧ (¬ (shm.emergency_stop = 1 ∧ shm.emergency_mode = 0)
        ∧ ¬ (shm.overload = 1 ∧ shm.emergency_mode = 0) →
      "The emergency stop button has been pressed!\n".toList ∉ (check_safety shm).output
        ∧ "The overload sensor has been tripped!\n".toList ∉ (check_safety shm).output)
    ∧ ¬ ("The emergency stop button has been pressed!\n".toList ∈ (check_safety shm).output
        ∧ "The overload sensor has been tripped!\n".toList ∈ (check_safety shm).output) := by
  have d1 : "The emergency stop button has been pressed!\n".toList
      ≠ "The overload sensor has been tripped!\n".toList := by decide
  have d2 : "The emergency stop button has been pressed!\n".toList
      ≠ "Data consistency error!\n".toList := by decide
  have d3 : "The overload sensor has been tripped!\n".toList
      ≠ "Data consistency error!\n".toList := by decide
  have hnone : ¬ (shm.emergency_stop = 1 ∧ shm.emergency_mode = 0)
        ∧ ¬ (shm.overload = 1 ∧ shm.emergency_mode = 0) →
      "The emergency stop button has been pressed!\n".toList ∉ (check_safety shm).output
        ∧ "The overload sensor has been tripped!\n".toList ∉ (check_safety shm).output := by
    intro h
    rcases escalation_none shm h with ho | ho
    · rw [ho]
      exact ⟨List.not_mem_nil _, List.not_mem_nil _⟩
    · rw [ho]
      exact ⟨fun hm => d2 (List.mem_singleton.mp hm), fun hm => d3 (List.mem_singleton.mp hm)⟩
  refine ⟨escalation_stop shm, escalation_overload shm, hnone, ?_⟩
  rintro ⟨a, b⟩
  by_cases h1 : shm.emergency_stop = 1 ∧ shm.emergency_mode = 0
  · rw [(escalation_stop shm h1).1] at b
    exact d1 (List.mem_singleton.mp b).symm
  · by_cases h2 : shm.overload = 1 ∧ shm.emergency_mode = 0
    · rw [(escalation_overload shm ⟨h1, h2⟩).1] at a
      exact d1 (List.mem_singleton.mp a)
    · exact (hnone ⟨h1, h2⟩).1 a

/-- C14, at a state with the stop button pressed and the overload sensor
tripped: only the emergency stop message is printed. -/
theorem check_safety_escalation_witness :
    (check_safety ⟨['1'], ['1'], "Closed".toList, 0, 0, 0, 1, 1, 0, 0⟩).output
        = ["The emergency stop button has been pressed!\n".toList]
      ∧ (check_safety ⟨['1'], ['1'], "Closed".toList, 0, 0, 0, 1, 1, 0, 0⟩).shm.emergency_mode
        = 1 :=
  (check_safety_escalation ⟨['1'], ['1'], "Closed".toList, 0, 0, 0, 1, 1, 0, 0⟩).1
    ⟨rfl, rfl⟩

/-- C15: `check_safety` leaves the status `Opening` when it is called with
`door_obstruction = 1` and the status `Closing`, and leaves the status as it is
in every other case; `door_obstruction` is not changed, so on return
`door_obstruction = 1` does not come with the status `Closing`. -/
theorem check_safety_obstruction (shm : car_shared_mem) :
    (shm.door_obstruction = 1 ∧ shm.status = "Closing".toList →
      (check_safety shm).shm.status = "Opening".toList)
    ∧ (¬ (shm.door_obstruction = 1 ∧ shm.status = "Closing".toList) →
      (check_safety shm).shm.status = shm.status)
    ∧ (check_safety shm).shm.door_obstruction = shm.door_obstruction
    ∧ ¬ ((check_safety shm).shm.door_obstruction = 1
        ∧ (check_safety shm).shm.status = "Closing".toList) := by
  have hs : ∀ c : SafetyCheck,
      (check_data_consistency (check_overload (check_emergency_stop c))).shm.status
          = c.shm.status
        ∧ (check_data_consistency (check_overload (check_emergency_stop c))).shm.door_obstruction
          = c.shm.door_obstruction := by
    intro c
    unfold check_data_consistency check_overload check_emergency_stop
    split_ifs <;> simp
  have hop : strncpy "Opening".toList MAX_STATUS_LENGTH = "Opening".toList := by decide
  have h1 : shm.door_obstruction = 1 ∧ shm.status = "Closing".toList →
      (check_safety shm).shm.status = "Opening".toList := by
    intro h
    unfold check_safety
    rw [(hs _).1]
    unfold check_door_obstruction
    rw [if_pos ⟨h.1, (status_closing_iff _).mpr h.2⟩, hop]
  have h2 : ¬ (shm.door_obstruction = 1 ∧ shm.status = "Closing".toList) →
      (check_safety shm).shm.status = shm.status := by
    intro h
    unfold check_safety
    rw [(hs _).1]
    unfold check_door_obstruction
    rw [if_neg (fun hc => h ⟨hc.1, (status_closing_iff _).mp hc.2⟩)]
  have h3 : (check_safety shm).shm.door_obstruction = shm.door_obstruction := by
    unfold check_safety
    rw [(hs _).2]
    unfold check_door_obstruction
    split_ifs <;> rfl
  refine ⟨h1, h2, h3, ?_⟩
  rintro ⟨ha, hb⟩
  rw [h3] at ha
  by_cases hc : shm.door_obstruction = 1 ∧ shm.status = "Closing".toList
  · rw [h1 hc] at hb
    exact absurd hb (by decide)
  · rw [h2 hc] at hb
    exact hc ⟨ha, hb⟩

/-- C15, at a state with an obstructed door that is closing. -/
theorem check_safety_obstruction_witness :
    (check_safety ⟨['1'], ['1'], "Closing".toList, 0, 0, 1, 0, 0, 0, 0⟩).shm.status
      = "Opening".toList :=
  (check_safety_obstruction ⟨['1'], ['1'], "Closing".toList, 0, 0, 1, 0, 0, 0, 0⟩).1 ⟨rfl, rfl⟩

/-- C16: called with `emergency_mode = 1`, `check_safety` returns with
`emergency_mode = 1` and prints nothing: no call of `check_safety` changes
`emergency_mode` from 1 to 0. -/
theorem check_safety_keeps_emergency_mode (shm : car_shared_mem)
    (h : shm.emergency_mode = 1) :
    (check_safety shm).shm.emergency_mode = 1 ∧ (check_safety shm).output = [] := by
  unfold check_safety check_data_consistency check_overload check_emergency_stop
    check_door_obstruction
  split_ifs <;> simp_all

/-- C16, at a state in emergency mode with the stop button pressed, the
overload sensor tripped and an invalid floor. -/
theorem check_safety_keeps_emergency_mode_witness :
    (check_safety ⟨['0'], ['1'], "Closed".toList, 0, 0, 0, 1, 1, 0, 1⟩).shm.emergency_mode = 1
      ∧ (check_safety ⟨['0'], ['1'], "Closed".toList, 0, 0, 0, 1, 1, 0, 1⟩).output = [] :=
  check_safety_keeps_emergency_mode ⟨['0'], ['1'], "Closed".toList, 0, 0, 0, 1, 1, 0, 1⟩ rfl

/-! ## Successor and predecessor of a floor -/

theorem acf_false_of_not (a b : List Char) (h : ¬ are_consecutive_floors a b = true) :
    are_consecutive_floors a b = false := by
  cases hb : are_consecutive_floors a b
  · rfl
  · exact absurd hb h

theorem increment_successor_above (n : Nat) (n1 : 1 ≤ n) (n2 : n ≤ 999) (hn : n ≠ 999) :
    increment_floor (above_ground n) = above_ground (n + 1)
      ∧ are_consecutive_floors (above_ground n) (above_ground (n + 1)) = true
      ∧ are_consecutive_floors (above_ground (n + 1)) (above_ground n) = false
      ∧ ∀ h, is_valid_floor h = true → are_consecutive_floors (above_ground n) h = true →
          are_consecutive_floors h (above_ground (n + 1)) = true →
          h = above_ground n ∨ h = above_ground (n + 1) := by
  refine ⟨?_, ?_, ?_, ?_⟩
  · rw [(step_table n (by omega) n1).1, if_neg hn]
  · exact (acf_above n (n + 1) n1 n2 (by omega) (by omega)).mpr (by omega)
  · apply acf_false_of_not
    rw [acf_above (n + 1) n (by omega) (by omega) n1 n2]
    omega
  · intro h hv h1 h2
    rcases valid_floor_cases h hv with ⟨k, k1, k2, rfl⟩ | ⟨k, k1, k2, rfl⟩
    · rw [acf_above n k n1 n2 k1 k2] at h1
      rw [acf_above k (n + 1) k1 k2 (by omega) (by omega)] at h2
      rcases (show k = n ∨ k = n + 1 by omega) with rfl | rfl
      · exact Or.inl rfl
      · exact Or.inr rfl
    · rw [(acf_basement_above k n n1 n2).2] at h1
      exact absurd h1 (by decide)

theorem increment_successor_basement (n : Nat) (n1 : 1 ≤ n) (n2 : n ≤ 99) :
    is_valid_floor (increment_floor (basement n)) = true
      ∧ are_consecutive_floors (basement n) (increment_floor (basement n)) = true
      ∧ are_consecutive_floors (increment_floor (basement n)) (basement n) = false
      ∧ ∀ h, is_valid_floor h = true → are_consecutive_floors (basement n) h = true →
          are_consecutive_floors h (increment_floor (basement n)) = true →
          h = basement n ∨ h = increment_floor (basement n) := by
  rw [((step_table n (by omega) n1).2.2 (by omega)).1]
  by_cases hn : n = 1
  · subst hn
    rw [if_pos rfl]
    refine ⟨by decide, by decide, by decide, ?_⟩
    intro h hv h1 h2
    rcases valid_floor_cases h hv with ⟨k, k1, k2, rfl⟩ | ⟨k, k1, k2, rfl⟩
    · rw [acf_above k 1 k1 k2 (by omega) (by omega)] at h2
      rw [show k = 1 by omega]
      exact Or.inr rfl
    · rw [acf_basement 1 k (by omega) (by omega) k1 k2] at h1
      rw [show k = 1 by omega]
      exact Or.inl rfl
  · rw [if_neg hn]
    refine ⟨(digits_facts (n - 1) (by omega) (by omega)).2.2.2 (by omega), ?_, ?_, ?_⟩
    · exact (acf_basement n (n - 1) n1 n2 (by omega) (by omega)).mpr (by omega)
    · apply acf_false_of_not
      rw [acf_basement (n - 1) n (by omega) (by omega) n1 n2]
      omega
    · intro h hv h1 h2
      rcases valid_floor_cases h hv with ⟨k, k1, k2, rfl⟩ | ⟨k, k1, k2, rfl⟩
      · rw [(acf_basement_above (n - 1) k k1 k2).2] at h2
        exact absurd h2 (by decide)
      · rw [acf_basement n k n1 n2 k1 k2] at h1
        rw [acf_basement k (n - 1) k1 k2 (by omega) (by omega)] at h2
        rcases (show k = n ∨ k = n - 1 by omega) with rfl | rfl
        · exact Or.inl rfl
        · exact Or.inr rfl

theorem decrement_predecessor_basement (n : Nat) (n1 : 1 ≤ n) (n2 : n ≤ 99) (hn : n ≠ 99) :
    decrement_floor (basement n) = basement (n + 1)
      ∧ are_consecutive_floors (basement (n + 1)) (basement n) = true
      ∧ are_consecutive_floors (basement n) (basement (n + 1)) = false
      ∧ ∀ h, is_valid_floor h = true → are_consecutive_floors (basement (n + 1)) h = true →
          are_consecutive_floors h (basement n) = true →
          h = basement (n + 1) ∨ h = basement n := by
  refine ⟨?_, ?_, ?_, ?_⟩
  · rw [((step_table n (by omega) n1).2.2 (by omega)).2, if_neg hn]
  · exact (acf_basement (n + 1) n (by omega) (by omega) n1 n2).mpr (by omega)
  · apply acf_false_of_not
    rw [acf_basement n (n + 1) n1 n2 (by omega) (by omega)]
    omega
  · intro h hv h1 h2
    rcases valid_floor_cases h hv with ⟨k, k1, k2, rfl⟩ | ⟨k, k1, k2, rfl⟩
    · rw [(acf_basement_above n k k1 k2).2] at h2
      exact absurd h2 (by decide)
    · rw [acf_basement (n + 1) k (by omega) (by omega) k1 k2] at h1
      rw [acf_basement k n k1 k2 n1 n2] at h2
      rcases (show k = n + 1 ∨ k = n by omega) with rfl | rfl
      · exact Or.inl rfl
      · exact Or.inr rfl

theorem decrement_predecessor_above (n : Nat) (n1 : 1 ≤ n) (n2 : n ≤ 999) :
    is_valid_floor (decrement_floor (above_ground n)) = true
      ∧ are_consecutive_floors (decrement_floor (above_ground n)) (above_ground n) = true
      ∧ are_consecutive_floors (above_ground n) (decrement_floor (above_ground n)) = false
      ∧ ∀ h, is_valid_floor h = true →
          are_consecutive_floors (decrement_floor (above_ground n)) h = true →
          are_consecutive_floors h (above_ground n) = true →
          h = decrement_floor (above_ground n) ∨ h = above_ground n := by
  rw [(step_table n (by omega) n1).2.1]
  by_cases hn : n = 1
  · subst hn
    rw [if_pos rfl]
    refine ⟨by decide, by decide, by decide, ?_⟩
    intro h hv h1 h2
    rcases valid_floor_cases h hv with ⟨k, k1, k2, rfl⟩ | ⟨k, k1, k2, rfl⟩
    · rw [acf_above k 1 k1 k2 (by omega) (by omega)] at h2
      rw [show k = 1 by omega]
      exact Or.inr rfl
    · rw [acf_basement 1 k (by omega) (by omega) k1 k2] at h1
      rw [show k = 1 by omega]
      exact Or.inl rfl
  · rw [if_neg hn]
    refine ⟨(digits_facts (n - 1) (by omega) (by omega)).2.2.1, ?_, ?_, ?_⟩
    · exact (acf_above (n - 1) n (by omega) (by omega) n1 n2).mpr (by omega)
    · apply acf_false_of_not
      rw [acf_above n (n - 1) n1 n2 (by omega) (by omega)]
      omega
    · intro h hv h1 h2
      rcases valid_floor_cases h hv with ⟨k, k1, k2, rfl⟩ | ⟨k, k1, k2, rfl⟩
      · rw [acf_above (n - 1) k (by omega) (by omega) k1 k2] at h1
        rw [acf_above k n k1 k2 n1 n2] at h2
        rcases (show k = n - 1 ∨ k = n by omega) with rfl | rfl
        · exact Or.inl rfl
        · exact Or.inr rfl
      · rw [(acf_basement_above k (n - 1) (by omega) (by omega)).2] at h1
        exact absurd h1 (by decide)

/-- C11: on every valid floor `increment_floor` and `decrement_floor` give a
valid floor; for a valid floor other than 999, `increment_floor` gives its
successor in the order of `are_consecutive_floors` (strictly above, with no
valid floor strictly between); for a valid floor other than B99,
`decrement_floor` gives its predecessor; and `set_next_floor` is
`increment_floor` for the direction UP and `decrement_floor` for DOWN. -/
theorem increment_decrement_successor :
    (∀ f, is_valid_floor f = true →
      is_valid_floor (increment_floor f) = true ∧ is_valid_floor (decrement_floor f) = true)
    ∧ (∀ f, is_valid_floor f = true → f ≠ ['9', '9', '9'] →
        are_consecutive_floors f (increment_floor f) = true
          ∧ are_consecutive_floors (increment_floor f) f = false
          ∧ ∀ h, is_valid_floor h = true → are_consecutive_floors f h = true →
              are_consecutive_floors h (increment_floor f) = true →
              h = f ∨ h = increment_floor f)
    ∧ (∀ f, is_valid_floor f = true → f ≠ ['B', '9', '9'] →
        are_consecutive_floors (decrement_floor f) f = true
          ∧ are_consecutive_floors f (decrement_floor f) = false
          ∧ ∀ h, is_valid_floor h = true → are_consecutive_floors (decrement_floor f) h = true →
              are_consecutive_floors h f = true →
              h = decrement_floor f ∨ h = f)
    ∧ (∀ f, set_next_floor f UP = increment_floor f
        ∧ set_next_floor f DOWN = decrement_floor f) := by
  refine ⟨?_, ?_, ?_, fun f => ⟨rfl, rfl⟩⟩
  · intro f hf
    rcases valid_floor_cases f hf with ⟨n, n1, n2, rfl⟩ | ⟨n, n1, n2, rfl⟩
    · refine ⟨?_, (decrement_predecessor_above n n1 n2).1⟩
      rw [(step_table n (by omega) n1).1]
      exact (digits_facts _ (by split_ifs <;> omega) (by split_ifs <;> omega)).2.2.1
    · refine ⟨(increment_successor_basement n n1 n2).1, ?_⟩
      rw [((step_table n (by omega) n1).2.2 (by omega)).2]
      exact (digits_facts _ (by split_ifs <;> omega) (by split_ifs <;> omega)).2.2.2
        (by split_ifs <;> omega)
  · intro f hf hne
    rcases valid_floor_cases f hf with ⟨n, n1, n2, rfl⟩ | ⟨n, n1, n2, rfl⟩
    · have hn : n ≠ 999 := by
        rintro rfl
        exact hne (by decide)
      obtain ⟨e, r⟩ := increment_successor_above n n1 n2 hn
      rw [e]
      exact r
    · exact (increment_successor_basement n n1 n2).2
  · intro f hf hne
    rcases valid_floor_cases f hf with ⟨n, n1, n2, rfl⟩ | ⟨n, n1, n2, rfl⟩
    · exact (decrement_predecessor_above n n1 n2).2
    · have hn : n ≠ 99 := by
        rintro rfl
        exact hne (by decide)
      obtain ⟨e, r⟩ := decrement_predecessor_basement n n1 n2 hn
      rw [e]
      exact r

/-- C11, at the floors 9, B1 and 100: 10 is right above 9, 1 is right above B1,
and 99 is right below 100. -/
theorem increment_decrement_successor_witness :
    (are_consecutive_floors ['9'] (increment_floor ['9']) = true
      ∧ are_consecutive_floors (increment_floor ['9']) ['9'] = false)
    ∧ increment_floor ['B', '1'] = ['1']
    ∧ (are_consecutive_floors (decrement_floor ['1', '0', '0']) ['1', '0', '0'] = true
      ∧ are_consecutive_floors ['1', '0', '0'] (decrement_floor ['1', '0', '0']) = false) :=
  ⟨⟨(increment_decrement_successor.2.1 ['9'] (by decide) (by decide)).1,
      (increment_decrement_successor.2.1 ['9'] (by decide) (by decide)).2.1⟩,
    by decide,
    ⟨(increment_decrement_successor.2.2.1 ['1', '0', '0'] (by decide) (by decide)).1,
      (increment_decrement_successor.2.2.1 ['1', '0', '0'] (by decide) (by decide)).2.1⟩⟩

/-! ## Invariants of the car thread -/

theorem invariant_and_then (I : CarThread → Prop) (o : Outcome) (f : CarThread → Outcome)
    (ho : I o.state) (hf : ∀ st, I st → I (f st).state) : I (o.and_then f).state := by
  cases o with
  | returned st => exact hf st ho
  | running st => exact ho

theorem invariant_door_write (P Q : car_shared_mem → Prop)
    (hP : ∀ s v, P s → P { s with status := v })
    (hQ : ∀ s v, P s → v ≠ "Between".toList → Q { s with status := v })
    (v : List Char) (hv : v ≠ "Between".toList) (st : CarThread)
    (h : ThreadInvariant P Q st) :
    ThreadInvariant P Q (pthread_cond_broadcast (strcpy_status v st)) := by
  obtain ⟨h1, h2, h3⟩ := h
  refine ⟨hP _ v h1, h2, ?_⟩
  intro b hb
  simp only [pthread_cond_broadcast, strcpy_status, set_shm, List.mem_append,
    List.mem_singleton] at hb
  rcases hb with hb | rfl
  · exact h3 b hb
  · exact hQ _ v h1 hv

theorem wait_delay_loop_keeps (P : car_shared_mem → Prop) (button : car_shared_mem → Nat) :
    ∀ env shm, EnvKeeps P env → P shm →
      P (wait_delay_loop button env shm).1 ∧ EnvKeeps P (wait_delay_loop button env shm).2.1 := by
  intro env
  induction env with
  | nil =>
    intro shm he hp
    exact ⟨hp, he⟩
  | cons i rest ih =>
    intro shm he hp
    have hw : P (i.write shm) := he i (List.mem_cons_self _ _) shm hp
    have hr : EnvKeeps P rest := fun j hj => he j (List.mem_cons_of_mem _ hj)
    unfold wait_delay_loop
    split_ifs
    · exact ⟨hw, hr⟩
    · exact ⟨hw, hr⟩
    · exact ih _ hr hw

theorem invariant_wait_delay (P Q : car_shared_mem → Prop) (button : car_shared_mem → Nat)
    (st : CarThread) (h : ThreadInvariant P Q st) :
    ThreadInvariant P Q (wait_delay button st).1 := by
  obtain ⟨h1, h2, h3⟩ := h
  obtain ⟨w1, w2⟩ := wait_delay_loop_keeps P button st.env st.car_info.shm h2 h1
  exact ⟨w1, w2, h3⟩

theorem invariant_release_mutex (P Q : car_shared_mem → Prop) (st : CarThread)
    (h : ThreadInvariant P Q st) : ThreadInvariant P Q (release_mutex st).1 := by
  obtain ⟨h1, h2, h3⟩ := h
  unfold release_mutex
  cases he : st.env with
  | nil => exact ⟨h1, h2, h3⟩
  | cons i rest =>
    rw [he] at h2
    exact ⟨h2 i (List.mem_cons_self _ _) _ h1, fun j hj => h2 j (List.mem_cons_of_mem _ hj), h3⟩

theorem invariant_doors (P Q : car_shared_mem → Prop)
    (hP : ∀ s v, P s → P { s with status := v })
    (hQ : ∀ s v, P s → v ≠ "Between".toList → Q { s with status := v }) :
    ∀ fuel st, ThreadInvariant P Q st →
      ThreadInvariant P Q (open_doors fuel st).state
        ∧ ThreadInvariant P Q (close_doors fuel st).state := by
  intro fuel
  induction fuel with
  | zero =>
    intro st h
    exact ⟨h, h⟩
  | succ n ih =>
    intro st h
    constructor
    · rw [open_doors]
      by_cases c1 : st.car_info.shm.status ≠ "Open".toList
      · rw [if_pos c1]
        by_cases c2 : st.car_info.shm.status = "Closed".toList
            ∨ st.car_info.shm.status = "Closing".toList
        · rw [if_pos c2]
          have hw := invariant_wait_delay P Q (fun shm => shm.close_button) _
            (invariant_door_write P Q hP hQ "Opening".toList (by decide) st h)
          generalize wait_delay (fun shm => shm.close_button)
            (pthread_cond_broadcast (strcpy_status "Opening".toList st)) = w at hw ⊢
          dsimp only
          split_ifs
          · exact (ih _ hw).2
          · exact (ih _ (invariant_door_write P Q hP hQ "Open".toList (by decide) _ hw)).1
          · exact (ih _ hw).1
        · rw [if_neg c2]
          simp only [Bool.false_eq_true, if_false]
          split_ifs
          · exact (ih _ (invariant_door_write P Q hP hQ "Open".toList (by decide) _ h)).1
          · exact (ih _ h).1
      · rw [if_neg c1]
        by_cases c2 : st.car_info.shm.individual_service_mode = 0
            ∧ st.car_info.shm.emergency_mode = 0
        · rw [if_pos c2]
          have hw := invariant_wait_delay P Q (fun shm => shm.close_button) _ h
          generalize wait_delay (fun shm => shm.close_button) st = w at hw ⊢
          dsimp only
          split_ifs
          · exact (ih _ hw).2
          · exact (ih _ hw).2
          · exact hw
        · rw [if_neg c2]
          simp only [Bool.false_eq_true, if_false]
          split_ifs
          · exact (ih _ h).2
          · exact h
    · rw [close_doors]
      by_cases c1 : st.car_info.shm.status ≠ "Closed".toList
      · rw [if_pos c1]
        by_cases c2 : st.car_info.shm.status = "Open".toList
            ∨ st.car_info.shm.status = "Opening".toList
        · rw [if_pos c2]
          have hw := invariant_wait_delay P Q (fun shm => shm.open_button) _
            (invariant_door_write P Q hP hQ "Closing".toList (by decide) st h)
          generalize wait_delay (fun shm => shm.open_button)
            (pthread_cond_broadcast (strcpy_status "Closing".toList st)) = w at hw ⊢
          dsimp only
          split_ifs
          · exact (ih _ hw).1
          · exact (ih _ (invariant_door_write P Q hP hQ "Closed".toList (by decide) _ hw)).2
          · exact (ih _ hw).2
        · rw [if_neg c2]
          simp only [Bool.false_eq_true, if_false]
          split_ifs
          · exact (ih _ (invariant_door_write P Q hP hQ "Closed".toList (by decide) _ h)).2
          · exact (ih _ h).2
      · rw [if_neg c1]
        exact h

theorem invariant_button_rules (P Q : car_shared_mem → Prop)
    (hP : ∀ s v, P s → P { s with status := v })
    (hopen : ∀ s, P s → P { s with open_button := 0 })
    (hclose : ∀ s, P s → P { s with close_button := 0 })
    (hQ : ∀ s v, P s → v ≠ "Between".toList → Q { s with status := v })
    (fuel : Nat) (st : CarThread) (h : ThreadInvariant P Q st) :
    ThreadInvariant P Q (button_rules fuel st).state := by
  unfold button_rules
  apply invariant_and_then (ThreadInvariant P Q)
  · split_ifs
    · have h0 : ThreadInvariant P Q (set_shm st { st.car_info.shm with open_button := 0 }) :=
        ⟨hopen _ h.1, h.2.1, h.2.2⟩
      exact (invariant_doors P Q hP hQ fuel _ h0).1
    · exact h
  · intro st1 h1
    split_ifs
    · have h0 : ThreadInvariant P Q
          (set_shm st1 { st1.car_info.shm with close_button := 0 }) :=
        ⟨hclose _ h1.1, h1.2.1, h1.2.2⟩
      exact (invariant_doors P Q hP hQ fuel _ h0).2
    · exact h1

theorem connection_rules_frame (st : CarThread) :
    (connection_rules st).car_info.shm = st.car_info.shm
      ∧ (connection_rules st).env = st.env
      ∧ (connection_rules st).broadcasts = st.broadcasts
      ∧ (connection_rules st).last_individual_service_mode = st.last_individual_service_mode
      ∧ (connection_rules st).last_emergency_mode = st.last_emergency_mode := by
  unfold connection_rules
  simp only [controller_init, set_should_connect]
  split_ifs <;> exact ⟨rfl, rfl, rfl, rfl, rfl⟩

theorem invariant_connection_rules (P Q : car_shared_mem → Prop) (st : CarThread)
    (h : ThreadInvariant P Q st) : ThreadInvariant P Q (connection_rules st) := by
  obtain ⟨f1, f2, f3, -, -⟩ := connection_rules_frame st
  unfold ThreadInvariant
  rw [f1, f2, f3]
  exact h

theorem invariant_move_car_loop (direction : Direction) :
    ∀ fuel st,
      ThreadInvariant (fun _ => True)
        (fun b => b.status = "Between".toList → b.current_floor ≠ b.destination_floor) st →
      ThreadInvariant (fun _ => True)
        (fun b => b.status = "Between".toList → b.current_floor ≠ b.destination_floor)
        (move_car_loop direction fuel st).state := by
  intro fuel
  induction fuel with
  | zero =>
    intro st h
    unfold move_car_loop
    split_ifs <;> exact h
  | succ n ih =>
    intro st h
    unfold move_car_loop
    split_ifs with c
    · apply ih
      have hb : ThreadInvariant (fun _ => True)
          (fun b => b.status = "Between".toList → b.current_floor ≠ b.destination_floor)
          (pthread_cond_broadcast (strcpy_status "Between".toList st)) := by
        refine ⟨trivial, h.2.1, ?_⟩
        intro b hb
        simp only [pthread_cond_broadcast, strcpy_status, set_shm, List.mem_append,
          List.mem_singleton] at hb
        rcases hb with hb | rfl
        · exact h.2.2 b hb
        · intro _
          exact c
      have hr := invariant_release_mutex _ _ _ hb
      exact ⟨trivial, hr.2.1, hr.2.2⟩
    · exact h

theorem invariant_move_car (fuel : Nat) (st : CarThread)
    (h : ThreadInvariant (fun _ => True)
      (fun b => b.status = "Between".toList → b.current_floor ≠ b.destination_floor) st) :
    ThreadInvariant (fun _ => True)
      (fun b => b.status = "Between".toList → b.current_floor ≠ b.destination_floor)
      (move_car fuel st).state := by
  unfold move_car
  by_cases c : is_floor_within_bounds st.car_info.shm.destination_floor
      st.car_info.lowest_floor st.car_info.highest_floor = false
  · rw [if_pos c]
    exact ⟨trivial, h.2.1, h.2.2⟩
  · rw [if_neg c]
    apply invariant_and_then _ _ _ (invariant_move_car_loop _ fuel st h)
    intro st1 h1
    exact invariant_door_write (fun _ => True) _ (fun _ _ _ => trivial)
      (fun s v _ hv hb => absurd hb hv) "Closed".toList (by decide) _ ⟨trivial, h1.2.1, h1.2.2⟩

theorem invariant_iteration_between (fuel : Nat) (st : CarThread)
    (h : ThreadInvariant (fun _ => True)
      (fun b => b.status = "Between".toList → b.current_floor ≠ b.destination_floor) st) :
    ThreadInvariant (fun _ => True)
      (fun b => b.status = "Between".toList → b.current_floor ≠ b.destination_floor)
      (manage_car_iteration fuel st).state := by
  have hdoors := invariant_doors (fun _ => True)
    (fun b => b.status = "Between".toList → b.current_floor ≠ b.destination_floor)
    (fun _ _ _ => trivial) (fun s v _ hv hb => absurd hb hv)
  unfold manage_car_iteration
  apply invariant_and_then
  · exact invariant_button_rules _ _ (fun _ _ _ => trivial) (fun _ _ => trivial)
      (fun _ _ => trivial) (fun s v _ hv hb => absurd hb hv) fuel _
      (invariant_release_mutex _ _ _ h)
  · intro st1 h1
    apply invariant_and_then
    · unfold motion_rules
      apply invariant_and_then
      · split_ifs
        · exact invariant_move_car fuel _ (invariant_connection_rules _ _ _ h1)
        · exact invariant_connection_rules _ _ _ h1
      · intro st2 h2
        split_ifs
        · exact invariant_and_then _ _ _ (invariant_move_car fuel _ h2)
            (fun st3 h3 => (hdoors fuel st3 h3).1)
        · exact h2
    · intro st2 h2
      exact h2

theorem invariant_iteration_without_motion (P : car_shared_mem → Prop)
    (hP : ∀ s v, P s → P { s with status := v })
    (hopen : ∀ s, P s → P { s with open_button := 0 })
    (hclose : ∀ s, P s → P { s with close_button := 0 })
    (hservice : ∀ s, P s →
      ¬ (s.individual_service_mode = 1 ∧ s.current_floor ≠ s.destination_floor))
    (hnormal : ∀ s, P s →
      ¬ (s.individual_service_mode = 0 ∧ s.emergency_mode = 0
        ∧ s.current_floor ≠ s.destination_floor ∧ s.status = "Closed".toList))
    (fuel : Nat) (st : CarThread)
    (h : ThreadInvariant P (fun b => b.status ≠ "Between".toList) st) :
    ThreadInvariant P (fun b => b.status ≠ "Between".toList)
      (manage_car_iteration fuel st).state := by
  unfold manage_car_iteration
  apply invariant_and_then
  · exact invariant_button_rules _ _ hP hopen hclose (fun s v _ hv => hv) fuel _
      (invariant_release_mutex _ _ _ h)
  · intro st1 h1
    have h2 := invariant_connection_rules _ _ _ h1
    apply invariant_and_then
    · unfold motion_rules
      rw [if_neg (hservice _ h2.1)]
      unfold Outcome.and_then
      dsimp only
      rw [if_neg (hnormal _ h2.1)]
      exact h2
    · intro st2 h3
      exact h3

/-! ## Motion and the modes of the car -/

/-- C17, as stated, fails: a car in emergency mode that is also in individual
service mode, standing at floor 1 with destination 2, starts moving in its next
iteration: it broadcasts the status `Between` at floor 1 and arrives at floor
2. -/
theorem service_mode_moves_in_emergency :
    (idle_thread ['1'] ['2'] 1 1).car_info.shm.emergency_mode = 1
      ∧ (manage_car_iteration 3 (idle_thread ['1'] ['2'] 1 1)).state.broadcasts.map
          (fun b => (b.status, b.current_floor, b.emergency_mode))
        = [("Between".toList, ['1'], 1), ("Closed".toList, ['2'], 1)]
      ∧ (manage_car_iteration 3 (idle_thread ['1'] ['2'] 1 1)).state.car_info.shm.current_floor
        = ['2'] := by
  decide

/-- C17, as amended: a car whose shared memory has `emergency_mode = 1` and
`individual_service_mode` other than 1, and keeps both while the iteration
runs, starts no motion in an iteration of the loop of `manage_car`: the status
`Between` is not broadcast, whatever the buttons, floors and status are and
however far the iteration has run. -/
theorem no_motion_in_emergency_outside_service (fuel : Nat) (st : CarThread)
    (hem : st.car_info.shm.emergency_mode = 1)
    (hism : st.car_info.shm.individual_service_mode ≠ 1)
    (henv : EnvKeeps (fun s => s.emergency_mode = 1 ∧ s.individual_service_mode ≠ 1) st.env)
    (hb : ∀ b ∈ st.broadcasts, b.status ≠ "Between".toList) :
    (∀ b ∈ (manage_car_iteration fuel st).state.broadcasts, b.status ≠ "Between".toList)
      ∧ (manage_car_iteration fuel st).state.car_info.shm.emergency_mode = 1
      ∧ (manage_car_iteration fuel st).state.car_info.shm.individual_service_mode ≠ 1 := by
  have h := invariant_iteration_without_motion
    (fun s => s.emergency_mode = 1 ∧ s.individual_service_mode ≠ 1)
    (fun _ _ hs => hs) (fun _ hs => hs) (fun _ hs => hs)
    (fun s hs hc => hs.2 hc.1)
    (fun s hs hc => absurd (hs.1.symm.trans hc.2.1) (by decide))
    fuel st ⟨⟨hem, hism⟩, henv, hb⟩
  exact ⟨h.2.2, h.1.1, h.1.2⟩

/-- C17, as amended, at a car in emergency mode outside the individual service
mode, standing at floor 1 with destination 2. -/
theorem no_motion_in_emergency_outside_service_witness :
    (idle_thread ['1'] ['2'] 0 1).car_info.shm.current_floor
        ≠ (idle_thread ['1'] ['2'] 0 1).car_info.shm.destination_floor
      ∧ "Between".toList ∉
        (manage_car_iteration 3 (idle_thread ['1'] ['2'] 0 1)).state.broadcasts.map
          (fun b => b.status) :=
  ⟨by decide, fun hm => by
    obtain ⟨b, hb, e⟩ := List.mem_map.mp hm
    exact (no_motion_in_emergency_outside_service 3 (idle_thread ['1'] ['2'] 0 1) rfl
      (by decide) (fun i hi => absurd hi (List.not_mem_nil i))
      (fun b hb => absurd hb (List.not_mem_nil b))).1 b hb e⟩

/-- C18: in an iteration of the loop of `manage_car`, whenever the car sets
the status to `Between` (and broadcasts it), `current_floor` differs from
`destination_floor` at that moment, in every mode and whatever the other
threads write; and a car whose current floor is its destination, and stays so
while the iteration runs, never sets the status `Between`. -/
theorem between_only_when_floors_differ (fuel : Nat) (st : CarThread)
    (hb : st.broadcasts = []) :
    (∀ b ∈ (manage_car_iteration fuel st).state.broadcasts,
        b.status = "Between".toList → b.current_floor ≠ b.destination_floor)
      ∧ (st.car_info.shm.current_floor = st.car_info.shm.destination_floor →
          EnvKeeps (fun s => s.current_floor = s.destination_floor) st.env →
          ∀ b ∈ (manage_car_iteration fuel st).state.broadcasts,
            b.status ≠ "Between".toList) := by
  constructor
  · refine (invariant_iteration_between fuel st ⟨trivial, fun _ _ _ _ => trivial, ?_⟩).2.2
    intro b hm
    rw [hb] at hm
    exact absurd hm (List.not_mem_nil b)
  · intro hfl henv
    refine (invariant_iteration_without_motion
      (fun s => s.current_floor = s.destination_floor)
      (fun _ _ hs => hs) (fun _ hs => hs) (fun _ hs => hs)
      (fun s hs hc => hc.2 hs) (fun s hs hc => hc.2.2.1 hs) fuel st ⟨hfl, henv, ?_⟩).2.2
    intro b hm
    rw [hb] at hm
    exact absurd hm (List.not_mem_nil b)

/-- C18, at a car in neither mode with closed doors: standing at floor 1 with
destination 2 it broadcasts `Between` at floor 1, and never with the current
floor equal to the destination; standing at floor 2 with destination 2 it does
not broadcast `Between`. -/
theorem between_only_when_floors_differ_witness :
    (manage_car_iteration 9 (idle_thread ['1'] ['2'] 0 0)).state.broadcasts.map
        (fun b => (b.status, b.current_floor, b.destination_floor))
      = [("Between".toList, ['1'], ['2']), ("Closed".toList, ['2'], ['2']),
          ("Opening".toList, ['2'], ['2']), ("Open".toList, ['2'], ['2']),
          ("Closing".toList, ['2'], ['2']), ("Closed".toList, ['2'], ['2'])]
      ∧ ¬ (∃ b ∈ (manage_car_iteration 9 (idle_thread ['1'] ['2'] 0 0)).state.broadcasts,
            b.status = "Between".toList ∧ b.current_floor = b.destination_floor)
      ∧ "Between".toList ∉
        (manage_car_iteration 9 (idle_thread ['2'] ['2'] 0 0)).state.broadcasts.map
          (fun b => b.status) :=
  ⟨by decide,
    fun ⟨b, hb, e1, e2⟩ =>
      (between_only_when_floors_differ 9 (idle_thread ['1'] ['2'] 0 0) rfl).1 b hb e1 e2,
    fun hm => by
      obtain ⟨b, hb, e⟩ := List.mem_map.mp hm
      exact (between_only_when_floors_differ 9 (idle_thread ['2'] ['2'] 0 0) rfl).2 rfl
        (fun i hi => absurd hi (List.not_mem_nil i)) b hb e⟩

/-- C20: with the destination outside the range of the car, `move_car` returns
(whatever the bound on its loop) with `destination_floor` set to
`current_floor` and nothing else changed: the current floor, the status, the
buttons and the other flags are as before, and nothing is broadcast, so the
status does not become `Between`. -/
theorem move_car_out_of_bounds (fuel : Nat) (st : CarThread)
    (h : is_floor_within_bounds st.car_info.shm.destination_floor st.car_info.lowest_floor
      st.car_info.highest_floor = false) :
    move_car fuel st
        = .returned (set_shm st { st.car_info.shm with
            destination_floor := st.car_info.shm.current_floor })
      ∧ (move_car fuel st).state.car_info.shm.destination_floor
        = st.car_info.shm.current_floor
      ∧ (move_car fuel st).state.car_info.shm.current_floor = st.car_info.shm.current_floor
      ∧ (move_car fuel st).state.car_info.shm.status = st.car_info.shm.status
      ∧ (move_car fuel st).state.car_info.shm.open_button = st.car_info.shm.open_button
      ∧ (move_car fuel st).state.car_info.shm.close_button = st.car_info.shm.close_button
      ∧ (move_car fuel st).state.broadcasts = st.broadcasts
      ∧ (move_car fuel st).state.env = st.env := by
  have e : move_car fuel st
      = .returned (set_shm st { st.car_info.shm with
          destination_floor := st.car_info.shm.current_floor }) := by
    unfold move_car
    rw [if_pos h]
  rw [e]
  exact ⟨rfl, rfl, rfl, rfl, rfl, rfl, rfl, rfl⟩

/-- C20, at a car of range 1..9 standing at floor 1 with destination 12. -/
theorem move_car_out_of_bounds_witness :
    (move_car 0 (idle_thread ['1'] ['1', '2'] 0 0)).state.car_info.shm
        = ⟨['1'], ['1'], "Closed".toList, 0, 0, 0, 0, 0, 0, 0⟩
      ∧ (move_car 0 (idle_thread ['1'] ['1', '2'] 0 0)).state.broadcasts = [] :=
  ⟨congrArg (fun o => o.state.car_info.shm)
      (move_car_out_of_bounds 0 (idle_thread ['1'] ['1', '2'] 0 0) (by decide)).1,
    (move_car_out_of_bounds 0 (idle_thread ['1'] ['1', '2'] 0 0) (by decide)).2.2.2.2.2.2.1⟩

/-! ## The connection to the controller and the modes of the car -/

/-- C21, as stated, fails: with `individual_service_mode = 2` and the status
`Closed` at floor 3, the operation `up` sets the destination to 4 and exits
with 0, although `individual_service_mode` is not 1; so does `down` with the
destination 2. -/
theorem internal_up_outside_service_mode :
    (⟨['3'], ['3'], "Closed".toList, 0, 0, 0, 0, 0, 2, 0⟩ : car_shared_mem).individual_service_mode
        ≠ 1
      ∧ internal_operation "up".toList ⟨['3'], ['3'], "Closed".toList, 0, 0, 0, 0, 0, 2, 0⟩
        = ⟨⟨['3'], ['4'], "Closed".toList, 0, 0, 0, 0, 0, 2, 0⟩, [], 0, true⟩
      ∧ internal_operation "down".toList ⟨['3'], ['3'], "Closed".toList, 0, 0, 0, 0, 0, 2, 0⟩
        = ⟨⟨['3'], ['2'], "Closed".toList, 0, 0, 0, 0, 0, 2, 0⟩, [], 0, true⟩ := by
  decide

theorem internal_up_eq (shm : car_shared_mem) :
    internal_operation "up".toList shm
      = if shm.individual_service_mode = 0 then
          ⟨shm, ["Operation only allowed in service mode.\n".toList], EXIT_FAILURE, false⟩
        else if shm.status = "Between".toList then
          ⟨shm, ["Operation not allowed while elevator is moving.\n".toList], EXIT_FAILURE,
            false⟩
        else if shm.status ≠ "Closed".toList then
          ⟨shm, ["Operation not allowed while doors are open.\n".toList], EXIT_FAILURE, false⟩
        else
          ⟨{ shm with destination_floor := increment_floor shm.current_floor }, [],
            EXIT_SUCCESS, true⟩ := by
  unfold internal_operation
  rw [if_neg (by decide), if_neg (by decide), if_neg (by decide), if_neg (by decide),
    if_neg (by decide), if_pos rfl]

theorem internal_down_eq (shm : car_shared_mem) :
    internal_operation "down".toList shm
      = if shm.individual_service_mode = 0 then
          ⟨shm, ["Operation only allowed in service mode.\n".toList], EXIT_FAILURE, false⟩
        else if shm.status = "Between".toList then
          ⟨shm, ["Operation not allowed while elevator is moving.\n".toList], EXIT_FAILURE,
            false⟩
        else if shm.status ≠ "Closed".toList then
          ⟨shm, ["Operation not allowed while doors are open.\n".toList], EXIT_FAILURE, false⟩
        else
          ⟨{ shm with destination_floor := decrement_floor shm.current_floor }, [],
            EXIT_SUCCESS, true⟩ := by
  unfold internal_operation
  rw [if_neg (by decide), if_neg (by decide), if_neg (by decide), if_neg (by decide),
    if_neg (by decide), if_neg (by decide), if_pos rfl]

/-- C21, as amended: the operation `up` (`down`) of the internal tool sets
`destination_floor` to `increment_floor(current_floor)`
(`decrement_floor(current_floor)`), prints nothing and exits with 0 exactly
when `individual_service_mode` is not 0 and the status is `Closed`; otherwise
it leaves the shared memory as it is and exits with 1, having printed
`Operation only allowed in service mode.` when `individual_service_mode` is 0,
else `Operation not allowed while elevator is moving.` when the status is
`Between`, else `Operation not allowed while doors are open.` -/
theorem internal_up_down (shm : car_shared_mem) :
    (shm.individual_service_mode ≠ 0 ∧ shm.status = "Closed".toList →
      internal_operation "up".toList shm
          = ⟨{ shm with destination_floor := increment_floor shm.current_floor }, [], 0, true⟩
        ∧ internal_operation "down".toList shm
          = ⟨{ shm with destination_floor := decrement_floor shm.current_floor }, [], 0, true⟩)
    ∧ (shm.individual_service_mode = 0 →
      internal_operation "up".toList shm
          = ⟨shm, ["Operation only allowed in service mode.\n".toList], 1, false⟩
        ∧ internal_operation "down".toList shm
          = ⟨shm, ["Operation only allowed in service mode.\n".toList], 1, false⟩)
    ∧ (shm.individual_service_mode ≠ 0 ∧ shm.status = "Between".toList →
      internal_operation "up".toList shm
          = ⟨shm, ["Operation not allowed while elevator is moving.\n".toList], 1, false⟩
        ∧ internal_operation "down".toList shm
          = ⟨shm, ["Operation not allowed while elevator is moving.\n".toList], 1, false⟩)
    ∧ (shm.individual_service_mode ≠ 0 ∧ shm.status ≠ "Between".toList
        ∧ shm.status ≠ "Closed".toList →
      internal_operation "up".toList shm
          = ⟨shm, ["Operation not allowed while doors are open.\n".toList], 1, false⟩
        ∧ internal_operation "down".toList shm
          = ⟨shm, ["Operation not allowed while doors are open.\n".toList], 1, false⟩)
    ∧ ((internal_operation "up".toList shm).exit_status = 0 ↔
        shm.individual_service_mode ≠ 0 ∧ shm.status = "Closed".toList)
    ∧ ((internal_operation "down".toList shm).exit_status = 0 ↔
        shm.individual_service_mode ≠ 0 ∧ shm.status = "Closed".toList) := by
  have hcb : "Closed".toList ≠ "Between".toList := by decide
  rw [internal_up_eq, internal_down_eq]
  refine ⟨?_, ?_, ?_, ?_, ?_, ?_⟩
  · rintro ⟨h1, h2⟩
    rw [if_neg h1, if_neg (by rw [h2]; exact hcb), if_neg (fun hc => hc h2),
      if_neg h1, if_neg (by rw [h2]; exact hcb), if_neg (fun hc => hc h2)]
    exact ⟨rfl, rfl⟩
  · intro h1
    rw [if_pos h1, if_pos h1]
    exact ⟨rfl, rfl⟩
  · rintro ⟨h1, h2⟩
    rw [if_neg h1, if_pos h2, if_neg h1, if_pos h2]
    exact ⟨rfl, rfl⟩
  · rintro ⟨h1, h2, h3⟩
    rw [if_neg h1, if_neg h2, if_pos h3, if_neg h1, if_neg h2, if_pos h3]
    exact ⟨rfl, rfl⟩
  · by_cases h1 : shm.individual_service_mode = 0
    · rw [if_pos h1]
      exact ⟨fun h => absurd h (show (1 : Nat) ≠ 0 by decide), fun h => absurd h1 h.1⟩
    · rw [if_neg h1]
      by_cases h2 : shm.status = "Between".toList
      · rw [if_pos h2]
        exact ⟨fun h => absurd h (show (1 : Nat) ≠ 0 by decide), fun h => absurd (h.2.symm.trans h2) hcb⟩
      · rw [if_neg h2]
        by_cases h3 : shm.status ≠ "Closed".toList
        · rw [if_pos h3]
          exact ⟨fun h => absurd h (show (1 : Nat) ≠ 0 by decide), fun h => absurd h.2 h3⟩
        · rw [if_neg h3]
          exact ⟨fun _ => ⟨h1, not_not.mp h3⟩, fun _ => rfl⟩
  · by_cases h1 : shm.individual_service_mode = 0
    · rw [if_pos h1]
      exact ⟨fun h => absurd h (show (1 : Nat) ≠ 0 by decide), fun h => absurd h1 h.1⟩
    · rw [if_neg h1]
      by_cases h2 : shm.status = "Between".toList
      · rw [if_pos h2]
        exact ⟨fun h => absurd h (show (1 : Nat) ≠ 0 by decide), fun h => absurd (h.2.symm.trans h2) hcb⟩
      · rw [if_neg h2]
        by_cases h3 : shm.status ≠ "Closed".toList
        · rw [if_pos h3]
          exact ⟨fun h => absurd h (show (1 : Nat) ≠ 0 by decide), fun h => absurd h.2 h3⟩
        · rw [if_neg h3]
          exact ⟨fun _ => ⟨h1, not_not.mp h3⟩, fun _ => rfl⟩

/-- C21, as amended, at a car in service mode standing at floor 3 with its
doors closed, and at the same car with its doors open. -/
theorem internal_up_down_witness :
    internal_operation "up".toList ⟨['3'], ['3'], "Closed".toList, 0, 0, 0, 0, 0, 1, 0⟩
        = ⟨⟨['3'], ['4'], "Closed".toList, 0, 0, 0, 0, 0, 1, 0⟩, [], 0, true⟩
      ∧ internal_operation "up".toList ⟨['3'], ['3'], "Open".toList, 0, 0, 0, 0, 0, 1, 0⟩
        = ⟨⟨['3'], ['3'], "Open".toList, 0, 0, 0, 0, 0, 1, 0⟩,
            ["Operation not allowed while doors are open.\n".toList], 1, false⟩ :=
  ⟨((internal_up_down ⟨['3'], ['3'], "Closed".toList, 0, 0, 0, 0, 0, 1, 0⟩).1
      ⟨by decide, rfl⟩).1.trans (by decide),
    ((internal_up_down ⟨['3'], ['3'], "Open".toList, 0, 0, 0, 0, 0, 1, 0⟩).2.2.2.1
      ⟨by decide, by decide, by decide⟩).1⟩

/-! ## The first frame of a connection -/

theorem tokenize_no_token (msg : List Char) (max_tokens : Nat)
    (h : strtok_tokens msg [] = []) :
    tokenize_message msg max_tokens = List.replicate max_tokens none := by
  unfold tokenize_message
  rw [h]
  simp

/-- C22 fails on the code: a first frame without a token (a payload of length
0, of spaces only, or starting with a NUL byte) makes `handle_client` pass the
`NULL` pointer `tokens[0]` to `strncmp`, instead of replying `INVALID`; a frame
of length 0 is what `receive_msg` returns for the four header bytes 0.  And a
first token that only starts with `CALL` or `CAR` is taken for `CALL` or
`CAR`. -/
theorem handle_client_without_token_reads_null :
    (∀ clientfd buf, strtok_tokens (c_string buf) [] = [] →
        handle_client clientfd (Received.message buf) = none)
      ∧ handle_client 4 (Received.message []) = none
      ∧ handle_client 4 (Received.message [' ', ' ']) = none
      ∧ receive_msg 5 ⟨[Char.ofNat 0, Char.ofNat 0, Char.ofNat 0, Char.ofNat 0], []⟩
        = some (Received.message [], ⟨[], []⟩)
      ∧ handle_client 4 (Received.message "CALLS 1 2".toList)
        = some (Handled.call (some ['1']) (some ['2']))
      ∧ handle_client 4 (Received.message "CARGO 1 2".toList)
        = some (Handled.car (some ['1']) (some ['2']) none)
      ∧ handle_client 4 (Received.message "HELLO".toList)
        = some (Handled.reply [⟨4, "INVALID".toList⟩]) := by
  refine ⟨?_, by decide, by decide, by decide, by decide, by decide, by decide⟩
  intro clientfd buf h
  unfold handle_client
  dsimp only
  rw [tokenize_no_token _ _ h]
  rfl

/-! ## The ride queue: adding at a position -/

theorem insert_at_eq (j : Nat) (n : QueueNode) (q : List QueueNode) :
    insert_at j n q = q.take j ++ n :: q.drop j := rfl

/-- C23: `queue_add(after, f, d)`, `after` being a node of the queue, adds
nothing when the node behind `after` already holds `(f, d)`, and otherwise
links a node `(f, d)` in right behind `after`, all other nodes staying in their
order; afterwards the node behind `after` holds `(f, d)`, and a second call
with the same arguments changes nothing. -/
theorem queue_add_idempotent (q : List QueueNode) (after : Nat) (floor : List Char)
    (direction : Direction) (hafter : after < q.length) :
    queue_add (queue_add q after floor direction) after floor direction
        = queue_add q after floor direction
      ∧ ((∃ next, q.get? (after + 1) = some next
            ∧ strncmp_eq next.floor floor MAX_FLOOR_LENGTH = true
            ∧ next.direction = direction) →
          queue_add q after floor direction = q)
      ∧ (¬ (∃ next, q.get? (after + 1) = some next
            ∧ strncmp_eq next.floor floor MAX_FLOOR_LENGTH = true
            ∧ next.direction = direction) →
          queue_add q after floor direction
            = q.take (after + 1) ++ ⟨strncpy floor MAX_FLOOR_LENGTH, direction⟩
                :: q.drop (after + 1))
      ∧ (∃ next, (queue_add q after floor direction).get? (after + 1) = some next
          ∧ strncmp_eq next.floor floor MAX_FLOOR_LENGTH = true
          ∧ next.direction = direction)
      ∧ (floor.length < MAX_FLOOR_LENGTH →
          ¬ (∃ next, q.get? (after + 1) = some next
            ∧ strncmp_eq next.floor floor MAX_FLOOR_LENGTH = true
            ∧ next.direction = direction) →
          (queue_add q after floor direction).get? (after + 1) = some ⟨floor, direction⟩) := by
  have hself : strncmp_eq (strncpy floor MAX_FLOOR_LENGTH) floor MAX_FLOOR_LENGTH = true := by
    unfold strncmp_eq strncpy
    rw [decide_eq_true_eq, List.take_take, Nat.min_self]
  have hsame : (∃ next, q.get? (after + 1) = some next
        ∧ strncmp_eq next.floor floor MAX_FLOOR_LENGTH = true
        ∧ next.direction = direction) →
      queue_add q after floor direction = q := by
    rintro ⟨next, h1, h2, h3⟩
    unfold queue_add
    rw [h1]
    dsimp only
    rw [if_pos (by rw [h2, h3]; simp)]
  have hnew : ¬ (∃ next, q.get? (after + 1) = some next
        ∧ strncmp_eq next.floor floor MAX_FLOOR_LENGTH = true
        ∧ next.direction = direction) →
      queue_add q after floor direction
        = q.take (after + 1) ++ ⟨strncpy floor MAX_FLOOR_LENGTH, direction⟩
            :: q.drop (after + 1) := by
    intro hno
    rcases queue_add_cases q after floor direction with ⟨-, hex⟩ | h
    · exact absurd hex hno
    · rw [h, insert_at_eq]
  have hthere : ∃ next, (queue_add q after floor direction).get? (after + 1) = some next
      ∧ strncmp_eq next.floor floor MAX_FLOOR_LENGTH = true
      ∧ next.direction = direction := by
    by_cases hex : ∃ next, q.get? (after + 1) = some next
        ∧ strncmp_eq next.floor floor MAX_FLOOR_LENGTH = true
        ∧ next.direction = direction
    · rw [hsame hex]
      exact hex
    · rw [hnew hex, ← insert_at_eq]
      exact ⟨_, insert_at_get_eq (after + 1) _ q (by omega), hself, rfl⟩
  refine ⟨?_, hsame, hnew, hthere, ?_⟩
  · unfold queue_add
    obtain ⟨next, h1, h2, h3⟩ := hthere
    unfold queue_add at h1
    rw [h1]
    dsimp only
    rw [if_pos (by rw [h2, h3]; simp)]
  · intro hlen hex
    rw [hnew hex, ← insert_at_eq, insert_at_get_eq (after + 1) _ q (by omega),
      strncpy_eq floor _ (by omega)]

/-- C23, at the queue (5,U),(7,U): floor 6 is added once behind the first node. -/
theorem queue_add_idempotent_witness :
    queue_add [⟨['5'], UP⟩, ⟨['7'], UP⟩] 0 ['6'] UP = [⟨['5'], UP⟩, ⟨['6'], UP⟩, ⟨['7'], UP⟩]
      ∧ queue_add (queue_add [⟨['5'], UP⟩, ⟨['7'], UP⟩] 0 ['6'] UP) 0 ['6'] UP
        = [⟨['5'], UP⟩, ⟨['6'], UP⟩, ⟨['7'], UP⟩] :=
  ⟨by decide,
    (queue_add_idempotent [⟨['5'], UP⟩, ⟨['7'], UP⟩] 0 ['6'] UP (by decide)).1.trans
      (by decide)⟩

/-! ## The scheduler: absent queue nodes -/

/-- C25 fails on the code: `schedule_floors` reads through an absent queue
node.  For a car that is closing its doors with an empty ride queue, a call
from the floor of the car makes the special case for `Closing` read
`current->next` with `current` being `NULL` (the virtual node has no
successor); for a car `Between` floors whose next floor is its destination,
with an empty ride queue, no virtual node is added and `car->queue->floor` is
read with `car->queue` being `NULL`. -/
theorem schedule_floors_reads_absent_node :
    (∀ (car : Car) (source_floor destination_floor : List Char), car.queue = [] →
        car.status = "Closing".toList →
        strncmp_eq car.current_floor source_floor MAX_FLOOR_LENGTH = true →
        schedule_floors car source_floor destination_floor = none)
      ∧ schedule_floors (closing_car []) ['5'] ['7'] = none
      ∧ schedule_floors
          { car_name := ['A'], lowest_floor := ['1'], highest_floor := ['1', '0'],
            status := "Between".toList, current_floor := ['1'], destination_floor := ['2'],
            clientfd := 4, queue := [] } ['3'] ['4'] = none := by
  refine ⟨?_, by decide, by decide⟩
  intro car src dst hq hst hcur
  have hnb : strncmp_eq car.status "Between".toList MAX_STATUS_LENGTH = false := by
    rw [hst]
    decide
  have hcl : strncmp_eq car.status "Closing".toList MAX_STATUS_LENGTH = true := by
    rw [hst]
    decide
  have hv : add_virtual_node car (call_direction src dst)
      = (1, { car with queue := [⟨strncpy car.current_floor MAX_FLOOR_LENGTH,
          call_direction src dst⟩] }) := by
    unfold add_virtual_node
    rw [hnb, hq]
    rfl
  have hf : strncmp_eq (strncpy car.current_floor MAX_FLOOR_LENGTH) src MAX_FLOOR_LENGTH
      = true := by
    unfold strncmp_eq strncpy at *
    rw [decide_eq_true_eq] at hcur ⊢
    rw [List.take_take, Nat.min_self]
    exact hcur
  unfold schedule_floors
  dsimp only
  rw [hv]
  dsimp only
  unfold seek_start
  dsimp only
  rw [hf, hcl]
  simp

/-! ## The virtual head of the ride queue -/

theorem set_next_floor_valid (f : List Char) (d : Direction) (hf : is_valid_floor f = true) :
    is_valid_floor (set_next_floor f d) = true := by
  have hinc : is_valid_floor (increment_floor f) = true := by
    rcases valid_floor_cases f hf with ⟨n, n1, n2, rfl⟩ | ⟨n, n1, n2, rfl⟩
    · rw [(step_table n (by omega) n1).1]
      exact (digits_facts _ (by split_ifs <;> omega) (by split_ifs <;> omega)).2.2.1
    · exact (increment_successor_basement n n1 n2).1
  have hdec : is_valid_floor (decrement_floor f) = true := by
    rcases valid_floor_cases f hf with ⟨n, n1, n2, rfl⟩ | ⟨n, n1, n2, rfl⟩
    · exact (decrement_predecessor_above n n1 n2).1
    · rw [((step_table n (by omega) n1).2.2 (by omega)).2]
      exact (digits_facts _ (by split_ifs <;> omega) (by split_ifs <;> omega)).2.2.2
        (by split_ifs <;> omega)
  unfold set_next_floor
  split_ifs
  · exact hinc
  · exact hdec

theorem status_between_iff (s : List Char) :
    strncmp_eq s "Between".toList MAX_STATUS_LENGTH = true ↔ s = "Between".toList :=
  strncmp_eq_literal s _ _ (by decide)

theorem valid_floor_fits (f : List Char) (hf : is_valid_floor f = true) :
    f.length ≤ MAX_FLOOR_LENGTH := by
  have := valid_floor_length f hf
  unfold MAX_FLOOR_LENGTH
  omega

/-- C26: `add_virtual_node` on a car record with valid floors.  With the status
`Between` the motion direction is U when the current floor is at or below the
destination and D otherwise; nothing is prepended and 0 is returned when
`set_next_floor(current_floor, motion direction)` is the destination, and else
that floor is prepended with the motion direction.  With every other status the
current floor is prepended, with the direction of the call when the queue is
empty, with the direction of the first entry when its floor is the current
floor, and else with U or D according to whether the first entry is above the
current floor or below it. -/
theorem add_virtual_node_spec (car : Car) (direction : Direction)
    (hcur : is_valid_floor car.current_floor = true)
    (hdest : is_valid_floor car.destination_floor = true)
    (hq : ∀ n ∈ car.queue, n.floor.length ≤ MAX_FLOOR_LENGTH) :
    (car.status = "Between".toList →
      (set_next_floor car.current_floor
            (if are_consecutive_floors car.current_floor car.destination_floor then UP
              else DOWN) = car.destination_floor →
          add_virtual_node car direction = (0, car))
        ∧ (set_next_floor car.current_floor
            (if are_consecutive_floors car.current_floor car.destination_floor then UP
              else DOWN) ≠ car.destination_floor →
          add_virtual_node car direction
            = (1, { car with queue :=
                ⟨set_next_floor car.current_floor
                    (if are_consecutive_floors car.current_floor car.destination_floor
                      then UP else DOWN),
                  if are_consecutive_floors car.current_floor car.destination_floor then UP
                    else DOWN⟩ :: car.queue })))
    ∧ (car.status ≠ "Between".toList →
      (car.queue = [] →
          add_virtual_node car direction
            = (1, { car with queue := [⟨car.current_floor, direction⟩] }))
        ∧ (∀ first rest, car.queue = first :: rest →
            (first.floor = car.current_floor →
              add_virtual_node car direction
                = (1, { car with queue := ⟨car.current_floor, first.direction⟩ :: car.queue }))
            ∧ (first.floor ≠ car.current_floor →
              are_consecutive_floors car.current_floor first.floor = true →
              add_virtual_node car direction
                = (1, { car with queue := ⟨car.current_floor, UP⟩ :: car.queue }))
            ∧ (first.floor ≠ car.current_floor →
              are_consecutive_floors car.current_floor first.floor = false →
              add_virtual_node car direction
                = (1, { car with queue := ⟨car.current_floor, DOWN⟩ :: car.queue })))) := by
  have hc4 := valid_floor_fits _ hcur
  have hd4 := valid_floor_fits _ hdest
  have hcpy : strncpy car.current_floor MAX_FLOOR_LENGTH = car.current_floor :=
    strncpy_eq _ _ hc4
  constructor
  · intro hst
    have hb : strncmp_eq car.status "Between".toList MAX_STATUS_LENGTH = true :=
      (status_between_iff _).mpr hst
    have hn4 := valid_floor_fits _ (set_next_floor_valid car.current_floor
      (if are_consecutive_floors car.current_floor car.destination_floor then UP else DOWN)
      hcur)
    constructor
    · intro he
      unfold add_virtual_node
      rw [if_pos hb]
      dsimp only
      rw [hcpy, if_pos ((strncmp_eq_iff _ _ _ hn4 hd4).mpr he)]
    · intro hne
      unfold add_virtual_node
      rw [if_pos hb]
      dsimp only
      rw [hcpy, if_neg (fun hc => hne ((strncmp_eq_iff _ _ _ hn4 hd4).mp hc))]
      unfold queue_push_front
      rw [strncpy_eq _ _ hn4]
  · intro hst
    have hb : ¬ strncmp_eq car.status "Between".toList MAX_STATUS_LENGTH = true :=
      fun hc => hst ((status_between_iff _).mp hc)
    constructor
    · intro hempty
      unfold add_virtual_node
      rw [if_neg hb]
      dsimp only
      rw [hempty]
      unfold queue_push_front
      rw [hcpy]
    · intro first rest hfr
      have hf4 : first.floor.length ≤ MAX_FLOOR_LENGTH :=
        hq first (by rw [hfr]; exact List.mem_cons_self _ _)
      have hiff := strncmp_eq_iff car.current_floor first.floor MAX_FLOOR_LENGTH hc4 hf4
      refine ⟨?_, ?_, ?_⟩
      · intro he
        unfold add_virtual_node
        rw [if_neg hb]
        dsimp only
        rw [hfr]
        dsimp only
        rw [if_pos (hiff.mpr he.symm)]
        unfold queue_push_front
        rw [hcpy]
      · intro hne hacf
        unfold add_virtual_node
        rw [if_neg hb]
        dsimp only
        rw [hfr]
        dsimp only
        rw [if_neg (fun hc => hne (hiff.mp hc).symm), if_pos hacf]
        unfold queue_push_front
        rw [hcpy]
      · intro hne hacf
        unfold add_virtual_node
        rw [if_neg hb]
        dsimp only
        rw [hfr]
        dsimp only
        rw [if_neg (fun hc => hne (hiff.mp hc).symm), if_neg (by rw [hacf]; decide)]
        unfold queue_push_front
        rw [hcpy]

/-- C26, at a car between floors 2 and 5 with the queue (5,U), and at a car
standing at floor 5 with the queue (3,D). -/
theorem add_virtual_node_spec_witness :
    add_virtual_node
        { car_name := ['A'], lowest_floor := ['1'], highest_floor := ['1', '0'],
          status := "Between".toList, current_floor := ['2'], destination_floor := ['5'],
          clientfd := 4, queue := [⟨['5'], UP⟩] } DOWN
      = (1,
        { car_name := ['A'], lowest_floor := ['1'], highest_floor := ['1', '0'],
          status := "Between".toList, current_floor := ['2'], destination_floor := ['5'],
          clientfd := 4, queue := [⟨['3'], UP⟩, ⟨['5'], UP⟩] })
    ∧ add_virtual_node (closing_car [⟨['3'], DOWN⟩]) UP
      = (1, closing_car [⟨['5'], DOWN⟩, ⟨['3'], DOWN⟩]) :=
  ⟨(((add_virtual_node_spec
        { car_name := ['A'], lowest_floor := ['1'], highest_floor := ['1', '0'],
          status := "Between".toList, current_floor := ['2'], destination_floor := ['5'],
          clientfd := 4, queue := [⟨['5'], UP⟩] } DOWN (by decide) (by decide)
        (by decide)).1 rfl).2 (by decide)).trans (by decide),
    ((((add_virtual_node_spec (closing_car [⟨['3'], DOWN⟩]) UP (by decide) (by decide)
        (by decide)).2 (by decide)).2 ⟨['3'], DOWN⟩ [] rfl).2.2 (by decide) (by decide)).trans
      (by decide)⟩

/-! ## The door sequences -/

theorem wait_delay_expires (button : car_shared_mem → Nat) (st : CarThread)
    (henv : every_wait_expires st.env) :
    wait_delay button st = ({ st with env := st.env.tail }, false) := by
  unfold wait_delay
  cases he : st.env with
  | nil =>
    unfold wait_delay_loop set_shm
    dsimp only [List.tail_nil]
  | cons i rest =>
    obtain ⟨h1, h2⟩ := henv i (by rw [he]; exact List.mem_cons_self _ _)
    unfold wait_delay_loop set_shm
    rw [if_pos h1, h2]
    rfl

theorem every_wait_expires_tail (env : List Interference) (h : every_wait_expires env) :
    every_wait_expires env.tail :=
  fun i hi => h i (List.mem_of_mem_tail hi)

theorem close_doors_run (n : Nat) (st : CarThread) (henv : every_wait_expires st.env)
    (hst : st.car_info.shm.status = "Open".toList ∨ st.car_info.shm.status = "Opening".toList) :
    close_doors (n + 2) st
      = .returned (pthread_cond_broadcast (strcpy_status "Closed".toList
          { pthread_cond_broadcast (strcpy_status "Closing".toList st) with
            env := st.env.tail })) := by
  have h1 : st.car_info.shm.status ≠ "Closed".toList := by
    rcases hst with h | h <;> rw [h] <;> decide
  rw [close_doors, if_pos h1, if_pos hst,
    wait_delay_expires _ _ (by exact henv)]
  dsimp only
  rw [if_neg (by decide), if_pos (by rfl), close_doors, if_neg (by
    intro hc
    exact hc rfl)]
  rfl

theorem open_doors_head (n : Nat) (st : CarThread) (henv : every_wait_expires st.env)
    (hst : st.car_info.shm.status = "Closed".toList
      ∨ st.car_info.shm.status = "Closing".toList) :
    open_doors (n + 1) st
      = open_doors n (pthread_cond_broadcast (strcpy_status "Open".toList
          { pthread_cond_broadcast (strcpy_status "Opening".toList st) with
            env := st.env.tail })) := by
  have h1 : st.car_info.shm.status ≠ "Open".toList := by
    rcases hst with h | h <;> rw [h] <;> decide
  rw [open_doors, if_pos h1, if_pos hst, wait_delay_expires _ _ (by exact henv)]
  dsimp only
  rw [if_neg (by decide), if_pos (by rfl)]
  rfl

theorem open_doors_tail_override (n : Nat) (st : CarThread)
    (hst : st.car_info.shm.status = "Open".toList)
    (hmode : ¬ (st.car_info.shm.individual_service_mode = 0
      ∧ st.car_info.shm.emergency_mode = 0)) :
    open_doors (n + 1) st = .returned st := by
  rw [open_doors, if_neg (fun hc => hc hst), if_neg hmode]
  dsimp only
  rw [if_neg (by decide), if_neg (fun hc => hmode ⟨hc.1, hc.2.1⟩)]

theorem open_doors_tail (n : Nat) (st : CarThread) (henv : every_wait_expires st.env)
    (hst : st.car_info.shm.status = "Open".toList)
    (hmode : st.car_info.shm.individual_service_mode = 0
      ∧ st.car_info.shm.emergency_mode = 0) :
    open_doors (n + 1) st = close_doors n { st with env := st.env.tail } := by
  rw [open_doors, if_neg (fun hc => hc hst), if_pos hmode, wait_delay_expires _ _ henv]
  dsimp only
  rw [if_neg (by decide), if_pos ⟨hmode.1, hmode.2, hst⟩]

theorem open_doors_run_override (n : Nat) (st : CarThread)
    (henv : every_wait_expires st.env)
    (hst : st.car_info.shm.status = "Closed".toList
      ∨ st.car_info.shm.status = "Closing".toList)
    (hmode : ¬ (st.car_info.shm.individual_service_mode = 0
      ∧ st.car_info.shm.emergency_mode = 0)) :
    open_doors (n + 2) st
      = .returned (pthread_cond_broadcast (strcpy_status "Open".toList
          { pthread_cond_broadcast (strcpy_status "Opening".toList st) with
            env := st.env.tail })) := by
  rw [open_doors_head (n + 1) st henv hst]
  refine open_doors_tail_override n _ ?_ ?_
  · rfl
  · exact hmode

theorem open_doors_run (n : Nat) (st : CarThread) (henv : every_wait_expires st.env)
    (hst : st.car_info.shm.status = "Closed".toList
      ∨ st.car_info.shm.status = "Closing".toList)
    (hmode : st.car_info.shm.individual_service_mode = 0
      ∧ st.car_info.shm.emergency_mode = 0) :
    open_doors (n + 4) st
      = .returned (pthread_cond_broadcast (strcpy_status "Closed".toList
          { pthread_cond_broadcast (strcpy_status "Closing".toList
              { pthread_cond_broadcast (strcpy_status "Open".toList
                  { pthread_cond_broadcast (strcpy_status "Opening".toList st) with
                    env := st.env.tail }) with
                env := st.env.tail.tail }) with
            env := st.env.tail.tail.tail })) := by
  have e1 := every_wait_expires_tail _ henv
  have e2 := every_wait_expires_tail _ e1
  rw [open_doors_head (n + 3) st henv hst]
  refine (open_doors_tail (n + 2) _ ?_ ?_ ?_).trans ?_
  · exact e1
  · rfl
  · exact hmode
  · refine close_doors_run n _ ?_ ?_
    · exact e2
    · exact Or.inl rfl

/-- C30: with every timed wait running into its timeout and nothing else
writing to the shared memory, `open_doors` called with the status `Closed` or
`Closing` returns (four evaluations of a loop condition are enough): with
`individual_service_mode` and `emergency_mode` both 0 it broadcasts the
statuses `Opening`, `Open`, `Closing`, `Closed` in this order and leaves the
status `Closed`; otherwise it broadcasts `Opening`, `Open` and leaves the
status `Open`.  `close_doors` called with the status `Open` or `Opening`
returns having broadcast `Closing`, `Closed`, and leaves the status `Closed`.
Nothing but the status is changed. -/
theorem doors_sequence (fuel : Nat) (st : CarThread) (henv : every_wait_expires st.env) :
    (st.car_info.shm.status = "Closed".toList ∨ st.car_info.shm.status = "Closing".toList →
      st.car_info.shm.individual_service_mode = 0 ∧ st.car_info.shm.emergency_mode = 0 →
      4 ≤ fuel →
      ∃ r, open_doors fuel st = .returned r
        ∧ r.car_info.shm = { st.car_info.shm with status := "Closed".toList }
        ∧ r.broadcasts = st.broadcasts
            ++ [{ st.car_info.shm with status := "Opening".toList },
                { st.car_info.shm with status := "Open".toList },
                { st.car_info.shm with status := "Closing".toList },
                { st.car_info.shm with status := "Closed".toList }])
    ∧ (st.car_info.shm.status = "Closed".toList ∨ st.car_info.shm.status = "Closing".toList →
      ¬ (st.car_info.shm.individual_service_mode = 0 ∧ st.car_info.shm.emergency_mode = 0) →
      2 ≤ fuel →
      ∃ r, open_doors fuel st = .returned r
        ∧ r.car_info.shm = { st.car_info.shm with status := "Open".toList }
        ∧ r.broadcasts = st.broadcasts
            ++ [{ st.car_info.shm with status := "Opening".toList },
                { st.car_info.shm with status := "Open".toList }])
    ∧ (st.car_info.shm.status = "Open".toList ∨ st.car_info.shm.status = "Opening".toList →
      2 ≤ fuel →
      ∃ r, close_doors fuel st = .returned r
        ∧ r.car_info.shm = { st.car_info.shm with status := "Closed".toList }
        ∧ r.broadcasts = st.broadcasts
            ++ [{ st.car_info.shm with status := "Closing".toList },
                { st.car_info.shm with status := "Closed".toList }]) := by
  refine ⟨?_, ?_, ?_⟩
  · intro hst hmode hfuel
    obtain ⟨n, rfl⟩ : ∃ n, fuel = n + 4 := ⟨fuel - 4, by omega⟩
    refine ⟨_, open_doors_run n st henv hst hmode, rfl, ?_⟩
    simp [pthread_cond_broadcast, strcpy_status, set_shm]
  · intro hst hmode hfuel
    obtain ⟨n, rfl⟩ : ∃ n, fuel = n + 2 := ⟨fuel - 2, by omega⟩
    refine ⟨_, open_doors_run_override n st henv hst hmode, rfl, ?_⟩
    simp [pthread_cond_broadcast, strcpy_status, set_shm]
  · intro hst hfuel
    obtain ⟨n, rfl⟩ : ∃ n, fuel = n + 2 := ⟨fuel - 2, by omega⟩
    refine ⟨_, close_doors_run n st henv hst, rfl, ?_⟩
    simp [pthread_cond_broadcast, strcpy_status, set_shm]

/-- C30, at a car standing at floor 1 with closed doors in neither mode, in a
quiet environment: the four statuses of the door cycle are broadcast. -/
theorem doors_sequence_witness :
    (open_doors 4 (idle_thread ['1'] ['1'] 0 0)).state.broadcasts.map (fun b => b.status)
        = ["Opening".toList, "Open".toList, "Closing".toList, "Closed".toList]
      ∧ (open_doors 4 (idle_thread ['1'] ['1'] 0 0)).state.car_info.shm.status
        = "Closed".toList := by
  obtain ⟨r, h1, h2, h3⟩ := (doors_sequence 4 (idle_thread ['1'] ['1'] 0 0)
    (fun i hi => absurd hi (List.not_mem_nil i))).1 (Or.inl rfl) ⟨rfl, rfl⟩ (le_refl 4)
  rw [h1]
  exact ⟨by rw [show (Outcome.returned r).state = r from rfl, h3]; rfl,
    by rw [show (Outcome.returned r).state = r from rfl, h2]⟩

/-! ## The positions of the floors -/

theorem floor_label_above (r : Int) (h1 : 1 ≤ r) : floor_label r = above_ground r.toNat := by
  unfold floor_label
  rw [if_pos h1]

theorem floor_label_basement (r : Int) (h1 : r ≤ 0) :
    floor_label r = basement (1 - r).toNat := by
  unfold floor_label
  rw [if_neg (by omega)]

theorem floor_number_above (n : Nat) (n1 : 1 ≤ n) (n2 : n ≤ 999) :
    floor_number (above_ground n) = n := by
  obtain ⟨a1, a2, -, -⟩ := digits_facts n (by omega) n1
  unfold floor_number
  rw [if_neg a2, a1]

theorem floor_number_basement (n : Nat) (n1 : 1 ≤ n) (n2 : n ≤ 99) :
    floor_number (basement n) = 1 - (n : Int) := by
  obtain ⟨a1, -, -, -⟩ := digits_facts n (by omega) n1
  unfold floor_number
  have hB : char_at (basement n) 0 = 'B' := by simp [basement, char_at]
  rw [if_pos hB]
  unfold above_ground at a1
  simp only [basement, List.drop_succ_cons, List.drop_zero]
  rw [a1]

theorem floor_number_label (r : Int) (h1 : -98 ≤ r) (h2 : r ≤ 999) :
    floor_number (floor_label r) = r ∧ is_valid_floor (floor_label r) = true := by
  by_cases h : 1 ≤ r
  · rw [floor_label_above r h]
    refine ⟨?_, (digits_facts r.toNat (by omega) (by omega)).2.2.1⟩
    rw [floor_number_above _ (by omega) (by omega)]
    omega
  · rw [floor_label_basement r (by omega)]
    refine ⟨?_, (digits_facts (1 - r).toNat (by omega) (by omega)).2.2.2 (by omega)⟩
    rw [floor_number_basement _ (by omega) (by omega)]
    omega

theorem floor_label_number (f : List Char) (hf : is_valid_floor f = true) :
    floor_label (floor_number f) = f ∧ -98 ≤ floor_number f ∧ floor_number f ≤ 999 := by
  rcases valid_floor_cases f hf with ⟨n, n1, n2, rfl⟩ | ⟨n, n1, n2, rfl⟩
  · rw [floor_number_above n n1 n2, floor_label_above _ (by omega)]
    refine ⟨?_, by omega, by omega⟩
    rw [Int.toNat_ofNat]
  · rw [floor_number_basement n n1 n2, floor_label_basement _ (by omega)]
    refine ⟨?_, by omega, by omega⟩
    congr 1
    omega

theorem floor_label_inj (a b : Int) (a1 : -98 ≤ a) (a2 : a ≤ 999) (b1 : -98 ≤ b)
    (b2 : b ≤ 999) (h : floor_label a = floor_label b) : a = b := by
  rw [← (floor_number_label a a1 a2).1, ← (floor_number_label b b1 b2).1, h]

theorem floor_label_up (r : Int) (h1 : -98 ≤ r) (h2 : r + 1 ≤ 999) :
    set_next_floor (floor_label r) UP = floor_label (r + 1) := by
  unfold set_next_floor
  rw [if_pos rfl]
  by_cases h : 1 ≤ r
  · rw [floor_label_above r h, floor_label_above (r + 1) (by omega),
      (step_table r.toNat (by omega) (by omega)).1, if_neg (by omega)]
    congr 1
    omega
  · rw [floor_label_basement r (by omega),
      ((step_table (1 - r).toNat (by omega) (by omega)).2.2 (by omega)).1]
    by_cases h0 : r = 0
    · subst h0
      rfl
    · rw [if_neg (by omega), floor_label_basement (r + 1) (by omega)]
      congr 1
      omega

theorem floor_label_down (r : Int) (h1 : -98 ≤ r - 1) (h2 : r ≤ 999) :
    set_next_floor (floor_label r) DOWN = floor_label (r - 1) := by
  unfold set_next_floor
  rw [if_neg (by decide)]
  by_cases h : 1 ≤ r
  · rw [floor_label_above r h, (step_table r.toNat (by omega) (by omega)).2.1]
    by_cases h0 : r = 1
    · subst h0
      rfl
    · rw [if_neg (by omega), floor_label_above (r - 1) (by omega)]
      congr 1
      omega
  · rw [floor_label_basement r (by omega), floor_label_basement (r - 1) (by omega),
      ((step_table (1 - r).toNat (by omega) (by omega)).2.2 (by omega)).2, if_neg (by omega)]
    congr 1
    omega

theorem acf_floor_label (a b : Int) (a1 : -98 ≤ a) (a2 : a ≤ 999) (b1 : -98 ≤ b)
    (b2 : b ≤ 999) :
    are_consecutive_floors (floor_label a) (floor_label b) = true ↔ a ≤ b := by
  by_cases ha : 1 ≤ a <;> by_cases hb : 1 ≤ b
  · rw [floor_label_above a ha, floor_label_above b hb,
      acf_above _ _ (by omega) (by omega) (by omega) (by omega)]
    omega
  · rw [floor_label_above a ha, floor_label_basement b (by omega),
      (acf_basement_above _ _ (by omega) (by omega)).2]
    constructor
    · intro h
      exact absurd h (by decide)
    · intro h
      omega
  · rw [floor_label_basement a (by omega), floor_label_above b hb,
      (acf_basement_above _ _ (by omega) (by omega)).1]
    constructor
    · intro _
      omega
    · intro _
      rfl
  · rw [floor_label_basement a (by omega), floor_label_basement b (by omega),
      acf_basement _ _ (by omega) (by omega) (by omega) (by omega)]
    omega

/-! ## The motion of the car -/

theorem release_mutex_quiet (st : CarThread) (henv : no_other_writer st.env) :
    (release_mutex st).1 = { st with env := st.env.tail } := by
  unfold release_mutex
  cases he : st.env with
  | nil =>
    dsimp only [List.tail_nil]
    rw [← he]
  | cons i rest =>
    have h := henv i (by rw [he]; exact List.mem_cons_self _ _)
    unfold set_shm
    dsimp only
    rw [h]
    rfl

theorem no_other_writer_tail (env : List Interference) (h : no_other_writer env) :
    no_other_writer env.tail :=
  fun i hi => h i (List.mem_of_mem_tail hi)

theorem move_car_loop_run (d : Direction) (σ : Int)
    (hσ : (d = UP ∧ σ = 1) ∨ (d = DOWN ∧ σ = -1)) :
    ∀ (k n : Nat) (st : CarThread) (r : Int),
      st.car_info.shm.current_floor = floor_label r →
      st.car_info.shm.destination_floor = floor_label (r + σ * k) →
      -98 ≤ r → r ≤ 999 → -98 ≤ r + σ * k → r + σ * k ≤ 999 →
      no_other_writer st.env →
      ∃ res, move_car_loop d (k + n) st = .returned res
        ∧ res.car_info.shm
          = (if k = 0 then st.car_info.shm
            else shm_at st.car_info.shm (floor_label (r + σ * k)) "Between".toList)
        ∧ res.broadcasts = st.broadcasts
            ++ (List.range k).map fun (j : Nat) =>
                shm_at st.car_info.shm (floor_label (r + σ * (j : Int))) "Between".toList := by
  intro k
  induction k with
  | zero =>
    intro n st r hc hd _ _ _ _ _
    have he : st.car_info.shm.current_floor = st.car_info.shm.destination_floor := by
      rw [hc, hd]
      simp
    refine ⟨st, ?_, rfl, by simp⟩
    cases n with
    | zero =>
      unfold move_car_loop
      rw [if_neg (fun h => h he)]
    | succ m =>
      rw [Nat.zero_add]
      unfold move_car_loop
      rw [if_neg (fun h => h he)]
  | succ k ih =>
    intro n st r hc hd r1 r2 d1 d2 henv
    have hσ1 : σ = 1 ∨ σ = -1 := by
      rcases hσ with h | h
      · exact Or.inl h.2
      · exact Or.inr h.2
    have hne : st.car_info.shm.current_floor ≠ st.car_info.shm.destination_floor := by
      rw [hc, hd]
      intro h
      have := floor_label_inj _ _ r1 r2 d1 d2 h
      rcases hσ1 with h1 | h1 <;> rw [h1] at this <;> push_cast at this <;> omega
    have hm1 : -98 ≤ r + σ ∧ r + σ ≤ 999 := by
      rcases hσ1 with h1 | h1 <;> rw [h1] at d1 d2 ⊢ <;> push_cast at d1 d2 <;> omega
    have hstep : set_next_floor (floor_label r) d = floor_label (r + σ) := by
      rcases hσ with ⟨h1, h2⟩ | ⟨h1, h2⟩
      · rw [h1, h2]
        rw [h2] at hm1
        exact floor_label_up r r1 hm1.2
      · rw [h1, h2]
        rw [h2] at hm1
        exact floor_label_down r hm1.1 r2
    have hfuel : k + 1 + n = (k + n) + 1 := by omega
    rw [hfuel]
    unfold move_car_loop
    rw [if_pos hne]
    dsimp only
    rw [release_mutex_quiet _ (by exact henv)]
    obtain ⟨res, e1, e2, e3⟩ := ih n
      (set_shm { pthread_cond_broadcast (strcpy_status "Between".toList st) with
          env := st.env.tail }
        { ({ pthread_cond_broadcast (strcpy_status "Between".toList st) with
              env := st.env.tail } : CarThread).car_info.shm with
          current_floor := set_next_floor
            ({ pthread_cond_broadcast (strcpy_status "Between".toList st) with
              env := st.env.tail } : CarThread).car_info.shm.current_floor d })
      (r + σ)
      (by
        show set_next_floor st.car_info.shm.current_floor d = floor_label (r + σ)
        rw [hc, hstep])
      (by
        show st.car_info.shm.destination_floor = floor_label (r + σ + σ * k)
        rw [hd]
        congr 1
        push_cast
        ring)
      hm1.1 hm1.2
      (by
        have : r + σ + σ * (k : Int) = r + σ * ((k + 1 : Nat) : Int) := by
          push_cast
          ring
        omega)
      (by
        have : r + σ + σ * (k : Int) = r + σ * ((k + 1 : Nat) : Int) := by
          push_cast
          ring
        omega)
      (no_other_writer_tail _ henv)
    refine ⟨res, e1, ?_, ?_⟩
    · rw [e2, if_neg (Nat.succ_ne_zero k)]
      have hind : r + σ + σ * (k : Int) = r + σ * ((k + 1 : Nat) : Int) := by
        push_cast
        ring
      rw [hind]
      by_cases hk : k = 0
      · rw [if_pos hk]
        subst hk
        show shm_at st.car_info.shm (set_next_floor st.car_info.shm.current_floor d)
          "Between".toList = _
        rw [hc, hstep]
        congr 2
        push_cast
        ring
      · rw [if_neg hk]
        rfl
    · rw [e3, List.range_succ_eq_map, List.map_cons, List.map_map]
      show st.broadcasts ++ [shm_at st.car_info.shm st.car_info.shm.current_floor
          "Between".toList] ++ _ = _
      rw [hc, List.append_assoc]
      congr 1
      rw [List.singleton_append]
      congr 1
      · congr 2
        simp
      · apply List.map_congr_left
        intro j _
        show shm_at st.car_info.shm (floor_label (r + σ + σ * (j : Int))) "Between".toList
          = shm_at st.car_info.shm (floor_label (r + σ * ((j + 1 : Nat) : Int)))
            "Between".toList
        congr 2
        push_cast
        ring

theorem move_car_run (st : CarThread) (d : Direction) (σ : Int)
    (hσ : (d = UP ∧ σ = 1) ∨ (d = DOWN ∧ σ = -1)) (k n : Nat) (r : Int)
    (hc : st.car_info.shm.current_floor = floor_label r)
    (hd : st.car_info.shm.destination_floor = floor_label (r + σ * k))
    (r1 : -98 ≤ r) (r2 : r ≤ 999) (d1 : -98 ≤ r + σ * k) (d2 : r + σ * k ≤ 999)
    (henv : no_other_writer st.env)
    (hdir : (if are_consecutive_floors st.car_info.shm.current_floor
        st.car_info.shm.destination_floor then UP else DOWN) = d)
    (hbounds : is_floor_within_bounds st.car_info.shm.destination_floor
      st.car_info.lowest_floor st.car_info.highest_floor = true) :
    ∃ res, move_car (k + n) st = .returned res
      ∧ res.car_info.shm
        = { st.car_info.shm with
            current_floor := st.car_info.shm.destination_floor
            status := "Closed".toList
            open_button := 0
            close_button := 0 }
      ∧ res.broadcasts = st.broadcasts
          ++ ((List.range k).map fun (j : Nat) =>
              shm_at st.car_info.shm (floor_label (r + σ * (j : Int))) "Between".toList)
          ++ [{ st.car_info.shm with
                current_floor := st.car_info.shm.destination_floor
                status := "Closed".toList
                open_button := 0
                close_button := 0 }] := by
  obtain ⟨res, e1, e2, e3⟩ := move_car_loop_run d σ hσ k n st r hc hd r1 r2 d1 d2 henv
  have hshm : ({ res.car_info.shm with
        open_button := 0
        close_button := 0
        status := "Closed".toList } : car_shared_mem)
      = { st.car_info.shm with
          current_floor := st.car_info.shm.destination_floor
          status := "Closed".toList
          open_button := 0
          close_button := 0 } := by
    rw [e2]
    by_cases hk : k = 0
    · rw [if_pos hk]
      have : st.car_info.shm.current_floor = st.car_info.shm.destination_floor := by
        rw [hc, hd, hk]
        simp
      rw [← this]
    · rw [if_neg hk, hd]
      rfl
  unfold move_car
  rw [if_neg (by rw [hbounds]; decide), hdir, e1]
  refine ⟨_, rfl, ?_, ?_⟩
  · exact hshm
  · show res.broadcasts ++ [({ res.car_info.shm with
        open_button := 0
        close_button := 0
        status := "Closed".toList } : car_shared_mem)] = _
    rw [hshm, e3]

/-- C29: with valid current and destination floors, the destination within the
range of the car, and nothing else writing to the shared memory, `move_car`
returns after as many passes of its loop as there are floors from the current
floor to the destination: it broadcasts the status `Between` once at each of
the floors from the current one up to (or down to) the one before the
destination, in their order and leaving none out, and then the status `Closed`
at the destination, with both door buttons cleared; nothing else is changed. -/
theorem move_car_arrives (fuel : Nat) (st : CarThread)
    (hcur : is_valid_floor st.car_info.shm.current_floor = true)
    (hdest : is_valid_floor st.car_info.shm.destination_floor = true)
    (hbounds : is_floor_within_bounds st.car_info.shm.destination_floor
      st.car_info.lowest_floor st.car_info.highest_floor = true)
    (henv : no_other_writer st.env)
    (hfuel : (floor_number st.car_info.shm.destination_floor
      - floor_number st.car_info.shm.current_floor).natAbs ≤ fuel) :
    ∃ res, move_car fuel st = .returned res
      ∧ res.car_info.shm
        = { st.car_info.shm with
            current_floor := st.car_info.shm.destination_floor
            status := "Closed".toList
            open_button := 0
            close_button := 0 }
      ∧ res.broadcasts = st.broadcasts
          ++ ((List.range (floor_number st.car_info.shm.destination_floor
                - floor_number st.car_info.shm.current_floor).natAbs).map fun (j : Nat) =>
              shm_at st.car_info.shm
                (floor_label
                  (if are_consecutive_floors st.car_info.shm.current_floor
                      st.car_info.shm.destination_floor
                    then floor_number st.car_info.shm.current_floor + (j : Int)
                    else floor_number st.car_info.shm.current_floor - (j : Int)))
                "Between".toList)
          ++ [{ st.car_info.shm with
                current_floor := st.car_info.shm.destination_floor
                status := "Closed".toList
                open_button := 0
                close_button := 0 }] := by
  obtain ⟨lc, c1, c2⟩ := floor_label_number _ hcur
  obtain ⟨ld, b1, b2⟩ := floor_label_number _ hdest
  have hacf := acf_floor_label _ _ c1 c2 b1 b2
  rw [lc, ld] at hacf
  by_cases hup : are_consecutive_floors st.car_info.shm.current_floor
      st.car_info.shm.destination_floor = true
  · have hle := hacf.mp hup
    obtain ⟨n, hn⟩ : ∃ n, fuel = (floor_number st.car_info.shm.destination_floor
        - floor_number st.car_info.shm.current_floor).natAbs + n :=
      ⟨fuel - (floor_number st.car_info.shm.destination_floor
        - floor_number st.car_info.shm.current_floor).natAbs, by omega⟩
    have hk : floor_number st.car_info.shm.current_floor
        + 1 * (((floor_number st.car_info.shm.destination_floor
          - floor_number st.car_info.shm.current_floor).natAbs : Nat) : Int)
        = floor_number st.car_info.shm.destination_floor := by omega
    obtain ⟨res, e1, e2, e3⟩ := move_car_run st UP 1 (Or.inl ⟨rfl, rfl⟩) _ n _ lc.symm
      (by rw [hk]; exact ld.symm) c1 c2 (by rw [hk]; exact b1) (by rw [hk]; exact b2) henv
      (by rw [if_pos hup]) hbounds
    refine ⟨res, by rw [hn]; exact e1, e2, ?_⟩
    rw [e3]
    congr 2
    apply List.map_congr_left
    intro j _
    rw [if_pos hup, one_mul]
  · have hlt : floor_number st.car_info.shm.destination_floor
        < floor_number st.car_info.shm.current_floor := by
      by_contra hc
      exact hup (hacf.mpr (by omega))
    obtain ⟨n, hn⟩ : ∃ n, fuel = (floor_number st.car_info.shm.destination_floor
        - floor_number st.car_info.shm.current_floor).natAbs + n :=
      ⟨fuel - (floor_number st.car_info.shm.destination_floor
        - floor_number st.car_info.shm.current_floor).natAbs, by omega⟩
    have hk : floor_number st.car_info.shm.current_floor
        + -1 * (((floor_number st.car_info.shm.destination_floor
          - floor_number st.car_info.shm.current_floor).natAbs : Nat) : Int)
        = floor_number st.car_info.shm.destination_floor := by omega
    obtain ⟨res, e1, e2, e3⟩ := move_car_run st DOWN (-1) (Or.inr ⟨rfl, rfl⟩) _ n _ lc.symm
      (by rw [hk]; exact ld.symm) c1 c2 (by rw [hk]; exact b1) (by rw [hk]; exact b2) henv
      (by rw [if_neg hup]) hbounds
    refine ⟨res, by rw [hn]; exact e1, e2, ?_⟩
    rw [e3]
    congr 2
    apply List.map_congr_left
    intro j _
    rw [if_neg hup]
    congr 2
    ring

/-- C29, at a car of range 1..9 that moves from floor 1 to floor 5: the status
`Between` is broadcast at the floors 1, 2, 3, 4 and then `Closed` at floor 5. -/
theorem move_car_arrives_witness :
    (move_car 4 (idle_thread ['1'] ['5'] 0 0)).state.broadcasts.map
        (fun b => (b.status, b.current_floor))
      = [("Between".toList, ['1']), ("Between".toList, ['2']), ("Between".toList, ['3']),
          ("Between".toList, ['4']), ("Closed".toList, ['5'])]
    ∧ ∃ res, move_car 4 (idle_thread ['1'] ['5'] 0 0) = .returned res
        ∧ res.car_info.shm = ⟨['5'], ['5'], "Closed".toList, 0, 0, 0, 0, 0, 0, 0⟩ := by
  obtain ⟨res, h1, h2, _⟩ := move_car_arrives 4 (idle_thread ['1'] ['5'] 0 0) (by decide)
    (by decide) (by decide) (fun i hi => absurd hi (List.not_mem_nil i)) (by decide)
  exact ⟨by decide, res, h1, h2⟩

/-! ## Removing a car from the registry -/

theorem cv_shift_length : ∀ (n i : Nat) (data : List CarRef),
    (cv_shift n i data).length = data.length := by
  intro n
  induction n with
  | zero =>
    intro i data
    rfl
  | succ n ih =>
    intro i data
    unfold cv_shift
    cases h : data.get? (i + 1) with
    | none => rfl
    | some next =>
      dsimp only
      rw [ih, List.length_set]

theorem cv_shift_get : ∀ (n i : Nat) (data : List CarRef), i + n < data.length →
    ∀ j, (cv_shift n i data)[j]? = if i ≤ j ∧ j < i + n then data[j + 1]? else data[j]? := by
  intro n
  induction n with
  | zero =>
    intro i data _ j
    rw [if_neg (by omega)]
    rfl
  | succ n ih =>
    intro i data hlen j
    have hb : i + 1 < data.length := by omega
    have hnext : data.get? (i + 1) = some data[i + 1] := by
      rw [List.get?_eq_getElem?, List.getElem?_eq_getElem]
    unfold cv_shift
    rw [hnext]
    dsimp only
    rw [ih (i + 1) _ (by rw [List.length_set]; omega) j]
    by_cases h1 : i + 1 ≤ j ∧ j < i + 1 + n
    · rw [if_pos h1, if_pos (by omega), List.getElem?_set_ne (by omega)]
    · rw [if_neg h1]
      by_cases h2 : j = i
      · subst h2
        rw [if_pos (by omega), List.getElem?_set_self (by omega), List.getElem?_eq_getElem]
      · rw [if_neg (by omega), List.getElem?_set_ne (by omega)]

theorem cv_remove_at_live (vec : car_vector_t) (pos : Nat) (hsize : vec.size ≤ vec.data.length)
    (hpos : pos < vec.size) :
    (cv_remove_at vec pos).size + 1 = vec.size
      ∧ (cv_remove_at vec pos).size ≤ (cv_remove_at vec pos).data.length
      ∧ (cv_remove_at vec pos).data.take (cv_remove_at vec pos).size
        = (vec.data.take vec.size).eraseIdx pos := by
  unfold cv_remove_at
  rw [if_neg (by omega)]
  dsimp only
  refine ⟨by omega, by rw [cv_shift_length]; omega, ?_⟩
  apply List.ext_getElem?
  intro j
  rw [List.getElem?_take, List.getElem?_eraseIdx, cv_shift_get _ _ _ (by omega)]
  by_cases h1 : j < vec.size - 1
  · rw [if_pos h1]
    by_cases h2 : j < pos
    · rw [if_neg (by omega), if_pos h2, List.getElem?_take, if_pos (by omega)]
    · rw [if_pos (by omega), if_neg h2, List.getElem?_take, if_pos (by omega)]
  · rw [if_neg h1]
    by_cases h2 : j < pos
    · omega
    · rw [if_neg h2, List.getElem?_take, if_neg (by omega)]

theorem cv_remove_loop_found (item : Nat) (vec : car_vector_t) (p : Nat) (slot : CarRef)
    (hslot : vec.data.get? p = some slot) (haddr : slot.address = item) :
    ∀ (n i : Nat), i ≤ p → p < i + n →
      (∀ j s, i ≤ j → j < p → vec.data.get? j = some s → s.address ≠ item) →
      cv_remove_loop item n i vec = cv_remove_at vec p := by
  intro n
  induction n with
  | zero =>
    intro i h1 h2 _
    omega
  | succ n ih =>
    intro i h1 h2 hbefore
    unfold cv_remove_loop
    by_cases hip : i = p
    · subst hip
      rw [hslot]
      dsimp only
      rw [if_pos haddr]
    · have hlt : i < p := by omega
      have hpl : p < vec.data.length := by
        rw [List.get?_eq_getElem?] at hslot
        exact (List.getElem?_eq_some_iff.mp hslot).1
      have hil : i < vec.data.length := by omega
      have hi : vec.data.get? i = some vec.data[i] := by
        rw [List.get?_eq_getElem?, List.getElem?_eq_getElem]
      rw [hi]
      dsimp only
      rw [if_neg (hbefore i _ (le_refl i) hlt hi)]
      exact ih (i + 1) (by omega) (by omega)
        (fun j s hj1 hj2 hs => hbefore j s (by omega) hj2 hs)

theorem map_eraseIdx_car (L : List CarRef) (p : Nat) :
    (L.eraseIdx p).map CarRef.car = (L.map CarRef.car).eraseIdx p := by
  apply List.ext_getElem?
  intro j
  rw [List.getElem?_map, List.getElem?_eraseIdx, List.getElem?_eraseIdx]
  split_ifs
  · rw [List.getElem?_map]
  · rw [List.getElem?_map]

theorem choose_car_loop_bound (source_floor destination_floor : List Char) :
    ∀ (rest : List Car) (i : Nat) (car : Option Nat) (min_entries k : Nat),
      choose_car_loop source_floor destination_floor rest i car min_entries = some k →
      car = some k ∨ (i ≤ k ∧ k < i + rest.length) := by
  intro rest
  induction rest with
  | nil =>
    intro i car m k h
    exact Or.inl h
  | cons c rest ih =>
    intro i car m k h
    unfold choose_car_loop at h
    rw [List.length_cons]
    dsimp only at h
    split_ifs at h
    · rcases ih _ _ _ _ h with h1 | h1
      · exact Or.inl h1
      · exact Or.inr ⟨by omega, by omega⟩
    · rcases ih _ _ _ _ h with h1 | h1
      · have hik : i = k := Option.some.inj h1
        exact Or.inr ⟨by omega, by omega⟩
      · exact Or.inr ⟨by omega, by omega⟩
    · rcases ih _ _ _ _ h with h1 | h1
      · exact Or.inl h1
      · exact Or.inr ⟨by omega, by omega⟩

theorem choose_car_loop_none (source_floor destination_floor : List Char) :
    ∀ (rest : List Car) (i min_entries : Nat),
      (∀ c ∈ rest, can_serve c source_floor destination_floor = false) →
      choose_car_loop source_floor destination_floor rest i none min_entries = none := by
  intro rest
  induction rest with
  | nil =>
    intro i m _
    rfl
  | cons c rest ih =>
    intro i m h
    have hc := h c (List.mem_cons_self _ _)
    unfold can_serve at hc
    unfold choose_car_loop
    rw [if_pos (by
      cases h1 : is_floor_within_bounds source_floor c.lowest_floor c.highest_floor <;>
        cases h2 : is_floor_within_bounds destination_floor c.lowest_floor c.highest_floor <;>
        simp_all)]
    exact ih _ _ (fun x hx => h x (List.mem_cons_of_mem _ hx))

/-- C24: the loop of `manage_car` calls `cv_remove` for its car and returns
when no message is received or the message is `INDIVIDUAL SERVICE` or
`EMERGENCY`.  For a car registered in the vector (its record is in the slot at
position `p`, the addresses of the registered records being distinct),
`cv_remove` takes exactly that slot out: the size goes down by one and the
other cars keep their order; afterwards no slot holds the removed car, so that
`choose_car` returns another car or none, and a call that no remaining car can
serve is answered with `UNAVAILABLE` frames only. -/
theorem cv_remove_spec (vec : car_vector_t) (item p : Nat) (slot : CarRef)
    (hsize : vec.size ≤ vec.data.length) (hp : p < vec.size)
    (hslot : vec.data.get? p = some slot) (haddr : slot.address = item)
    (hnodup : ((vec.data.take vec.size).map CarRef.address).Nodup) :
    manage_car_pass vec item Received.null = some (cv_remove vec item, [], true)
      ∧ manage_car_pass vec item (Received.message "INDIVIDUAL SERVICE".toList)
        = some (cv_remove vec item, [], true)
      ∧ manage_car_pass vec item (Received.message "EMERGENCY".toList)
        = some (cv_remove vec item, [], true)
      ∧ (cv_remove vec item).size + 1 = vec.size
      ∧ (cv_remove vec item).data.take (cv_remove vec item).size
        = (vec.data.take vec.size).eraseIdx p
      ∧ cv_cars (cv_remove vec item) = (cv_cars vec).eraseIdx p
      ∧ (∀ i r, cv_get_at (cv_remove vec item) i = some r → r.address ≠ item)
      ∧ (∀ source_floor destination_floor i,
          choose_car (cv_cars (cv_remove vec item)) source_floor destination_floor = some i →
          ∃ r, cv_get_at (cv_remove vec item) i = some r ∧ r.address ≠ item)
      ∧ (∀ clientfd source_floor destination_floor,
          (∀ c ∈ cv_cars (cv_remove vec item),
            can_serve c source_floor destination_floor = false) →
          ∃ sent, handle_call (cv_cars (cv_remove vec item)) clientfd source_floor
                destination_floor = some (cv_cars (cv_remove vec item), sent)
            ∧ sent ≠ [] ∧ ∀ s ∈ sent, s = ⟨clientfd, "UNAVAILABLE".toList⟩) := by
  have hLp : (vec.data.take vec.size)[p]? = some slot := by
    rw [List.getElem?_take, if_pos hp, ← List.get?_eq_getElem?]
    exact hslot
  have hlen : (vec.data.take vec.size).length = vec.size := by
    rw [List.length_take]
    omega
  have hunique : ∀ k s, (vec.data.take vec.size)[k]? = some s → s.address = item → k = p := by
    intro k s hk hs
    have hkl : k < ((vec.data.take vec.size).map CarRef.address).length := by
      rw [List.length_map]
      exact (List.getElem?_eq_some_iff.mp hk).1
    refine List.getElem?_inj hkl hnodup ?_
    rw [List.getElem?_map, List.getElem?_map, hk, hLp]
    show some s.address = some slot.address
    rw [hs, haddr]
  have hrem : cv_remove vec item = cv_remove_at vec p := by
    unfold cv_remove
    refine cv_remove_loop_found item vec p slot hslot haddr vec.size 0 (by omega) (by omega) ?_
    intro j s _ hj hs hc
    have := hunique j s (by
      rw [List.getElem?_take, if_pos (by omega), ← List.get?_eq_getElem?]
      exact hs) hc
    omega
  obtain ⟨l1, l2, l3⟩ := cv_remove_at_live vec p hsize hp
  rw [← hrem] at l1 l2 l3
  have hget : ∀ i r, cv_get_at (cv_remove vec item) i = some r → r.address ≠ item := by
    intro i r hi hc
    unfold cv_get_at at hi
    by_cases hlt : i < (cv_remove vec item).size
    · rw [if_pos hlt, List.get?_eq_getElem?] at hi
      have h2 : ((cv_remove vec item).data.take (cv_remove vec item).size)[i]? = some r := by
        rw [List.getElem?_take, if_pos hlt]
        exact hi
      rw [l3, List.getElem?_eraseIdx] at h2
      by_cases hip : i < p
      · rw [if_pos hip] at h2
        have := hunique i r h2 hc
        omega
      · rw [if_neg hip] at h2
        have := hunique (i + 1) r h2 hc
        omega
    · rw [if_neg hlt] at hi
      exact absurd hi (by simp)
  have hcars : cv_cars (cv_remove vec item) = (cv_cars vec).eraseIdx p := by
    unfold cv_cars
    rw [l3, map_eraseIdx_car]
  refine ⟨rfl, ?_, ?_, l1, l3, hcars, hget, ?_, ?_⟩
  · unfold manage_car_pass
    dsimp only
    rw [if_pos (Or.inl (by decide))]
  · unfold manage_car_pass
    dsimp only
    rw [if_pos (Or.inr (by decide))]
  · intro src dst i hi
    unfold choose_car at hi
    rcases choose_car_loop_bound src dst _ 0 none SIZE_MAX i hi with h | ⟨-, h⟩
    · exact absurd h (by simp)
    · have hcl : (cv_cars (cv_remove vec item)).length = (cv_remove vec item).size := by
        unfold cv_cars
        rw [List.length_map, List.length_take]
        omega
      have hi2 : i < (cv_remove vec item).size := by omega
      have hil : i < (cv_remove vec item).data.length := by omega
      have hg : cv_get_at (cv_remove vec item) i = some (cv_remove vec item).data[i] := by
        unfold cv_get_at
        rw [if_pos hi2, List.get?_eq_getElem?, List.getElem?_eq_getElem]
      exact ⟨_, hg, hget _ _ hg⟩
  · intro fd src dst hall
    have hnone : choose_car (cv_cars (cv_remove vec item)) src dst = none :=
      choose_car_loop_none src dst _ 0 SIZE_MAX hall
    unfold handle_call
    dsimp only
    rw [hnone]
    refine ⟨_, rfl, by simp, ?_⟩
    intro s hs
    rw [List.mem_append] at hs
    rcases hs with hs | hs
    · split_ifs at hs
      · exact List.mem_singleton.mp hs
      · exact absurd hs (List.not_mem_nil s)
    · exact List.mem_singleton.mp hs

/-- C24, at a registry of the two cars A (range 1..10) and C (range 5..10): car
A is removed, car C stays alone, and a later call from floor 1 to floor 3 gets
the reply `UNAVAILABLE`. -/
theorem cv_remove_spec_witness :
    cv_cars (cv_remove ⟨2, [⟨100, scenario_car⟩, ⟨200, closing_car []⟩]⟩ 100)
        = [closing_car []]
      ∧ (cv_remove ⟨2, [⟨100, scenario_car⟩, ⟨200, closing_car []⟩]⟩ 100).size = 1
      ∧ manage_car_pass ⟨2, [⟨100, scenario_car⟩, ⟨200, closing_car []⟩]⟩ 100
          (Received.message "EMERGENCY".toList)
        = some (cv_remove ⟨2, [⟨100, scenario_car⟩, ⟨200, closing_car []⟩]⟩ 100, [], true)
      ∧ handle_call (cv_cars (cv_remove ⟨2, [⟨100, scenario_car⟩, ⟨200, closing_car []⟩]⟩ 100))
          7 ['B', '1'] ['3']
        = some ([closing_car []], [⟨7, "UNAVAILABLE".toList⟩]) :=
  ⟨((cv_remove_spec ⟨2, [⟨100, scenario_car⟩, ⟨200, closing_car []⟩]⟩ 100 0
        ⟨100, scenario_car⟩ (by decide) (by decide) rfl rfl (by simp)).2.2.2.2.2.1).trans
      (by decide),
    by decide,
    (cv_remove_spec ⟨2, [⟨100, scenario_car⟩, ⟨200, closing_car []⟩]⟩ 100 0
        ⟨100, scenario_car⟩ (by decide) (by decide) rfl rfl (by simp)).2.2.1,
    by decide⟩

/-! ## The scheduler: where the two stops of a call go -/

theorem seek_position_bounds (src dst : List Char) (d : Direction) :
    ∀ (tail : List QueueNode) (pi : Nat) (prev : QueueNode) (sp : Option Nat),
      (∀ s, sp = some s → s ≤ pi) →
      pi ≤ (seek_position src dst d pi prev tail sp).1
        ∧ (seek_position src dst d pi prev tail sp).1 ≤ pi + tail.length
        ∧ ((seek_position src dst d pi prev tail sp).2 = none →
            (seek_position src dst d pi prev tail sp).1 = pi + tail.length)
        ∧ (∀ s, (seek_position src dst d pi prev tail sp).2 = some s →
            s ≤ (seek_position src dst d pi prev tail sp).1) := by
  intro tail
  induction tail with
  | nil =>
    intro pi prev sp hsp
    unfold seek_position
    exact ⟨le_refl _, le_refl _, fun _ => rfl, hsp⟩
  | cons current rest ih =>
    intro pi prev sp hsp
    have h1 : ∀ s, (if prev.direction ≠ current.direction then none else sp) = some s →
        s ≤ pi := by
      intro s hs
      by_cases c : prev.direction ≠ current.direction
      · rw [if_pos c] at hs
        exact absurd hs (by simp)
      · rw [if_neg c] at hs
        exact hsp s hs
    unfold seek_position
    dsimp only
    rw [List.length_cons]
    generalize (if prev.direction ≠ current.direction then none else sp) = sp1 at h1 ⊢
    by_cases c1 : prev.direction = current.direction ∧ prev.direction ≠ d
    · rw [if_pos c1]
      obtain ⟨a1, a2, a3, a4⟩ := ih (pi + 1) current sp1
        (fun s hs => by have := h1 s hs; omega)
      exact ⟨by omega, by omega, fun hn => by rw [a3 hn]; omega, a4⟩
    · rw [if_neg c1]
      have h2 : ∀ (c : Prop) [Decidable c] (s : Nat),
          (if c then some pi else sp1) = some s → s ≤ pi := by
        intro c _ s hs
        by_cases hc : c
        · rw [if_pos hc] at hs
          exact Nat.le_of_eq (Option.some.inj hs).symm
        · rw [if_neg hc] at hs
          exact h1 s hs
      have h2g := h2 (((decide (prev.direction ≠ d) || is_valid_order prev.floor src d)
            && (decide (current.direction ≠ d) || is_valid_order src current.floor d)) = true)
      generalize (if ((decide (prev.direction ≠ d) || is_valid_order prev.floor src d)
            && (decide (current.direction ≠ d) || is_valid_order src current.floor d)) = true
          then some pi else sp1) = sp2 at h2g ⊢
      by_cases c3 : (sp2.isSome
          && (decide (prev.direction ≠ d) || is_valid_order prev.floor dst d)
          && (decide (current.direction ≠ d) || is_valid_order dst current.floor d)) = true
      · rw [if_pos c3]
        refine ⟨le_refl _, by omega, ?_, h2g⟩
        intro hn
        change sp2 = none at hn
        rw [hn] at c3
        simp at c3
      · rw [if_neg c3]
        obtain ⟨a1, a2, a3, a4⟩ := ih (pi + 1) current sp2
          (fun s hs => by have := h2g s hs; omega)
        exact ⟨by omega, by omega, fun hn => by rw [a3 hn]; omega, a4⟩

theorem queue_add_shape (q : List QueueNode) (a : Nat) (floor : List Char) (d : Direction)
    (ha : a < q.length) :
    (queue_add q a floor d = q
        ∨ queue_add q a floor d = insert_at (a + 1) ⟨strncpy floor MAX_FLOOR_LENGTH, d⟩ q)
      ∧ q.length ≤ (queue_add q a floor d).length
      ∧ a + 1 < (queue_add q a floor d).length
      ∧ (∃ n, (queue_add q a floor d).get? (a + 1) = some n
          ∧ strncmp_eq n.floor floor MAX_FLOOR_LENGTH = true ∧ n.direction = d)
      ∧ ∀ i, i ≤ a → (queue_add q a floor d).get? i = q.get? i := by
  have hself : strncmp_eq (strncpy floor MAX_FLOOR_LENGTH) floor MAX_FLOOR_LENGTH = true := by
    unfold strncmp_eq strncpy
    rw [decide_eq_true_eq, List.take_take, Nat.min_self]
  rcases queue_add_cases q a floor d with ⟨h, next, h1, h2, h3⟩ | h
  · rw [h]
    refine ⟨Or.inl rfl, le_refl _, ?_, ⟨next, h1, h2, h3⟩, fun i _ => rfl⟩
    rw [List.get?_eq_getElem?] at h1
    exact (List.getElem?_eq_some_iff.mp h1).1
  · rw [h]
    refine ⟨Or.inr rfl, by rw [insert_at_length]; omega, by rw [insert_at_length]; omega,
      ⟨_, insert_at_get_eq (a + 1) _ q (by omega), hself, rfl⟩, ?_⟩
    intro i hi
    exact insert_at_get_lt (a + 1) _ q i (by omega) (by omega)

theorem insert_floors_shape (L : List QueueNode) (pp : Nat) (sp : Option Nat)
    (src dst : List Char) (d : Direction) (hpp : pp < L.length)
    (hsome : ∀ s, sp = some s → s ≤ pp) :
    ∃ (a b : Nat) (q1 : List QueueNode),
      a < L.length ∧ a + 1 ≤ b ∧ b < q1.length
        ∧ (q1 = L ∨ q1 = insert_at (a + 1) ⟨strncpy src MAX_FLOOR_LENGTH, d⟩ L)
        ∧ (insert_floors L pp sp src dst d = q1
            ∨ insert_floors L pp sp src dst d
              = insert_at (b + 1) ⟨strncpy dst MAX_FLOOR_LENGTH, d⟩ q1)
        ∧ (∃ n, (insert_floors L pp sp src dst d).get? (a + 1) = some n
            ∧ strncmp_eq n.floor src MAX_FLOOR_LENGTH = true ∧ n.direction = d)
        ∧ (∃ m, (insert_floors L pp sp src dst d).get? (b + 1) = some m
            ∧ strncmp_eq m.floor dst MAX_FLOOR_LENGTH = true ∧ m.direction = d) := by
  cases sp with
  | none =>
    obtain ⟨s1, s2, s3, s4, s5⟩ := queue_add_shape L pp src d hpp
    obtain ⟨t1, t2, t3, t4, t5⟩ := queue_add_shape (queue_add L pp src d) (pp + 1) dst d s3
    refine ⟨pp, pp + 1, queue_add L pp src d, hpp, le_refl _, s3, s1, ?_, ?_, ?_⟩
    · exact t1
    · obtain ⟨n, hn, hm⟩ := s4
      refine ⟨n, ?_, hm⟩
      show (queue_add (queue_add L pp src d) (pp + 1) dst d).get? (pp + 1) = some n
      rw [t5 (pp + 1) (le_refl _)]
      exact hn
    · exact t4
  | some s =>
    have hs := hsome s rfl
    obtain ⟨s1, s2, s3, s4, s5⟩ := queue_add_shape L s src d (by omega)
    have hb : (if s = pp then pp + 1 else pp + ((queue_add L s src d).length - L.length))
        < (queue_add L s src d).length := by
      split_ifs with h
      · rw [← h]
        exact s3
      · omega
    have hab : s + 1 ≤ (if s = pp then pp + 1
        else pp + ((queue_add L s src d).length - L.length)) := by
      split_ifs with h
      · omega
      · omega
    obtain ⟨t1, t2, t3, t4, t5⟩ := queue_add_shape (queue_add L s src d) _ dst d hb
    refine ⟨s, _, queue_add L s src d, by omega, hab, hb, s1, t1, ?_, t4⟩
    obtain ⟨n, hn, hm⟩ := s4
    refine ⟨n, ?_, hm⟩
    show (queue_add (queue_add L s src d) _ dst d).get? (s + 1) = some n
    rw [t5 (s + 1) hab]
    exact hn

theorem schedule_floors_shape (car car1 : Car) (src dst : List Char)
    (hres : schedule_floors car src dst = some car1) :
    ∃ (k : Nat) (L : List QueueNode) (a b : Nat) (q1 Q : List QueueNode),
      k ≤ 1 ∧ L ≠ [] ∧ L.drop k = car.queue ∧ car1 = { car with queue := Q.drop k }
        ∧ a < L.length ∧ a + 1 ≤ b ∧ b < q1.length
        ∧ (q1 = L
            ∨ q1 = insert_at (a + 1)
                ⟨strncpy src MAX_FLOOR_LENGTH, call_direction src dst⟩ L)
        ∧ (Q = q1
            ∨ Q = insert_at (b + 1) ⟨strncpy dst MAX_FLOOR_LENGTH, call_direction src dst⟩ q1)
        ∧ (∃ n, Q.get? (a + 1) = some n
            ∧ strncmp_eq n.floor src MAX_FLOOR_LENGTH = true
            ∧ n.direction = call_direction src dst)
        ∧ (∃ m, Q.get? (b + 1) = some m
            ∧ strncmp_eq m.floor dst MAX_FLOOR_LENGTH = true
            ∧ m.direction = call_direction src dst) := by
  have hcore : ∀ (status : List Char) (first : QueueNode) (rest : List QueueNode) (pi : Nat)
      (prev : QueueNode) (tail : List QueueNode),
      seek_start status first rest src (call_direction src dst) = some (pi, prev, tail) →
      (seek_position src dst (call_direction src dst) pi prev tail none).1
          < (first :: rest).length
        ∧ ∀ s, (seek_position src dst (call_direction src dst) pi prev tail none).2 = some s →
          s ≤ (seek_position src dst (call_direction src dst) pi prev tail none).1 := by
    intro status first rest pi prev tail hst
    obtain ⟨pre, hpre, hlen⟩ := seek_start_cases status first rest src _ pi prev tail hst
    obtain ⟨b1, b2, b3, b4⟩ := seek_position_bounds src dst (call_direction src dst) tail pi
      prev none (fun s hs => absurd hs (by simp))
    refine ⟨?_, b4⟩
    rw [hpre, List.length_append, List.length_cons, hlen]
    omega
  unfold schedule_floors at hres
  dsimp only at hres
  rcases add_virtual_node_cases car (call_direction src dst) with ⟨hva, hcar⟩ | ⟨hva, V, hV, hcar⟩
  · rw [hva, hcar] at hres
    cases hqq : car.queue with
    | nil =>
      rw [hqq] at hres
      exact absurd hres (by simp)
    | cons first rest =>
      rw [hqq] at hres
      dsimp only at hres
      cases hst : seek_start car.status first rest src (call_direction src dst) with
      | none =>
        rw [hst] at hres
        exact absurd hres (by simp)
      | some t =>
        obtain ⟨pi, prev, tail⟩ := t
        rw [hst] at hres
        simp only [ne_eq, not_true_eq_false, if_false, Option.some.injEq] at hres
        obtain ⟨c1, c2⟩ := hcore car.status first rest pi prev tail hst
        obtain ⟨a, b, q1, h1, h2, h3, h4, h5, h6, h7⟩ := insert_floors_shape (first :: rest) _ _
          src dst (call_direction src dst) c1 c2
        exact ⟨0, first :: rest, a, b, q1, _, by omega, by simp, rfl, hres.symm, h1, h2, h3, h4,
          h5, h6, h7⟩
  · rw [hva, hcar] at hres
    dsimp only at hres
    cases hst : seek_start car.status V car.queue src (call_direction src dst) with
    | none =>
      rw [hst] at hres
      exact absurd hres (by simp)
    | some t =>
      obtain ⟨pi, prev, tail⟩ := t
      rw [hst] at hres
      simp only [ne_eq, one_ne_zero, not_false_eq_true, if_true, Option.some.injEq] at hres
      obtain ⟨c1, c2⟩ := hcore car.status V car.queue pi prev tail hst
      obtain ⟨a, b, q1, h1, h2, h3, h4, h5, h6, h7⟩ := insert_floors_shape (V :: car.queue) _ _
        src dst (call_direction src dst) c1 c2
      refine ⟨1, V :: car.queue, a, b, q1, _, le_refl _, by simp, rfl, ?_, h1, h2, h3, h4,
        h5, h6, h7⟩
      rw [← hres, queue_pop_eq_drop]

theorem insert_at_sublist (j : Nat) (n : QueueNode) (q : List QueueNode) :
    List.Sublist q (insert_at j n q) := by
  unfold insert_at
  have h : List.Sublist (q.take j ++ q.drop j) (q.take j ++ n :: q.drop j) :=
    List.Sublist.append (List.Sublist.refl _) (List.sublist_cons_self _ _)
  rw [List.take_append_drop] at h
  exact h

theorem insert_at_mem (j : Nat) (n x : QueueNode) (q : List QueueNode)
    (hx : x ∈ insert_at j n q) : x = n ∨ x ∈ q := by
  unfold insert_at at hx
  rw [List.mem_append, List.mem_cons] at hx
  rcases hx with h | h | h
  · exact Or.inr (List.mem_of_mem_take h)
  · exact Or.inl h
  · exact Or.inr (List.mem_of_mem_drop h)

theorem schedule_floors_insertions (car car1 : Car) (src dst : List Char)
    (hres : schedule_floors car src dst = some car1) :
    car1 = { car with queue := car1.queue }
      ∧ ∃ (i j : Nat) (q1 : List QueueNode),
        (q1 = car.queue
            ∨ (i ≤ car.queue.length
              ∧ q1 = insert_at i ⟨strncpy src MAX_FLOOR_LENGTH, call_direction src dst⟩
                  car.queue))
          ∧ (car1.queue = q1
            ∨ (j ≤ q1.length
              ∧ car1.queue
                = insert_at j ⟨strncpy dst MAX_FLOOR_LENGTH, call_direction src dst⟩ q1))
          ∧ i < j
          ∧ (∃ n, car1.queue.get? i = some n
            ∧ strncmp_eq n.floor src MAX_FLOOR_LENGTH = true
            ∧ n.direction = call_direction src dst)
          ∧ (∃ m, car1.queue.get? j = some m
            ∧ strncmp_eq m.floor dst MAX_FLOOR_LENGTH = true
            ∧ m.direction = call_direction src dst) := by
  obtain ⟨k, L, a, b, q1, Q, hk, hL, hdrop, hcar, ha, hab, hb, hq1, hQ, hn, hm⟩ :=
    schedule_floors_shape car car1 src dst hres
  have hq : car1.queue = Q.drop k := by rw [hcar]
  refine ⟨by rw [hcar], ?_⟩
  have hk01 : k = 0 ∨ k = 1 := by omega
  rcases hk01 with rfl | rfl
  · rw [List.drop_zero] at hdrop hq
    subst hdrop
    refine ⟨a + 1, b + 1, q1, ?_, ?_, by omega, by rw [hq]; exact hn, by rw [hq]; exact hm⟩
    · rcases hq1 with h | h
      · exact Or.inl h
      · exact Or.inr ⟨by omega, h⟩
    · rw [hq]
      rcases hQ with h | h
      · exact Or.inl h
      · exact Or.inr ⟨by omega, h⟩
  · have hq1ne : q1 ≠ [] := by
      intro h
      rw [h] at hb
      simp at hb
    have hLlen : L.length = car.queue.length + 1 := by
      rw [← hdrop, List.length_drop]
      have : 0 < L.length := List.length_pos.mpr hL
      omega
    refine ⟨a, b, q1.drop 1, ?_, ?_, by omega, ?_, ?_⟩
    · rcases hq1 with h | h
      · left
        rw [h, hdrop]
      · right
        refine ⟨by omega, ?_⟩
        rw [h, insert_at_drop_one a _ L hL, hdrop]
    · rw [hq]
      rcases hQ with h | h
      · left
        rw [h]
      · right
        refine ⟨by rw [List.length_drop]; omega, ?_⟩
        rw [h, insert_at_drop_one b _ q1 hq1ne]
    · rw [hq, get_drop_one]
      exact hn
    · rw [hq, get_drop_one]
      exact hm

open Direction

/-! ## The order of the floors by position -/

theorem acf_position (a b : List Char) (ha : is_valid_floor a = true)
    (hb : is_valid_floor b = true) :
    are_consecutive_floors a b = true ↔ floor_number a ≤ floor_number b := by
  obtain ⟨ea, a1, a2⟩ := floor_label_number a ha
  obtain ⟨eb, b1, b2⟩ := floor_label_number b hb
  have h := acf_floor_label (floor_number a) (floor_number b) a1 a2 b1 b2
  rw [ea, eb] at h
  exact h

theorem floor_number_inj (a b : List Char) (ha : is_valid_floor a = true)
    (hb : is_valid_floor b = true) (h : floor_number a = floor_number b) : a = b := by
  rw [← (floor_label_number a ha).1, ← (floor_label_number b hb).1, h]

theorem call_direction_position (src dst : List Char) (hs : is_valid_floor src = true)
    (hd : is_valid_floor dst = true) : call_direction src dst = travel_direction src dst := by
  unfold call_direction travel_direction
  by_cases h : floor_number src ≤ floor_number dst
  · rw [if_pos ((acf_position src dst hs hd).mpr h), if_pos h]
  · rw [if_neg (fun hc => h ((acf_position src dst hs hd).mp hc)), if_neg h]

theorem within_bounds_position (car : Car) (floor : List Char)
    (hf : is_valid_floor floor = true) (hl : is_valid_floor car.lowest_floor = true)
    (hh : is_valid_floor car.highest_floor = true) :
    is_floor_within_bounds floor car.lowest_floor car.highest_floor = range_contains car floor := by
  unfold is_floor_within_bounds range_contains
  rw [Bool.eq_iff_iff, Bool.and_eq_true, acf_position _ _ hl hf, acf_position _ _ hf hh,
    decide_eq_true_iff]

theorem can_serve_position (car : Car) (src dst : List Char) (hs : is_valid_floor src = true)
    (hd : is_valid_floor dst = true) (hl : is_valid_floor car.lowest_floor = true)
    (hh : is_valid_floor car.highest_floor = true) :
    can_serve car src dst = true
      ↔ range_contains car src = true ∧ range_contains car dst = true := by
  unfold can_serve
  rw [Bool.and_eq_true, within_bounds_position car src hs hl hh,
    within_bounds_position car dst hd hl hh]

/-- C4: for a call between two valid floors on a registry of cars with valid
ranges, `choose_car` returns a car whose range from its lowest to its highest
floor contains both floors of the call, by position in the building, and whose
ride queue is no longer than that of any other such car, the first registered
among those of the same shortest queue; it returns no car exactly when no
registered car's range contains both floors.  (A ride queue has fewer than
`SIZE_MAX` entries.) -/
theorem choose_car_spec (cars : List Car) (source_floor destination_floor : List Char)
    (hsize : ∀ c ∈ cars, queue_size c.queue < SIZE_MAX)
    (hsrc : is_valid_floor source_floor = true)
    (hdst : is_valid_floor destination_floor = true)
    (hcars : ∀ c ∈ cars,
      is_valid_floor c.lowest_floor = true ∧ is_valid_floor c.highest_floor = true) :
    (∀ i, choose_car cars source_floor destination_floor = some i →
      ∃ car, cars.get? i = some car
        ∧ range_contains car source_floor = true
        ∧ range_contains car destination_floor = true
        ∧ (∀ other ∈ cars, range_contains other source_floor = true →
            range_contains other destination_floor = true →
            queue_size car.queue ≤ queue_size other.queue)
        ∧ (∀ j other, cars.get? j = some other →
            range_contains other source_floor = true →
            range_contains other destination_floor = true →
            queue_size other.queue = queue_size car.queue → i ≤ j))
    ∧ (choose_car cars source_floor destination_floor = none ↔
        ∀ car ∈ cars, ¬ (range_contains car source_floor = true
          ∧ range_contains car destination_floor = true)) := by
  have hcs : ∀ c ∈ cars, (can_serve c source_floor destination_floor = true
      ↔ range_contains c source_floor = true ∧ range_contains c destination_floor = true) :=
    fun c hc => can_serve_position c _ _ hsrc hdst (hcars c hc).1 (hcars c hc).2
  obtain ⟨m, hm⟩ := choose_car_loop_spec source_floor destination_floor cars [] none SIZE_MAX
    (by simpa using hsize) ⟨rfl, by simp⟩
  simp only [List.nil_append, List.length_nil] at hm
  unfold choose_car
  constructor
  · intro i hi
    rw [hi] at hm
    obtain ⟨c, hk, hc, _, hall⟩ := hm
    have hc' := (hcs c (List.get?_mem hk)).mp hc
    refine ⟨c, hk, hc'.1, hc'.2, ?_, ?_⟩
    · intro other ho h1 h2
      obtain ⟨j, hj⟩ := List.get?_of_mem ho
      exact (hall j other hj ((hcs other ho).mpr ⟨h1, h2⟩)).1
    · intro j other hj h1 h2 heq
      exact (hall j other hj ((hcs other (List.get?_mem hj)).mpr ⟨h1, h2⟩)).2 heq
  · constructor
    · intro hnone
      rw [hnone] at hm
      intro car hcar hc
      have := hm.2 car hcar
      rw [(hcs car hcar).mpr hc] at this
      exact absurd this (by simp)
    · intro hall
      cases hres : choose_car_loop source_floor destination_floor cars 0 none SIZE_MAX with
      | none => rfl
      | some k =>
        rw [hres] at hm
        obtain ⟨c, hk, hc, _, _⟩ := hm
        exact absurd ((hcs c (List.get?_mem hk)).mp hc) (hall c (List.get?_mem hk))

/-- C4, at a concrete registry: for `CALL 1 3` the idle car B at position 1 is
chosen, ahead of the busier car A, which is registered before it, and of the
idle car C, whose range starts at floor 5; for `CALL B1 3` no car is chosen. -/
theorem choose_car_spec_witness :
    choose_car scenario_registry ['1'] ['3'] = some 1
    ∧ (∃ car, scenario_registry.get? 1 = some car
        ∧ range_contains car ['1'] = true
        ∧ range_contains car ['3'] = true
        ∧ (∀ other ∈ scenario_registry, range_contains other ['1'] = true →
            range_contains other ['3'] = true →
            queue_size car.queue ≤ queue_size other.queue)
        ∧ (∀ j other, scenario_registry.get? j = some other →
            range_contains other ['1'] = true →
            range_contains other ['3'] = true →
            queue_size other.queue = queue_size car.queue → 1 ≤ j))
    ∧ choose_car scenario_registry ['B', '1'] ['3'] = none :=
  ⟨by decide,
    (choose_car_spec scenario_registry ['1'] ['3'] (by decide) (by decide) (by decide)
      (by decide)).1 1 (by decide),
    (choose_car_spec scenario_registry ['B', '1'] ['3'] (by decide) (by decide) (by decide)
      (by decide)).2.mpr (by decide)⟩

open Direction

/-! ## The scheduler: the two stops of a call between valid floors -/

theorem valid_floor_copy (f : List Char) (hf : is_valid_floor f = true) :
    strncpy f MAX_FLOOR_LENGTH = f :=
  strncpy_eq f _ (by have := valid_floor_length f hf; unfold MAX_FLOOR_LENGTH; omega)

theorem schedule_floors_stops (car car1 : Car) (src dst : List Char)
    (hsrc : is_valid_floor src = true) (hdst : is_valid_floor dst = true)
    (hres : schedule_floors car src dst = some car1) :
    car1 = { car with queue := car1.queue }
      ∧ ∃ (i j : Nat) (q1 : List QueueNode),
        (q1 = car.queue
            ∨ (i ≤ car.queue.length
              ∧ q1 = insert_at i ⟨src, travel_direction src dst⟩ car.queue))
          ∧ (car1.queue = q1
            ∨ (j ≤ q1.length
              ∧ car1.queue = insert_at j ⟨dst, travel_direction src dst⟩ q1))
          ∧ i < j
          ∧ (∃ n, car1.queue.get? i = some n
            ∧ strncmp_eq n.floor src MAX_FLOOR_LENGTH = true
            ∧ n.direction = travel_direction src dst)
          ∧ (∃ m, car1.queue.get? j = some m
            ∧ strncmp_eq m.floor dst MAX_FLOOR_LENGTH = true
            ∧ m.direction = travel_direction src dst) := by
  have h := schedule_floors_insertions car car1 src dst hres
  rw [valid_floor_copy src hsrc, valid_floor_copy dst hdst,
    call_direction_position src dst hsrc hdst] at h
  exact h

theorem schedule_floors_members (car car1 : Car) (src dst : List Char)
    (hsrc : is_valid_floor src = true) (hdst : is_valid_floor dst = true)
    (hres : schedule_floors car src dst = some car1) :
    ∀ n ∈ car1.queue, n ∈ car.queue
      ∨ n = ⟨src, travel_direction src dst⟩ ∨ n = ⟨dst, travel_direction src dst⟩ := by
  obtain ⟨-, i, j, q1, hq1, hQ, -, -, -⟩ := schedule_floors_stops car car1 src dst hsrc hdst hres
  intro x hx
  have hx1 : x ∈ q1 ∨ x = ⟨dst, travel_direction src dst⟩ := by
    rcases hQ with h | ⟨-, h⟩
    · rw [h] at hx
      exact Or.inl hx
    · rw [h] at hx
      rcases insert_at_mem _ _ _ _ hx with h1 | h1
      · exact Or.inr h1
      · exact Or.inl h1
  rcases hx1 with hx1 | hx1
  · rcases hq1 with h | ⟨-, h⟩
    · rw [h] at hx1
      exact Or.inl hx1
    · rw [h] at hx1
      rcases insert_at_mem _ _ _ _ hx1 with h1 | h1
      · exact Or.inr (Or.inl h1)
      · exact Or.inl h1
  · exact Or.inr (Or.inr hx1)

theorem record_fits_queue (car : Car) (h : record_fits car = true) :
    ∀ n ∈ car.queue, n.floor.length < MAX_FLOOR_LENGTH := by
  unfold record_fits at h
  simp only [Bool.and_eq_true, List.all_eq_true, decide_eq_true_eq] at h
  exact h.2

/-- C27: whenever `schedule_floors` completes for a call from the valid floor
`src` to a different valid floor `dst`, on a car record whose strings fit their
buffers, the ride queue afterwards is not empty and holds the entry
`(src, call_dir)` at a position before the entry `(dst, call_dir)`, where
`call_dir` is U when `src` is below `dst` by position in the building, and D
otherwise. -/
theorem pickup_precedes_dropoff (car car1 : Car) (src dst : List Char)
    (hsrc : is_valid_floor src = true) (hdst : is_valid_floor dst = true) (hne : src ≠ dst)
    (hfit : record_fits car = true)
    (hres : schedule_floors car src dst = some car1) :
    car1.queue ≠ []
      ∧ ∃ (i j : Nat), i < j
        ∧ car1.queue.get? i
          = some ⟨src, if floor_number src < floor_number dst then UP else DOWN⟩
        ∧ car1.queue.get? j
          = some ⟨dst, if floor_number src < floor_number dst then UP else DOWN⟩ := by
  have hdir : travel_direction src dst
      = if floor_number src < floor_number dst then UP else DOWN := by
    unfold travel_direction
    have hn : floor_number src ≠ floor_number dst :=
      fun h => hne (floor_number_inj src dst hsrc hdst h)
    by_cases h : floor_number src < floor_number dst
    · rw [if_pos (by omega), if_pos h]
    · rw [if_neg (by omega), if_neg h]
  obtain ⟨-, i, j, q1, -, -, hij, ⟨s, hs, hs1, hs2⟩, ⟨t, ht, ht1, ht2⟩⟩ :=
    schedule_floors_stops car car1 src dst hsrc hdst hres
  have hmem := schedule_floors_members car car1 src dst hsrc hdst hres
  have hq := record_fits_queue car hfit
  have hs3 := valid_floor_length src hsrc
  have hd3 := valid_floor_length dst hdst
  have hlen : ∀ x ∈ car1.queue, x.floor.length ≤ MAX_FLOOR_LENGTH := by
    intro x hx
    rcases hmem x hx with h | h | h
    · exact Nat.le_of_lt (hq x h)
    · rw [h]
      show src.length ≤ MAX_FLOOR_LENGTH
      unfold MAX_FLOOR_LENGTH
      omega
    · rw [h]
      show dst.length ≤ MAX_FLOOR_LENGTH
      unfold MAX_FLOOR_LENGTH
      omega
  have e1 : s.floor = src :=
    (strncmp_eq_iff _ _ _ (hlen s (List.get?_mem hs)) (by unfold MAX_FLOOR_LENGTH; omega)).mp hs1
  have e2 : t.floor = dst :=
    (strncmp_eq_iff _ _ _ (hlen t (List.get?_mem ht)) (by unfold MAX_FLOOR_LENGTH; omega)).mp ht1
  refine ⟨?_, i, j, hij, ?_, ?_⟩
  · intro he
    rw [he] at hs
    simp at hs
  · rw [hs, ← hdir, ← hs2, ← e1]
  · rw [ht, ← hdir, ← ht2, ← e2]

/-- C27, at the scenario car: with the queue (5,U), the up call `CALL 3 7` puts
(3,U) before (7,U); with the queue (3,U),(5,U),(7,U), the down call `CALL 8 2`
puts (8,D) before (2,D). -/
theorem pickup_precedes_dropoff_witness :
    (schedule_floors { scenario_car with queue := [⟨['5'], UP⟩] } ['3'] ['7']
        = some { scenario_car with queue := [⟨['3'], UP⟩, ⟨['5'], UP⟩, ⟨['7'], UP⟩] }
      ∧ ∃ i j, i < j
        ∧ ({ scenario_car with queue := [⟨['3'], UP⟩, ⟨['5'], UP⟩, ⟨['7'], UP⟩] } : Car).queue.get? i
          = some ⟨['3'], UP⟩
        ∧ ({ scenario_car with queue := [⟨['3'], UP⟩, ⟨['5'], UP⟩, ⟨['7'], UP⟩] } : Car).queue.get? j
          = some ⟨['7'], UP⟩)
    ∧ (schedule_floors { scenario_car with queue := [⟨['3'], UP⟩, ⟨['5'], UP⟩, ⟨['7'], UP⟩] }
          ['8'] ['2']
        = some { scenario_car with
            queue := [⟨['3'], UP⟩, ⟨['5'], UP⟩, ⟨['7'], UP⟩, ⟨['8'], DOWN⟩, ⟨['2'], DOWN⟩] }
      ∧ ∃ i j, i < j
        ∧ ({ scenario_car with
            queue := [⟨['3'], UP⟩, ⟨['5'], UP⟩, ⟨['7'], UP⟩, ⟨['8'], DOWN⟩,
              ⟨['2'], DOWN⟩] } : Car).queue.get? i = some ⟨['8'], DOWN⟩
        ∧ ({ scenario_car with
            queue := [⟨['3'], UP⟩, ⟨['5'], UP⟩, ⟨['7'], UP⟩, ⟨['8'], DOWN⟩,
              ⟨['2'], DOWN⟩] } : Car).queue.get? j = some ⟨['2'], DOWN⟩) := by
  have hup := (pickup_precedes_dropoff { scenario_car with queue := [⟨['5'], UP⟩] }
    { scenario_car with queue := [⟨['3'], UP⟩, ⟨['5'], UP⟩, ⟨['7'], UP⟩] } ['3'] ['7']
    (by decide) (by decide) (by decide) (by decide) (by decide)).2
  have hdown := (pickup_precedes_dropoff
    { scenario_car with queue := [⟨['3'], UP⟩, ⟨['5'], UP⟩, ⟨['7'], UP⟩] }
    { scenario_car with
      queue := [⟨['3'], UP⟩, ⟨['5'], UP⟩, ⟨['7'], UP⟩, ⟨['8'], DOWN⟩, ⟨['2'], DOWN⟩] }
    ['8'] ['2'] (by decide) (by decide) (by decide) (by decide) (by decide)).2
  rw [if_pos (by decide)] at hup
  rw [if_neg (by decide)] at hdown
  exact ⟨⟨by decide, hup⟩, ⟨by decide, hdown⟩⟩

/-- C28: whenever `schedule_floors` completes for a call from the valid floor
`src` to the valid floor `dst`, on a car record whose strings fit their
buffers, the car record is as before but for its ride queue, and the new queue
is the old one with at most two entries put in, first `(src, call_dir)` and
then `(dst, call_dir)`, where `call_dir` is U when `src` is at or below `dst`
by position in the building, and D otherwise: the old entries are all there,
unchanged and in their order, and the virtual head is not among the entries. -/
theorem schedule_floors_frame (car car1 : Car) (src dst : List Char)
    (hsrc : is_valid_floor src = true) (hdst : is_valid_floor dst = true)
    (hfit : record_fits car = true)
    (hres : schedule_floors car src dst = some car1) :
    car1 = { car with queue := car1.queue }
      ∧ (∃ (i j : Nat) (q1 : List QueueNode),
          (q1 = car.queue
            ∨ (i ≤ car.queue.length
              ∧ q1 = insert_at i
                  ⟨src, if floor_number src ≤ floor_number dst then UP else DOWN⟩ car.queue))
          ∧ (car1.queue = q1
            ∨ (j ≤ q1.length
              ∧ car1.queue = insert_at j
                  ⟨dst, if floor_number src ≤ floor_number dst then UP else DOWN⟩ q1)))
      ∧ List.Sublist car.queue car1.queue
      ∧ car1.queue.length ≤ car.queue.length + 2
      ∧ (∀ n ∈ car1.queue, n ∈ car.queue
          ∨ n = ⟨src, if floor_number src ≤ floor_number dst then UP else DOWN⟩
          ∨ n = ⟨dst, if floor_number src ≤ floor_number dst then UP else DOWN⟩)
      ∧ record_fits car1 = true := by
  obtain ⟨hcar, i, j, q1, hq1, hQ, -, -, -⟩ :=
    schedule_floors_stops car car1 src dst hsrc hdst hres
  have hmem := schedule_floors_members car car1 src dst hsrc hdst hres
  unfold travel_direction at hq1 hQ hmem
  have hsub1 : List.Sublist car.queue q1 := by
    rcases hq1 with h | ⟨-, h⟩
    · rw [h]
    · rw [h]
      exact insert_at_sublist _ _ _
  have hsub2 : List.Sublist q1 car1.queue := by
    rcases hQ with h | ⟨-, h⟩
    · rw [h]
    · rw [h]
      exact insert_at_sublist _ _ _
  have hlen1 : q1.length ≤ car.queue.length + 1 := by
    rcases hq1 with h | ⟨-, h⟩
    · rw [h]
      omega
    · rw [h, insert_at_length]
  have hlen2 : car1.queue.length ≤ q1.length + 1 := by
    rcases hQ with h | ⟨-, h⟩
    · rw [h]
      omega
    · rw [h, insert_at_length]
  refine ⟨hcar, ⟨i, j, q1, hq1, hQ⟩, hsub1.trans hsub2, by omega, hmem, ?_⟩
  have hq := record_fits_queue car hfit
  have hs3 := valid_floor_length src hsrc
  have hd3 := valid_floor_length dst hdst
  have hq1 : ∀ n ∈ car1.queue, n.floor.length < MAX_FLOOR_LENGTH := by
    intro x hx
    rcases hmem x hx with h | h | h
    · exact hq x h
    · rw [h]
      show src.length < MAX_FLOOR_LENGTH
      unfold MAX_FLOOR_LENGTH
      omega
    · rw [h]
      show dst.length < MAX_FLOOR_LENGTH
      unfold MAX_FLOOR_LENGTH
      omega
  unfold record_fits at hfit ⊢
  rw [hcar]
  simp only [Bool.and_eq_true, List.all_eq_true, decide_eq_true_eq] at hfit ⊢
  exact ⟨hfit.1, hq1⟩

/-- C28, at the scenario car with the queue (3,U),(5,U),(7,U): `CALL 8 2` leaves
the three entries in place and puts (8,D) and (2,D) behind them. -/
theorem schedule_floors_frame_witness :
    schedule_floors { scenario_car with queue := [⟨['3'], UP⟩, ⟨['5'], UP⟩, ⟨['7'], UP⟩] }
        ['8'] ['2']
        = some { scenario_car with
            queue := [⟨['3'], UP⟩, ⟨['5'], UP⟩, ⟨['7'], UP⟩, ⟨['8'], DOWN⟩, ⟨['2'], DOWN⟩] }
      ∧ List.Sublist [⟨['3'], UP⟩, ⟨['5'], UP⟩, ⟨['7'], UP⟩]
          ({ scenario_car with
            queue := [⟨['3'], UP⟩, ⟨['5'], UP⟩, ⟨['7'], UP⟩, ⟨['8'], DOWN⟩,
              ⟨['2'], DOWN⟩] } : Car).queue
      ∧ (∀ n ∈ ({ scenario_car with
            queue := [⟨['3'], UP⟩, ⟨['5'], UP⟩, ⟨['7'], UP⟩, ⟨['8'], DOWN⟩,
              ⟨['2'], DOWN⟩] } : Car).queue,
          n ∈ [⟨['3'], UP⟩, ⟨['5'], UP⟩, ⟨['7'], UP⟩]
            ∨ n = ⟨['8'], DOWN⟩ ∨ n = ⟨['2'], DOWN⟩) := by
  have h := schedule_floors_frame
    { scenario_car with queue := [⟨['3'], UP⟩, ⟨['5'], UP⟩, ⟨['7'], UP⟩] }
    { scenario_car with
      queue := [⟨['3'], UP⟩, ⟨['5'], UP⟩, ⟨['7'], UP⟩, ⟨['8'], DOWN⟩, ⟨['2'], DOWN⟩] }
    ['8'] ['2'] (by decide) (by decide) (by decide) (by decide)
  rw [if_neg (by decide)] at h
  exact ⟨by decide, h.2.2.1, h.2.2.2.2.1⟩

open Direction

/-! ## The connection to the controller: the loop of a car at rest -/

open Direction

/-- The individual service mode entered while the car moves: a car standing at
floor 1 with the destination floor 2 starts to move in its first iteration, and
`individual_service_mode` is set during the sleep of `move_car`.  The iteration
ends with the flag remembered as 1 although its connection statements saw it as
0, so the second iteration, which observes `individual_service_mode = 1`, sees
no rising edge: `should_connect` is 1 after both. -/
theorem service_mode_entered_during_move :
    (manage_car_iterations 5 1
        { idle_thread ['1'] ['2'] 0 0 with
          env := [⟨fun shm => shm, true⟩, flags_written (1, 0)]
          }).state.car_info.shm.individual_service_mode = 1
      ∧ (manage_car_iterations 5 1
        { idle_thread ['1'] ['2'] 0 0 with
          env := [⟨fun shm => shm, true⟩, flags_written (1, 0)]
          }).state.last_individual_service_mode = 1
      ∧ (manage_car_iterations 5 1
        { idle_thread ['1'] ['2'] 0 0 with
          env := [⟨fun shm => shm, true⟩, flags_written (1, 0)]
          }).state.car_info.should_connect = 1
      ∧ (manage_car_iterations 5 2
        { idle_thread ['1'] ['2'] 0 0 with
          env := [⟨fun shm => shm, true⟩, flags_written (1, 0)]
          }).state.car_info.shm.individual_service_mode = 1
      ∧ (manage_car_iterations 5 2
        { idle_thread ['1'] ['2'] 0 0 with
          env := [⟨fun shm => shm, true⟩, flags_written (1, 0)]
          }).state.car_info.should_connect = 1 := by
  decide

open Direction

/-! ## Blockwise monotonicity: calls whose pickup floor lies ahead of the car -/

end Elevator
